import Mathlib

/-!
# Mini-Regex (regex.c / regex.h): a shallow embedding and its properties

Conventions of the embedding.

* A `char` is a natural number (its byte value).  The claims about ranges are stated for
  7-bit characters, where the signedness of `char` does not matter.
* A C string pointer is the list of the bytes from the pointer onwards; the string ends at
  the first `0` of the list or at the end of the list, whichever comes first (the byte after
  the list is the terminating NUL).
* The two static arrays of `Regex_Compile` make up a `State`; they are total functions on the
  index, so that a write at any index is visible.
* The anonymous union of `regex_t` is kept as two fields.  `Regex_Compile` writes `ch` only
  together with type `CHAR` and `ccl` only together with a class type, and every theorem on
  the result of a call quantifies over all earlier contents of both fields.
* A pointer into `Pattern_Compiled` (`re_t`) is `none` for the null pointer and `some i` for
  the address of slot `i`.
-/

namespace MiniRegex

/-! ## regex.h -/

/-- Max number of regex operators in expression. -/
def REGEX_MAX_OPERATORS : Nat := 30

/-- Max length of character-class buffer. -/
def REGEX_CHAR_BUFFER_SIZE : Nat := 40

/-- Available regex operators, in the order of the enum of regex.h. -/
inductive RegexType
  | UNUSED | DOT | BEGIN | END | QUESTIONMARK | STAR | PLUS
  | CHAR | CHAR_CLASS | INV_CHAR_CLASS | DIGIT | NOT_DIGIT
  | ALPHA | NOT_ALPHA | WHITESPACE | NOT_WHITESPACE
  deriving DecidableEq

open RegexType

/-- Regex compiled pattern: `type` is the operator, `ch` the character, `ccl` the index in
`Char_Buffer` the class pointer points to. -/
structure regex_t where
  type : RegexType
  ch : Nat
  ccl : Nat
  deriving DecidableEq

/-- Pointer to a compiled pattern: null, or the address of a slot of `Pattern_Compiled`. -/
abbrev re_t := Option Nat

/-- The static storage of `Regex_Compile`. -/
structure State where
  Pattern_Compiled : Nat → regex_t
  Char_Buffer : Nat → Nat

/-- Static storage at program start: all bytes zero. -/
def State.zero : State :=
  { Pattern_Compiled := fun _ => { type := UNUSED, ch := 0, ccl := 0 }
    Char_Buffer := fun _ => 0 }

/-- The assignment `Pattern_Compiled[i].type = t`. -/
def State.setType (st : State) (i : Nat) (t : RegexType) : State :=
  { st with Pattern_Compiled := fun j =>
      if j = i then { st.Pattern_Compiled j with type := t } else st.Pattern_Compiled j }

/-- The assignment `Pattern_Compiled[i].ch = c`. -/
def State.setCh (st : State) (i : Nat) (c : Nat) : State :=
  { st with Pattern_Compiled := fun j =>
      if j = i then { st.Pattern_Compiled j with ch := c } else st.Pattern_Compiled j }

/-- The assignment `Pattern_Compiled[i].ccl = &Char_Buffer[b]`. -/
def State.setCcl (st : State) (i : Nat) (b : Nat) : State :=
  { st with Pattern_Compiled := fun j =>
      if j = i then { st.Pattern_Compiled j with ccl := b } else st.Pattern_Compiled j }

/-- The assignment `Char_Buffer[i] = c`. -/
def State.setBuf (st : State) (i : Nat) (c : Nat) : State :=
  { st with Char_Buffer := fun j => if j = i then c else st.Char_Buffer j }

/-- The byte `str[k]` of a C string. -/
def strAt (str : List Nat) (k : Nat) : Nat := str.getD k 0

/-! ## regex.c: private character predicates -/

/-- Check if char is metachar. -/
def ismetachar (c : Nat) : Bool :=
  c == 115 || c == 83 || c == 119 || c == 87 || c == 100 || c == 68

/-- Match numeric. -/
def matchdigit (c : Nat) : Bool := decide (48 ≤ c) && decide (c ≤ 57)

/-- Match character. -/
def matchalpha (c : Nat) : Bool :=
  (decide (97 ≤ c) && decide (c ≤ 122)) || (decide (65 ≤ c) && decide (c ≤ 90))

/-- Match alphanumeric. -/
def matchalphanum (c : Nat) : Bool := c == 95 || matchalpha c || matchdigit c

/-- Match whitespace and special characters. -/
def matchwhitespace (c : Nat) : Bool :=
  c == 32 || c == 9 || c == 10 || c == 13 || c == 12 || c == 11

/-- Match ranges. -/
def matchrange (c : Nat) (str : List Nat) : Bool :=
  c != 45 && strAt str 0 != 0 && strAt str 0 != 45 &&
  strAt str 1 == 45 && strAt str 1 != 0 &&
  strAt str 2 != 0 && (decide (strAt str 0 ≤ c) && decide (c ≤ strAt str 2))

/-- Match metachar. -/
def matchmetachar (c : Nat) (str : List Nat) : Bool :=
  if strAt str 0 = 100 then matchdigit c
  else if strAt str 0 = 68 then !matchdigit c
  else if strAt str 0 = 119 then matchalphanum c
  else if strAt str 0 = 87 then !matchalphanum c
  else if strAt str 0 = 115 then matchwhitespace c
  else if strAt str 0 = 83 then !matchwhitespace c
  else c == strAt str 0

/-- The do-while loop of `matchcharclass`.  `str` is the pointer, `prev` the byte `str[-1]`;
`esc = true` is the point right after `str += 1` in the escape branch, `esc = false` the
top of the loop body. -/
def matchcharclassLoop (c : Nat) : Bool → Nat → List Nat → Bool
  | false, prev, str =>
    if matchrange c str then true
    else if strAt str 0 = 92 then
      match str with
      | [] => false
      | x :: rest => matchcharclassLoop c true x rest
    else if c = strAt str 0 then
      if c = 45 then (prev == 0 || strAt str 1 == 0) else true
    else
      match str with
      | [] => false
      | x :: rest => if x ≠ 0 then matchcharclassLoop c false x rest else false
  | true, _, str =>
    if matchmetachar c str then true
    else if c = strAt str 0 ∧ ismetachar c = false then true
    else
      match str with
      | [] => false
      | x :: rest => if x ≠ 0 then matchcharclassLoop c false x rest else false

/-- The bytes of `Char_Buffer` from index `i` to the end of the buffer. -/
def bufFrom (buf : Nat → Nat) (i : Nat) : List Nat :=
  (List.range (REGEX_CHAR_BUFFER_SIZE - i)).map (fun k => buf (i + k))

/-- Match characters-class: `str` is `&Char_Buffer[i]`. -/
def matchcharclass (buf : Nat → Nat) (c : Nat) (i : Nat) : Bool :=
  matchcharclassLoop c false (buf (i - 1)) (bufFrom buf i)

/-- Match one char of pattern. -/
def matchone (buf : Nat → Nat) (p : regex_t) (c : Nat) : Bool :=
  match p.type with
  | DOT => true
  | CHAR_CLASS => matchcharclass buf c p.ccl
  | INV_CHAR_CLASS => !matchcharclass buf c p.ccl
  | DIGIT => matchdigit c
  | NOT_DIGIT => !matchdigit c
  | ALPHA => matchalphanum c
  | NOT_ALPHA => !matchalphanum c
  | WHITESPACE => matchwhitespace c
  | NOT_WHITESPACE => !matchwhitespace c
  | _ => p.ch == c

/-! ## regex.c: Regex_Compile

The argument `Pattern` of `Regex_Compile` is the content of the character array without its
last byte, the terminating NUL.  The pointer `Pattern + Index_Pattern` is the list of the
bytes of the array from `Index_Pattern` on (`cur` below), so `Pattern[Index_Pattern + k]` is
`cur[k]`, and it is outside the array when `cur` has no such element. -/

/-- What the copy loop of a character class does. -/
inductive ClassOutcome
  /-- The loop reads `Pattern` outside the array. -/
  | outside
  /-- The loop executes `return 0`. -/
  | overflow (st : State)
  /-- The loop is left with `Pattern + Index_Pattern = cur`. -/
  | closed (st : State) (cur : List Nat) (Index_Char_Buffer : Nat)

/-- Copy characters inside [..] to buffer: the while loop.  `cur` is the pointer
`Pattern + Index_Pattern` after the pre-increment of the loop condition. -/
def copyClass : State → List Nat → Nat → ClassOutcome
  | _, [], _ => .outside
  | st, c :: rest, ib =>
    if c ≠ 93 ∧ c ≠ 0 then
      if c = 92 then
        if ib ≥ REGEX_CHAR_BUFFER_SIZE - 1 then .overflow st
        else
          match rest with
          | [] => .outside
          | d :: rest2 => copyClass ((st.setBuf ib c).setBuf (ib + 1) d) rest2 (ib + 2)
      else if ib ≥ REGEX_CHAR_BUFFER_SIZE then .overflow st
      else copyClass (st.setBuf ib c) rest (ib + 1)
    else .closed st (c :: rest) ib

/-- What a call of `Regex_Compile` does. -/
inductive CompileOutcome
  /-- The call reads `Pattern` outside the array. -/
  | outside
  /-- The call returns `handle` and leaves the static storage `st`. -/
  | ret (st : State) (handle : re_t)

/-- The type written for the byte after a backslash, if it is a meta-character. -/
def escapedType (c : Nat) : Option RegexType :=
  if c = 100 then some DIGIT
  else if c = 68 then some NOT_DIGIT
  else if c = 119 then some ALPHA
  else if c = 87 then some NOT_ALPHA
  else if c = 115 then some WHITESPACE
  else if c = 83 then some NOT_WHITESPACE
  else none

/-- The type written for a meta-character of the outer switch. -/
def metaType (c : Nat) : Option RegexType :=
  if c = 94 then some BEGIN
  else if c = 36 then some END
  else if c = 46 then some DOT
  else if c = 42 then some STAR
  else if c = 43 then some PLUS
  else if c = 63 then some QUESTIONMARK
  else none

/-- Scan entire pattern: the outer while loop of `Regex_Compile` and what follows it.
`ic` is `Index_Pattern_Compiled` and `ib` is `Index_Char_Buffer`.  `fuel` bounds the number
of iterations; every iteration moves the pointer by at least one byte, so the number of
bytes left in the array is enough and the second clause is not reached from `Regex_Compile`
(`compileLoop_fuel_succ`). -/
def compileLoop : Nat → State → List Nat → Nat → Nat → CompileOutcome
  | _, _, [], _, _ => .outside
  | 0, _, _ :: _, _, _ => .outside
  | fuel + 1, st, c :: rest, ic, ib =>
    if c ≠ 0 ∧ ic + 1 < REGEX_MAX_OPERATORS then
      match metaType c with
      | some t => compileLoop fuel (st.setType ic t) rest (ic + 1) ib
      | none =>
        if c = 92 then
          match rest with
          | [] => .outside
          | d :: rest2 =>
            if d ≠ 0 then
              match escapedType d with
              | some t => compileLoop fuel (st.setType ic t) rest2 (ic + 1) ib
              | none => compileLoop fuel ((st.setType ic CHAR).setCh ic d) rest2 (ic + 1) ib
            else compileLoop fuel st rest (ic + 1) ib
        else if c = 91 then
          match rest with
          | [] => .outside
          | d :: rest2 =>
            let st1 := if d = 94 then st.setType ic INV_CHAR_CLASS else st.setType ic CHAR_CLASS
            let cur1 := if d = 94 then rest2 else rest
            match copyClass st1 cur1 ib with
            | .outside => .outside
            | .overflow st2 => .ret st2 none
            | .closed st2 cur2 ib2 =>
              if ib2 ≥ REGEX_CHAR_BUFFER_SIZE then .ret st2 none
              else
                compileLoop fuel (((st2.setBuf ib2 0).setCcl ic ib)) (cur2.drop 1) (ic + 1)
                  (ib2 + 1)
        else compileLoop fuel ((st.setType ic CHAR).setCh ic c) rest (ic + 1) ib
    else .ret (st.setType ic UNUSED) (some 0)

/-- Compile text pattern to a regex_t structure. -/
def Regex_Compile (st : State) (Pattern : List Nat) : CompileOutcome :=
  compileLoop (Pattern.length + 1) st (Pattern ++ [0]) 0 1

/-! ## regex.c: the matcher

`matchpattern` calls the three quantifier handlers, which call `matchpattern` on the rest of
the pattern.  The bodies of the handlers are given first, with the call
`matchpattern(pattern, ·)` as the argument `k` and `matchone(p, ·)` as the argument `m`;
`matchstar`, `matchplus` and `matchquestion` below instantiate them. -/

/-- Body of `matchstar`. -/
def starLoop (m : Nat → Bool) (k : List Nat → Bool) : List Nat → Bool
  | [] => k []
  | c :: text => k (c :: text) || (c != 0 && m c && starLoop m k text)

/-- Body of `matchplus`. -/
def plusLoop (m : Nat → Bool) (k : List Nat → Bool) : List Nat → Bool
  | [] => false
  | c :: text => c != 0 && m c && (k text || plusLoop m k text)

/-- Body of `matchquestion`; `t` is `p.type`. -/
def questionBody (t : RegexType) (m : Nat → Bool) (k : List Nat → Bool) (text : List Nat) :
    Bool :=
  if t = UNUSED then true
  else if k text then true
  else
    match text with
    | [] => false
    | c :: rest => if c ≠ 0 ∧ m c = true then k rest else false

/-- Match pattern.  `pattern` is the list of the slots from the pointer to the end of the
array; a slot after the end of the list reads as `UNUSED`. -/
def matchpattern (buf : Nat → Nat) : List regex_t → List Nat → Bool
  | [], _ => true
  | [p0], text =>
    if p0.type = UNUSED then true
    else if p0.type = END then strAt text 0 == 0
    else
      match text with
      | [] => false
      | c :: _ => c != 0 && matchone buf p0 c
  | p0 :: p1 :: pattern, text =>
    if p0.type = UNUSED ∨ p1.type = QUESTIONMARK then
      questionBody p0.type (matchone buf p0) (matchpattern buf pattern) text
    else if p1.type = STAR then
      starLoop (matchone buf p0) (matchpattern buf pattern) text
    else if p1.type = PLUS then
      plusLoop (matchone buf p0) (matchpattern buf pattern) text
    else if p0.type = END ∧ p1.type = UNUSED then strAt text 0 == 0
    else
      match text with
      | [] => false
      | c :: rest => c != 0 && matchone buf p0 c && matchpattern buf (p1 :: pattern) rest

/-- Match 0 or more. -/
def matchstar (buf : Nat → Nat) (p : regex_t) (pattern : List regex_t) (text : List Nat) :
    Bool :=
  starLoop (matchone buf p) (matchpattern buf pattern) text

/-- Match 1 or more. -/
def matchplus (buf : Nat → Nat) (p : regex_t) (pattern : List regex_t) (text : List Nat) :
    Bool :=
  plusLoop (matchone buf p) (matchpattern buf pattern) text

/-- Match zero or one. -/
def matchquestion (buf : Nat → Nat) (p : regex_t) (pattern : List regex_t)
    (text : List Nat) : Bool :=
  questionBody p.type (matchone buf p) (matchpattern buf pattern) text

/-- The slots of `Pattern_Compiled` from index `i` to the end of the array. -/
def patternFrom (st : State) (i : Nat) : List regex_t :=
  (List.range (REGEX_MAX_OPERATORS - i)).map (fun k => st.Pattern_Compiled (i + k))

/-- The do-while scan of `Regex_Matchp`; `Index` is the value after `Index++`. -/
def scanText (buf : Nat → Nat) (pattern : List regex_t) : Nat → List Nat → Int
  | Index, Text =>
    if matchpattern buf pattern Text then
      if strAt Text 0 = 0 then -1 else (Index : Int)
    else
      match Text with
      | [] => -1
      | c :: rest => if c ≠ 0 then scanText buf pattern (Index + 1) rest else -1

/-- Find matches of the compiled regex_t pattern inside text. -/
def Regex_Matchp (st : State) (Text : List Nat) (Pattern : re_t) : Int :=
  match Pattern with
  | none => -1
  | some i =>
    if (st.Pattern_Compiled i).type = BEGIN then
      if matchpattern st.Char_Buffer (patternFrom st (i + 1)) Text then 0 else -1
    else scanText st.Char_Buffer (patternFrom st i) 0 Text

/-- Find matches of the text pattern inside text (will compile automatically first).
The result is `none` when `Regex_Compile` reads outside the array of the pattern. -/
def Regex_Match (st : State) (Text : List Nat) (Pattern : List Nat) : Option Int :=
  match Regex_Compile st Pattern with
  | .outside => none
  | .ret st1 handle => some (Regex_Matchp st1 Text handle)

/-! ## Reading the result of a call -/

/-- The pointer a call returns, if the call returns. -/
def CompileOutcome.handle : CompileOutcome → Option re_t
  | .outside => none
  | .ret _ h => some h

/-- The static storage a call leaves (the argument `st` if the call does not return). -/
def CompileOutcome.state (st : State) : CompileOutcome → State
  | .outside => st
  | .ret st1 _ => st1

/-! ## Pattern grammar used in the statements

A pattern is described as a sequence of tokens: a byte that is neither a backslash nor `[`,
a backslash with the byte after it, or a bracketed class closed by `]` with no backslash in
it. -/

/-- One token of a pattern. -/
inductive Tok
  /-- A byte other than NUL, backslash and `[`. -/
  | plain (c : Nat)
  /-- A backslash and the byte `c` after it. -/
  | esc (c : Nat)
  /-- The class `[body]`, or `[^body]` when `neg`. -/
  | cls (neg : Bool) (body : List Nat)
  deriving DecidableEq

/-- The bytes of a token. -/
def Tok.render : Tok → List Nat
  | .plain c => [c]
  | .esc c => [92, c]
  | .cls neg body => 91 :: ((if neg then [94] else []) ++ body ++ [93])

/-- The bytes of a sequence of tokens. -/
def renderToks : List Tok → List Nat
  | [] => []
  | t :: ts => t.render ++ renderToks ts

/-- Well-formed tokens: no NUL; a plain byte is no backslash and no `[`; the body of a class
has no backslash and no `]`, and does not start with `^` unless after the negation mark. -/
def Tok.wf : Tok → Prop
  | .plain c => c ≠ 0 ∧ c ≠ 92 ∧ c ≠ 91
  | .esc c => c ≠ 0
  | .cls neg body => (∀ b ∈ body, b ≠ 0 ∧ b ≠ 92 ∧ b ≠ 93) ∧ (neg = false → body.head? ≠ some 94)

instance : DecidablePred Tok.wf := fun t => by
  cases t <;> unfold Tok.wf <;> infer_instance

/-- The bytes of `Char_Buffer` a token takes: the content of a class and its NUL. -/
def Tok.bufUse : Tok → Nat
  | .cls _ body => body.length + 1
  | _ => 0

/-- The bytes of `Char_Buffer` a sequence of tokens takes. -/
def bufUseToks : List Tok → Nat
  | [] => 0
  | t :: ts => t.bufUse + bufUseToks ts

/-- The instruction of the dispatch table of the spec for a token: its type, and the
character of a `CHAR`. -/
def Tok.instr : Tok → RegexType × Option Nat
  | .plain 94 => (BEGIN, none)
  | .plain 36 => (END, none)
  | .plain 46 => (DOT, none)
  | .plain 42 => (STAR, none)
  | .plain 43 => (PLUS, none)
  | .plain 63 => (QUESTIONMARK, none)
  | .plain c => (CHAR, some c)
  | .esc 100 => (DIGIT, none)
  | .esc 68 => (NOT_DIGIT, none)
  | .esc 119 => (ALPHA, none)
  | .esc 87 => (NOT_ALPHA, none)
  | .esc 115 => (WHITESPACE, none)
  | .esc 83 => (NOT_WHITESPACE, none)
  | .esc c => (CHAR, some c)
  | .cls true _ => (INV_CHAR_CLASS, none)
  | .cls false _ => (CHAR_CLASS, none)

/-- A slot holds the instruction of a token. -/
def holdsInstr (p : regex_t) (t : Tok) : Prop :=
  p.type = t.instr.1 ∧ ∀ c, t.instr.2 = some c → p.ch = c

/-- The assignments `Char_Buffer[ib + k] = body[k]` for the bytes of `body`, in order. -/
def writeBytes (st : State) : Nat → List Nat → State
  | _, [] => st
  | ib, b :: body => writeBytes (st.setBuf ib b) (ib + 1) body

/-- The writes of `Regex_Compile` for one token, at `Index_Pattern_Compiled = ic` and
`Index_Char_Buffer = ib`. -/
def Tok.write (st : State) (ic ib : Nat) : Tok → State
  | .plain c =>
    match metaType c with
    | some t => st.setType ic t
    | none => (st.setType ic CHAR).setCh ic c
  | .esc c =>
    match escapedType c with
    | some t => st.setType ic t
    | none => (st.setType ic CHAR).setCh ic c
  | .cls neg body =>
    (((writeBytes (st.setType ic (if neg then INV_CHAR_CLASS else CHAR_CLASS)) ib body).setBuf
      (ib + body.length) 0).setCcl ic ib)

/-- The writes of `Regex_Compile` for a sequence of tokens. -/
def writeToks (st : State) : Nat → Nat → List Tok → State
  | _, _, [] => st
  | ic, ib, t :: ts => writeToks (t.write st ic ib) (ic + 1) (ib + t.bufUse) ts

/-- Split a pattern without classes into tokens, left to right: a backslash together with
the following byte is one token, every other byte is one token. -/
def tokenize : List Nat → List Tok
  | [] => []
  | [c] => [.plain c]
  | c :: d :: rest => if c = 92 then .esc d :: tokenize rest else .plain c :: tokenize (d :: rest)

/-- The pattern `s` occurs in `t` at offset `i`. -/
def occursAt (s t : List Nat) (i : Nat) : Prop := (t.drop i).take s.length = s

/-- The slots `L` are `CHAR` instructions for the bytes of `s`. -/
def litSlots (L : List regex_t) (s : List Nat) : Prop :=
  List.Forall₂ (fun p c => p.type = CHAR ∧ p.ch = c) L s

/-- The bytes of a pattern: a sequence of tokens, followed by one more backslash when
`trail` (a backslash that is the last byte of the pattern). -/
def renderPattern (toks : List Tok) (trail : Bool) : List Nat :=
  renderToks toks ++ (if trail then [92] else [])

/-- The number of instruction slots a pattern takes, the sentinel not included. -/
def slotCount (toks : List Tok) (trail : Bool) : Nat :=
  toks.length + (if trail then 1 else 0)

/-- Atoms: a byte that is no meta-character of the outer switch, the dot, an escaped byte,
a class. -/
def Tok.atom : Tok → Prop
  | .plain c => metaType c = none ∨ c = 46
  | .esc _ => True
  | .cls _ _ => True

/-- An ordinary byte: 7-bit, not NUL and none of the special characters. -/
def ordinary (c : Nat) : Prop :=
  c < 128 ∧ c ≠ 0 ∧ c ≠ 94 ∧ c ≠ 36 ∧ c ≠ 46 ∧ c ≠ 42 ∧ c ≠ 43 ∧ c ≠ 63 ∧ c ≠ 92 ∧ c ≠ 91

instance : DecidablePred ordinary := fun c => by unfold ordinary; infer_instance


/-! ## Frames and fixed points of the writes -/

/-- The state a class copy loop leaves, and the buffer index it reaches. -/
def ClassOutcome.frame (st : State) (ib : Nat) : ClassOutcome → Prop
  | .outside => True
  | .overflow st2 =>
    st2.Pattern_Compiled = st.Pattern_Compiled ∧ ∀ j < ib, st2.Char_Buffer j = st.Char_Buffer j
  | .closed st2 _ ib2 =>
    st2.Pattern_Compiled = st.Pattern_Compiled ∧ ib ≤ ib2 ∧
      ∀ j < ib, st2.Char_Buffer j = st.Char_Buffer j

/-- What a class copy loop leaves is a fixed point of the same loop: run again on a state
that holds the bytes the loop wrote, it writes nothing new. -/
def ClassOutcome.absorbed (cur : List Nat) (ib : Nat) : ClassOutcome → Prop
  | .outside => True
  | .overflow st2 =>
    ∀ s : State, (∀ j, ib ≤ j → s.Char_Buffer j = st2.Char_Buffer j) →
      copyClass s cur ib = .overflow s
  | .closed st2 cur2 ib2 =>
    ∀ s : State, (∀ j, ib ≤ j → j < ib2 → s.Char_Buffer j = st2.Char_Buffer j) →
      copyClass s cur ib = .closed s cur2 ib2

/-- A call writes `Pattern_Compiled` at indices from `ic` on and `Char_Buffer` at indices
from `ib` on only. -/
def CompileOutcome.frame (st : State) (ic ib : Nat) : CompileOutcome → Prop
  | .outside => True
  | .ret st1 _ =>
    (∀ j < ic, st1.Pattern_Compiled j = st.Pattern_Compiled j) ∧
      ∀ j < ib, st1.Char_Buffer j = st.Char_Buffer j

/-- What a call leaves is a fixed point of the same call: run again on a state that holds
what the call wrote, it returns the same pointer and changes nothing. -/
def CompileOutcome.absorbed (fuel : Nat) (cur : List Nat) (ic ib : Nat) :
    CompileOutcome → Prop
  | .outside => True
  | .ret st1 h =>
    ∀ s : State, (∀ j, ic ≤ j → s.Pattern_Compiled j = st1.Pattern_Compiled j) →
      (∀ j, ib ≤ j → s.Char_Buffer j = st1.Char_Buffer j) →
      compileLoop fuel s cur ic ib = .ret s h

/-- The static storage after `Regex_Compile("a")` at program start. -/
def stateA : State := (Regex_Compile State.zero [97]).state State.zero

/-- A class body with escapes, read left to right: no NUL, every backslash takes the byte
after it (which is not NUL), and no `]` other than one taken by a backslash. -/
def wellEscaped : List Nat → Bool
  | [] => true
  | [c] => c != 0 && c != 92 && c != 93
  | c :: d :: rest =>
    if c = 92 then d != 0 && wellEscaped rest
    else c != 0 && c != 93 && wellEscaped (d :: rest)

/-- The NUL-terminated string at `&Char_Buffer[i]`: the bytes from index `i` up to the first
NUL. -/
def cstringAt (buf : Nat → Nat) (i : Nat) : List Nat :=
  (bufFrom buf i).takeWhile (fun b => b != 0)

/-- Well-formed tokens whose classes may hold escapes: as `Tok.wf`, but the body of a class
is a body with escapes (`wellEscaped`): a backslash takes the byte after it, which may be
`]`. -/
def Tok.wfEsc : Tok → Prop
  | .plain c => c ≠ 0 ∧ c ≠ 92 ∧ c ≠ 91
  | .esc c => c ≠ 0
  | .cls neg body => wellEscaped body = true ∧ (neg = false → body.head? ≠ some 94)

instance : DecidablePred Tok.wfEsc := fun t => by
  cases t <;> unfold Tok.wfEsc <;> infer_instance

/-! ## Class contents used in the statements -/

/-- One item of a class content: a literal byte, or a range `lo-hi`. -/
inductive ClassItem
  | lit (b : Nat)
  | range (lo hi : Nat)
  deriving DecidableEq

/-- The bytes of an item of a class content. -/
def ClassItem.render : ClassItem → List Nat
  | .lit b => [b]
  | .range lo hi => [lo, 45, hi]

/-- The bytes of a class content. -/
def renderItems : List ClassItem → List Nat
  | [] => []
  | it :: its => it.render ++ renderItems its

/-- A byte allowed as a literal or as the end of a range: 7-bit, not NUL, not `-`, not a
backslash. -/
def classByte (b : Nat) : Prop := b < 128 ∧ b ≠ 0 ∧ b ≠ 45 ∧ b ≠ 92

instance : DecidablePred classByte := fun b => by unfold classByte; infer_instance

/-- Well-formed items: the bytes are class bytes and a range is not empty. -/
def ClassItem.wf : ClassItem → Prop
  | .lit b => classByte b
  | .range lo hi => classByte lo ∧ classByte hi ∧ lo ≤ hi

instance : DecidablePred ClassItem.wf := fun it => by
  cases it <;> unfold ClassItem.wf <;> infer_instance

/-- The character `c` is the literal, or lies in the range. -/
def ClassItem.accepts (c : Nat) : ClassItem → Prop
  | .lit b => c = b
  | .range lo hi => lo ≤ c ∧ c ≤ hi

instance (c : Nat) : DecidablePred (ClassItem.accepts c) := fun it => by
  cases it <;> unfold ClassItem.accepts <;> infer_instance

/-! ## Well-formed instruction sequences and their matches -/

/-- The type of a slot is one of the atoms. -/
def isAtomType (t : RegexType) : Prop :=
  t = CHAR ∨ t = DOT ∨ t = CHAR_CLASS ∨ t = INV_CHAR_CLASS ∨ t = DIGIT ∨ t = NOT_DIGIT ∨
    t = ALPHA ∨ t = NOT_ALPHA ∨ t = WHITESPACE ∨ t = NOT_WHITESPACE

/-- The type of a slot is one of the quantifiers. -/
def isQuantType (t : RegexType) : Prop := t = QUESTIONMARK ∨ t = STAR ∨ t = PLUS

/-- One item of a well-formed pattern: the slot of an atom and, if the atom is quantified,
the slot of its quantifier. -/
structure Item where
  atom : regex_t
  quant : Option regex_t

/-- The atom slot holds an atom and the quantifier slot, if any, a quantifier. -/
def Item.wf (it : Item) : Prop :=
  isAtomType it.atom.type ∧ ∀ q, it.quant = some q → isQuantType q.type

/-- The slots of an item. -/
def Item.slots (it : Item) : List regex_t := it.atom :: it.quant.toList

/-- The slots of a sequence of items. -/
def itemSlots : List Item → List regex_t
  | [] => []
  | it :: its => it.slots ++ itemSlots its

/-- The block lengths an item allows: 1 when unquantified, 0 or 1 for `?`, any for `*`, at
least 1 for `+`. -/
def Item.allows (it : Item) (k : Nat) : Prop :=
  match it.quant with
  | none => k = 1
  | some q =>
    if q.type = QUESTIONMARK then k ≤ 1
    else if q.type = STAR then True
    else 1 ≤ k

/-- A prefix of `t` splits into consecutive blocks, one per item: every character of a block
satisfies `matchone` for the atom of its item, the length of the block is one the item
allows, and, when `hasEnd`, the prefix is the whole of `t`. -/
def blocks (buf : Nat → Nat) : List Item → Bool → List Nat → Prop
  | [], hasEnd, t => hasEnd = true → t = []
  | it :: its, hasEnd, t =>
    ∃ k, k ≤ t.length ∧ it.allows k ∧ (∀ c ∈ t.take k, matchone buf it.atom c = true) ∧
      blocks buf its hasEnd (t.drop k)

/-- The slots of a well-formed pattern: the items, then `e` when `hasEnd`, then `u`, then
what is left of the array. -/
def wfPattern (items : List Item) (hasEnd : Bool) (e u : regex_t) (junk : List regex_t) :
    List regex_t :=
  itemSlots items ++ ((if hasEnd then [e] else []) ++ u :: junk)

/-- The call reads `Pattern` outside the array. -/
def CompileOutcome.isOutside : CompileOutcome → Bool
  | .outside => true
  | .ret _ _ => false

/-- The static storage after `Regex_Compile("[a-zA-Z]")` at program start. -/
def stateLetters : State :=
  (Regex_Compile State.zero [91, 97, 45, 122, 65, 45, 90, 93]).state State.zero

/-- The static storage after `Regex_Compile("[a-z-]")` at program start. -/
def stateDash : State :=
  (Regex_Compile State.zero [91, 97, 45, 122, 45, 93]).state State.zero

/-! ## The writes of Regex_Compile, recorded

`Regex_Compile` again, on a storage that records the array and the index of every write in
the order of the writes.  The control flow is the one of `compileLoop` and `copyClass`; the
storage is changed by the four assignments below only, each of which records its index. -/

/-- A write to the static storage: the array and the index. -/
inductive Write
  /-- An assignment to a field of `Pattern_Compiled[i]`. -/
  | instr (i : Nat)
  /-- An assignment to `Char_Buffer[i]`. -/
  | buf (i : Nat)
  deriving DecidableEq

/-- The index of the write is inside the array: `0..REGEX_MAX_OPERATORS-1` for
`Pattern_Compiled`, and `1..REGEX_CHAR_BUFFER_SIZE-1` for `Char_Buffer`. -/
def Write.inBounds : Write → Bool
  | .instr i => decide (i < REGEX_MAX_OPERATORS)
  | .buf i => decide (1 ≤ i) && decide (i < REGEX_CHAR_BUFFER_SIZE)

/-- The static storage and the writes made so far, oldest first. -/
structure Logged where
  st : State
  log : List Write

/-- The assignment `Pattern_Compiled[i].type = t`, recorded. -/
def Logged.setType (s : Logged) (i : Nat) (t : RegexType) : Logged :=
  { st := s.st.setType i t, log := s.log ++ [Write.instr i] }

/-- The assignment `Pattern_Compiled[i].ch = c`, recorded. -/
def Logged.setCh (s : Logged) (i : Nat) (c : Nat) : Logged :=
  { st := s.st.setCh i c, log := s.log ++ [Write.instr i] }

/-- The assignment `Pattern_Compiled[i].ccl = &Char_Buffer[b]`, recorded. -/
def Logged.setCcl (s : Logged) (i : Nat) (b : Nat) : Logged :=
  { st := s.st.setCcl i b, log := s.log ++ [Write.instr i] }

/-- The assignment `Char_Buffer[i] = c`, recorded. -/
def Logged.setBuf (s : Logged) (i : Nat) (c : Nat) : Logged :=
  { st := s.st.setBuf i c, log := s.log ++ [Write.buf i] }

/-- What the copy loop of a character class does, with the storage and the writes at the
point where the loop is left on each of the three paths. -/
inductive ClassTrace
  /-- The loop reads `Pattern` outside the array. -/
  | outside (s : Logged)
  /-- The loop executes `return 0`. -/
  | overflow (s : Logged)
  /-- The loop is left with `Pattern + Index_Pattern = cur`. -/
  | closed (s : Logged) (cur : List Nat) (Index_Char_Buffer : Nat)

/-- The copy loop of a character class (`copyClass`), recording its writes. -/
def copyClassLogged : Logged → List Nat → Nat → ClassTrace
  | s, [], _ => .outside s
  | s, c :: rest, ib =>
    if c ≠ 93 ∧ c ≠ 0 then
      if c = 92 then
        if ib ≥ REGEX_CHAR_BUFFER_SIZE - 1 then .overflow s
        else
          match rest with
          | [] => .outside (s.setBuf ib c)
          | d :: rest2 => copyClassLogged ((s.setBuf ib c).setBuf (ib + 1) d) rest2 (ib + 2)
      else if ib ≥ REGEX_CHAR_BUFFER_SIZE then .overflow s
      else copyClassLogged (s.setBuf ib c) rest (ib + 1)
    else .closed s (c :: rest) ib

/-- What a call of `Regex_Compile` does, with the storage and the writes at the point where
the call ends on each path. -/
inductive CompileTrace
  /-- The call reads `Pattern` outside the array. -/
  | outside (s : Logged)
  /-- The call returns `handle`. -/
  | ret (s : Logged) (handle : re_t)

/-- The outer loop of `Regex_Compile` and what follows it (`compileLoop`), recording its
writes. -/
def compileLoopLogged : Nat → Logged → List Nat → Nat → Nat → CompileTrace
  | _, s, [], _, _ => .outside s
  | 0, s, _ :: _, _, _ => .outside s
  | fuel + 1, s, c :: rest, ic, ib =>
    if c ≠ 0 ∧ ic + 1 < REGEX_MAX_OPERATORS then
      match metaType c with
      | some t => compileLoopLogged fuel (s.setType ic t) rest (ic + 1) ib
      | none =>
        if c = 92 then
          match rest with
          | [] => .outside s
          | d :: rest2 =>
            if d ≠ 0 then
              match escapedType d with
              | some t => compileLoopLogged fuel (s.setType ic t) rest2 (ic + 1) ib
              | none =>
                compileLoopLogged fuel ((s.setType ic CHAR).setCh ic d) rest2 (ic + 1) ib
            else compileLoopLogged fuel s rest (ic + 1) ib
        else if c = 91 then
          match rest with
          | [] => .outside s
          | d :: rest2 =>
            let s1 := if d = 94 then s.setType ic INV_CHAR_CLASS else s.setType ic CHAR_CLASS
            let cur1 := if d = 94 then rest2 else rest
            match copyClassLogged s1 cur1 ib with
            | .outside s2 => .outside s2
            | .overflow s2 => .ret s2 none
            | .closed s2 cur2 ib2 =>
              if ib2 ≥ REGEX_CHAR_BUFFER_SIZE then .ret s2 none
              else
                compileLoopLogged fuel (((s2.setBuf ib2 0).setCcl ic ib)) (cur2.drop 1)
                  (ic + 1) (ib2 + 1)
        else compileLoopLogged fuel ((s.setType ic CHAR).setCh ic c) rest (ic + 1) ib
    else .ret (s.setType ic UNUSED) (some 0)

/-- The call `Regex_Compile(Pattern)` on the storage `st`, recording its writes. -/
def Regex_CompileLogged (st : State) (Pattern : List Nat) : CompileTrace :=
  compileLoopLogged (Pattern.length + 1) { st := st, log := [] } (Pattern ++ [0]) 0 1

/-- The outcome of the copy loop without the record of the writes. -/
def ClassTrace.erase : ClassTrace → ClassOutcome
  | .outside _ => .outside
  | .overflow s => .overflow s.st
  | .closed s cur ib => .closed s.st cur ib

/-- The outcome of the call without the record of the writes. -/
def CompileTrace.erase : CompileTrace → CompileOutcome
  | .outside _ => .outside
  | .ret s h => .ret s.st h

/-- The storage and the writes at the point where the copy loop is left. -/
def ClassTrace.logged : ClassTrace → Logged
  | .outside s => s
  | .overflow s => s
  | .closed s _ _ => s

/-- The storage and the writes at the point where the call ends. -/
def CompileTrace.logged : CompileTrace → Logged
  | .outside s => s
  | .ret s _ => s

/-! ## regex.c: the matcher, call by call and with checked reads

The functions of the matcher once more, as the C functions call each other.  A loop is
its body followed by the same function on the moved pointers.  Every call and every loop
iteration takes one unit of the `fuel` it is given and hands the rest to the calls and the
iteration it makes, so `fuel` bounds the depth to which calls and iterations are nested.
Every array is the list of its elements from the pointer to the end of the array, and a
read after the end of the list, or before the start of `Char_Buffer`, is a fault: a text is
the bytes of its array, its terminating NUL and the bytes after it included. -/

/-- What a run of a function of the matcher gives. -/
inductive Run (α : Type)
  /-- The run takes more nested calls and iterations than `fuel`. -/
  | nofuel
  /-- The run reads outside an array. -/
  | fault
  /-- The run returns `a`. -/
  | done (a : α)
  deriving DecidableEq

/-- Match ranges, with checked reads: `&&` reads `str[1]` only when `str[0]` is neither NUL
nor `-`, and `str[2]` only when `str[1]` is `-`. -/
def Checked.matchrange (c : Nat) (str : List Nat) : Option Bool :=
  if c = 45 then some false
  else
    match str[0]? with
    | none => none
    | some s0 =>
      if s0 = 0 ∨ s0 = 45 then some false
      else
        match str[1]? with
        | none => none
        | some s1 =>
          if s1 = 45 ∧ s1 ≠ 0 then
            match str[2]? with
            | none => none
            | some s2 => some (decide (s2 ≠ 0) && (decide (s0 ≤ c) && decide (c ≤ s2)))
          else some false

/-- The do-while loop of `matchcharclass` (`matchcharclassLoop`), with checked reads.
`prev` is the byte `str[-1]`, or `none` when `str` is the start of the buffer.  With `str`
at the end of the buffer the first read, of `str[0]`, is outside. -/
def Checked.matchcharclassLoop (c : Nat) : Bool → Option Nat → List Nat → Option Bool
  | _, _, [] => none
  | false, prev, x :: rest =>
    match Checked.matchrange c (x :: rest) with
    | none => none
    | some true => some true
    | some false =>
      if x = 92 then Checked.matchcharclassLoop c true (some x) rest
      else if c = x then
        if c = 45 then
          match prev with
          | none => none
          | some b =>
            if b = 0 then some true
            else
              match rest with
              | [] => none
              | y :: _ => some (y == 0)
        else some true
      else if x ≠ 0 then Checked.matchcharclassLoop c false (some x) rest
      else some false
  | true, _, x :: rest =>
    if MiniRegex.matchmetachar c (x :: rest) then some true
    else if c = x ∧ ismetachar c = false then some true
    else if x ≠ 0 then Checked.matchcharclassLoop c false (some x) rest
    else some false

/-- Match characters-class, with checked reads: `str` is `&Char_Buffer[i]`. -/
def Checked.matchcharclass (buf : Nat → Nat) (c : Nat) (i : Nat) : Option Bool :=
  Checked.matchcharclassLoop c false
    (if 1 ≤ i ∧ i ≤ REGEX_CHAR_BUFFER_SIZE then some (buf (i - 1)) else none) (bufFrom buf i)

/-- Match one char of pattern, with checked reads. -/
def Checked.matchone (buf : Nat → Nat) (p : regex_t) (c : Nat) : Option Bool :=
  match p.type with
  | DOT => some true
  | CHAR_CLASS => Checked.matchcharclass buf c p.ccl
  | INV_CHAR_CLASS => (Checked.matchcharclass buf c p.ccl).map (fun b => !b)
  | DIGIT => some (matchdigit c)
  | NOT_DIGIT => some (!matchdigit c)
  | ALPHA => some (matchalphanum c)
  | NOT_ALPHA => some (!matchalphanum c)
  | WHITESPACE => some (matchwhitespace c)
  | NOT_WHITESPACE => some (!matchwhitespace c)
  | _ => some (p.ch == c)

mutual

/-- Match pattern, call by call: one pass of the do-while loop, then the same function on
`pattern + 1` and `text + 1`. -/
def Checked.matchpattern (buf : Nat → Nat) : Nat → List regex_t → List Nat → Run Bool
  | 0, _, _ => .nofuel
  | _ + 1, [], _ => .fault
  | fuel + 1, p0 :: pattern1, text =>
    if p0.type = UNUSED then Checked.matchquestion buf fuel p0 (pattern1.drop 1) text
    else
      match pattern1 with
      | [] => .fault
      | p1 :: pattern2 =>
        if p1.type = QUESTIONMARK then Checked.matchquestion buf fuel p0 pattern2 text
        else if p1.type = STAR then Checked.matchstar buf fuel p0 pattern2 text
        else if p1.type = PLUS then Checked.matchplus buf fuel p0 pattern2 text
        else if p0.type = END ∧ p1.type = UNUSED then
          match text with
          | [] => .fault
          | c :: _ => .done (c == 0)
        else
          match text with
          | [] => .fault
          | c :: text1 =>
            if c ≠ 0 then
              match Checked.matchone buf p0 c with
              | none => .fault
              | some true => Checked.matchpattern buf fuel (p1 :: pattern2) text1
              | some false => .done false
            else .done false

/-- Match 0 or more, call by call: one pass of the do-while loop, then the same function on
`text + 1`. -/
def Checked.matchstar (buf : Nat → Nat) :
    Nat → regex_t → List regex_t → List Nat → Run Bool
  | 0, _, _, _ => .nofuel
  | fuel + 1, p, pattern, text =>
    match Checked.matchpattern buf fuel pattern text with
    | .done true => .done true
    | .done false =>
      match text with
      | [] => .fault
      | c :: text1 =>
        if c ≠ 0 then
          match Checked.matchone buf p c with
          | none => .fault
          | some true => Checked.matchstar buf fuel p pattern text1
          | some false => .done false
        else .done false
    | .fault => .fault
    | .nofuel => .nofuel

/-- Match 1 or more, call by call: one pass of the while loop, then the same function on
`text + 1`. -/
def Checked.matchplus (buf : Nat → Nat) :
    Nat → regex_t → List regex_t → List Nat → Run Bool
  | 0, _, _, _ => .nofuel
  | fuel + 1, p, pattern, text =>
    match text with
    | [] => .fault
    | c :: text1 =>
      if c ≠ 0 then
        match Checked.matchone buf p c with
        | none => .fault
        | some true =>
          match Checked.matchpattern buf fuel pattern text1 with
          | .done true => .done true
          | .done false => Checked.matchplus buf fuel p pattern text1
          | .fault => .fault
          | .nofuel => .nofuel
        | some false => .done false
      else .done false

/-- Match zero or one, call by call. -/
def Checked.matchquestion (buf : Nat → Nat) :
    Nat → regex_t → List regex_t → List Nat → Run Bool
  | 0, _, _, _ => .nofuel
  | fuel + 1, p, pattern, text =>
    if p.type = UNUSED then .done true
    else
      match Checked.matchpattern buf fuel pattern text with
      | .done true => .done true
      | .done false =>
        match text with
        | [] => .fault
        | c :: text1 =>
          if c ≠ 0 then
            match Checked.matchone buf p c with
            | none => .fault
            | some true => Checked.matchpattern buf fuel pattern text1
            | some false => .done false
          else .done false
      | .fault => .fault
      | .nofuel => .nofuel

end

/-- The do-while scan of `Regex_Matchp`, call by call; `Index` is the value after
`Index++`. -/
def Checked.scanText (buf : Nat → Nat) (pattern : List regex_t) :
    Nat → Nat → List Nat → Run Int
  | 0, _, _ => .nofuel
  | fuel + 1, Index, Text =>
    match Checked.matchpattern buf fuel pattern Text with
    | .done true =>
      match Text with
      | [] => .fault
      | c :: _ => if c = 0 then .done (-1) else .done (Index : Int)
    | .done false =>
      match Text with
      | [] => .fault
      | c :: rest => if c ≠ 0 then Checked.scanText buf pattern fuel (Index + 1) rest
        else .done (-1)
    | .fault => .fault
    | .nofuel => .nofuel

/-- Find matches of the compiled regex_t pattern inside text, call by call and with checked
reads. -/
def Checked.Regex_Matchp (fuel : Nat) (st : State) (Text : List Nat) (Pattern : re_t) :
    Run Int :=
  match Pattern with
  | none => .done (-1)
  | some i =>
    match patternFrom st i with
    | [] => .fault
    | p0 :: rest =>
      if p0.type = BEGIN then
        match Checked.matchpattern st.Char_Buffer fuel rest Text with
        | .done true => .done 0
        | .done false => .done (-1)
        | .fault => .fault
        | .nofuel => .nofuel
      else Checked.scanText st.Char_Buffer (p0 :: rest) fuel 0 Text

/-! ## Class pointers the matcher can follow -/

/-- A class pointer that `matchcharclass` can follow: it points into `Char_Buffer` at an
index of at least 1, so that the byte before the class bytes is in the buffer, and there is
a NUL at or after it inside the buffer. -/
def classPointerOk (buf : Nat → Nat) (i : Nat) : Prop :=
  1 ≤ i ∧ ∃ z, z < REGEX_CHAR_BUFFER_SIZE ∧ i ≤ z ∧ buf z = 0

instance (buf : Nat → Nat) (i : Nat) : Decidable (classPointerOk buf i) := by
  unfold classPointerOk; infer_instance

/-- The class slots of a pattern have class pointers that `matchcharclass` can follow. -/
def classOk (buf : Nat → Nat) (p : regex_t) : Prop :=
  p.type = CHAR_CLASS ∨ p.type = INV_CHAR_CLASS → classPointerOk buf p.ccl

instance (buf : Nat → Nat) : DecidablePred (classOk buf) := fun p => by
  unfold classOk; infer_instance

/-- Static storage with the class bytes `-a` at the start of the class buffer: slot 0 is a
`CHAR_CLASS` whose class pointer is `&Char_Buffer[0]`, slot 1 is `UNUSED`. -/
def stateClassAtStart : State :=
  { Pattern_Compiled := fun j =>
      if j = 0 then { type := CHAR_CLASS, ch := 0, ccl := 0 }
      else { type := UNUSED, ch := 0, ccl := 0 }
    Char_Buffer := fun j => if j = 0 then 45 else if j = 1 then 97 else 0 }

/-! ## Lemmas on Regex_Compile -/

theorem copyClass_cons (st : State) (c : Nat) (rest : List Nat) (ib : Nat) :
    copyClass st (c :: rest) ib =
      if c ≠ 93 ∧ c ≠ 0 then
        if c = 92 then
          if ib ≥ REGEX_CHAR_BUFFER_SIZE - 1 then .overflow st
          else
            match rest with
            | [] => .outside
            | d :: rest2 => copyClass ((st.setBuf ib c).setBuf (ib + 1) d) rest2 (ib + 2)
        else if ib ≥ REGEX_CHAR_BUFFER_SIZE then .overflow st
        else copyClass (st.setBuf ib c) rest (ib + 1)
      else .closed st (c :: rest) ib := by
  cases rest <;> rfl

theorem compileLoop_succ_cons (fuel : Nat) (st : State) (c : Nat) (rest : List Nat) (ic ib : Nat) :
    compileLoop (fuel + 1) st (c :: rest) ic ib =
    if c ≠ 0 ∧ ic + 1 < REGEX_MAX_OPERATORS then
      match metaType c with
      | some t => compileLoop fuel (st.setType ic t) rest (ic + 1) ib
      | none =>
        if c = 92 then
          match rest with
          | [] => .outside
          | d :: rest2 =>
            if d ≠ 0 then
              match escapedType d with
              | some t => compileLoop fuel (st.setType ic t) rest2 (ic + 1) ib
              | none => compileLoop fuel ((st.setType ic CHAR).setCh ic d) rest2 (ic + 1) ib
            else compileLoop fuel st rest (ic + 1) ib
        else if c = 91 then
          match rest with
          | [] => .outside
          | d :: rest2 =>
            let st1 := if d = 94 then st.setType ic INV_CHAR_CLASS else st.setType ic CHAR_CLASS
            let cur1 := if d = 94 then rest2 else rest
            match copyClass st1 cur1 ib with
            | .outside => .outside
            | .overflow st2 => .ret st2 none
            | .closed st2 cur2 ib2 =>
              if ib2 ≥ REGEX_CHAR_BUFFER_SIZE then .ret st2 none
              else
                compileLoop fuel (((st2.setBuf ib2 0).setCcl ic ib)) (cur2.drop 1) (ic + 1)
                  (ib2 + 1)
        else compileLoop fuel ((st.setType ic CHAR).setCh ic c) rest (ic + 1) ib
    else .ret (st.setType ic UNUSED) (some 0) := by
  cases rest <;> rfl

theorem copyClass_body (body : List Nat) (hb : ∀ b ∈ body, b ≠ 0 ∧ b ≠ 92 ∧ b ≠ 93)
    (st : State) (ib : Nat) (tail : List Nat) (h : ib + body.length ≤ REGEX_CHAR_BUFFER_SIZE) :
    copyClass st (body ++ 93 :: tail) ib
      = .closed (writeBytes st ib body) (93 :: tail) (ib + body.length) := by
  induction body generalizing st ib with
  | nil => simp [copyClass_cons, writeBytes]
  | cons b body ih =>
    have hb0 := hb b (List.mem_cons_self _ _)
    have hb1 : ∀ x ∈ body, x ≠ 0 ∧ x ≠ 92 ∧ x ≠ 93 := fun x hx => hb x (List.mem_cons_of_mem _ hx)
    simp only [List.length_cons] at h
    have h1 : ¬ (ib ≥ REGEX_CHAR_BUFFER_SIZE) := by omega
    simp only [List.cons_append, copyClass_cons, writeBytes, List.length_cons]
    rw [if_pos ⟨hb0.2.2, hb0.1⟩, if_neg hb0.2.1, if_neg h1, ih hb1 _ _ (by omega)]
    congr 1; omega

theorem copyClass_overflow (body : List Nat) (hb : ∀ b ∈ body, b ≠ 0 ∧ b ≠ 92 ∧ b ≠ 93)
    (st : State) (ib : Nat) (tail : List Nat) (hib : ib ≤ REGEX_CHAR_BUFFER_SIZE)
    (h : REGEX_CHAR_BUFFER_SIZE < ib + body.length) :
    ∃ st1, copyClass st (body ++ 93 :: tail) ib = .overflow st1 := by
  induction body generalizing st ib with
  | nil => simp at h; omega
  | cons b body ih =>
    have hb0 := hb b (List.mem_cons_self _ _)
    have hb1 : ∀ x ∈ body, x ≠ 0 ∧ x ≠ 92 ∧ x ≠ 93 := fun x hx => hb x (List.mem_cons_of_mem _ hx)
    simp only [List.length_cons] at h
    simp only [List.cons_append, copyClass_cons]
    rw [if_pos ⟨hb0.2.2, hb0.1⟩, if_neg hb0.2.1]
    by_cases h1 : ib ≥ REGEX_CHAR_BUFFER_SIZE
    · rw [if_pos h1]; exact ⟨st, rfl⟩
    · rw [if_neg h1]; exact ih hb1 _ _ (by omega) (by omega)

theorem metaType_91 : metaType 91 = none := by decide
theorem metaType_92 : metaType 92 = none := by decide

theorem compileLoop_tok (t : Tok) (ht : t.wf) (fuel : Nat) (st : State) (tail : List Nat)
    (ic ib : Nat) (hic : ic + 1 < REGEX_MAX_OPERATORS)
    (hib : ib + t.bufUse ≤ REGEX_CHAR_BUFFER_SIZE) :
    compileLoop (fuel + 1) st (t.render ++ tail) ic ib
      = compileLoop fuel (t.write st ic ib) tail (ic + 1) (ib + t.bufUse) := by
  cases t with
  | plain c =>
    obtain ⟨h0, h92, h91⟩ := ht
    simp only [Tok.render, List.singleton_append, compileLoop_succ_cons, Tok.write, Tok.bufUse,
      Nat.add_zero]
    rw [if_pos ⟨h0, hic⟩]
    cases metaType c with
    | some t => rfl
    | none => simp only [if_neg h92, if_neg h91]
  | esc d =>
    have h0 : d ≠ 0 := ht
    simp only [Tok.render, List.cons_append, List.nil_append, compileLoop_succ_cons, Tok.write,
      Tok.bufUse, Nat.add_zero, metaType_92]
    rw [if_pos ⟨by decide, hic⟩, if_pos trivial, if_pos h0]
    cases escapedType d <;> rfl
  | cls neg body =>
    obtain ⟨hb, hneg⟩ := ht
    simp only [Tok.bufUse] at hib
    have hlt : ¬ (ib + body.length ≥ REGEX_CHAR_BUFFER_SIZE) := by omega
    cases neg with
    | true =>
      simp only [Tok.render, List.cons_append, List.nil_append, compileLoop_succ_cons,
        Tok.write, Tok.bufUse, metaType_91, if_true, List.append_assoc, List.singleton_append]
      rw [if_pos ⟨by decide, hic⟩, if_neg (by decide)]
      rw [copyClass_body body hb _ _ _ (by omega)]
      simp only [if_neg hlt, List.drop_succ_cons, List.drop_zero]
      rfl
    | false =>
      simp only [Tok.render, List.cons_append, List.nil_append, compileLoop_succ_cons,
        Tok.write, Tok.bufUse, metaType_91, List.append_assoc, List.singleton_append]
      rw [if_pos ⟨by decide, hic⟩, if_neg (by decide), if_pos trivial]
      simp only [Bool.false_eq_true, if_false, List.nil_append]
      cases body with
      | nil =>
        simp only [List.nil_append, List.length_nil, Nat.add_zero]
        rw [if_neg (by decide), if_neg (by decide)]
        simp only [copyClass_cons, writeBytes]
        simp only [List.length_nil, Nat.add_zero] at hlt
        simp [hlt]
      | cons b body =>
        have hb94 : b ≠ 94 := by
          intro hh; exact hneg rfl (by simp [hh])
        simp only [List.cons_append]
        rw [if_neg hb94, if_neg hb94]
        have := copyClass_body (b :: body) hb (st.setType ic CHAR_CLASS) ib tail (by omega)
        simp only [List.cons_append] at this
        rw [this]
        simp only [if_neg hlt, List.drop_succ_cons, List.drop_zero]
        rfl


theorem compileLoop_toks (toks : List Tok) (hwf : ∀ t ∈ toks, t.wf) (fuel : Nat) (st : State)
    (tail : List Nat) (ic ib : Nat) (hic : ic + toks.length < REGEX_MAX_OPERATORS)
    (hib : ib + bufUseToks toks ≤ REGEX_CHAR_BUFFER_SIZE) :
    compileLoop (fuel + toks.length) st (renderToks toks ++ tail) ic ib
      = compileLoop fuel (writeToks st ic ib toks) tail (ic + toks.length)
          (ib + bufUseToks toks) := by
  induction toks generalizing st ic ib with
  | nil => simp [renderToks, writeToks, bufUseToks]
  | cons t ts ih =>
    simp only [List.length_cons] at hic
    simp only [bufUseToks] at hib
    have h1 := compileLoop_tok t (hwf t (List.mem_cons_self _ _)) (fuel + ts.length) st
      (renderToks ts ++ tail) ic ib (by omega) (by omega)
    simp only [renderToks, List.append_assoc, List.length_cons, writeToks, bufUseToks]
    rw [show fuel + (ts.length + 1) = fuel + ts.length + 1 by omega, h1,
      ih (fun x hx => hwf x (List.mem_cons_of_mem _ hx)) _ _ _ (by omega) (by omega)]
    congr 1 <;> omega


@[simp] theorem setType_PC (st : State) (i : Nat) (t : RegexType) (j : Nat) :
    (st.setType i t).Pattern_Compiled j
      = if j = i then { st.Pattern_Compiled j with type := t } else st.Pattern_Compiled j := rfl

@[simp] theorem setCh_PC (st : State) (i : Nat) (c : Nat) (j : Nat) :
    (st.setCh i c).Pattern_Compiled j
      = if j = i then { st.Pattern_Compiled j with ch := c } else st.Pattern_Compiled j := rfl

@[simp] theorem setCcl_PC (st : State) (i : Nat) (b : Nat) (j : Nat) :
    (st.setCcl i b).Pattern_Compiled j
      = if j = i then { st.Pattern_Compiled j with ccl := b } else st.Pattern_Compiled j := rfl

@[simp] theorem setBuf_PC (st : State) (i : Nat) (c : Nat) :
    (st.setBuf i c).Pattern_Compiled = st.Pattern_Compiled := rfl

@[simp] theorem setType_CB (st : State) (i : Nat) (t : RegexType) :
    (st.setType i t).Char_Buffer = st.Char_Buffer := rfl

@[simp] theorem setCh_CB (st : State) (i : Nat) (c : Nat) :
    (st.setCh i c).Char_Buffer = st.Char_Buffer := rfl

@[simp] theorem setCcl_CB (st : State) (i : Nat) (b : Nat) :
    (st.setCcl i b).Char_Buffer = st.Char_Buffer := rfl

@[simp] theorem setBuf_CB (st : State) (i : Nat) (c : Nat) (j : Nat) :
    (st.setBuf i c).Char_Buffer j = if j = i then c else st.Char_Buffer j := rfl

@[simp] theorem writeBytes_PC (body : List Nat) (st : State) (ib : Nat) :
    (writeBytes st ib body).Pattern_Compiled = st.Pattern_Compiled := by
  induction body generalizing st ib with
  | nil => rfl
  | cons b body ih => simp [writeBytes, ih]

theorem metaType_eq_some (c : Nat) (t : RegexType) (h : metaType c = some t) :
    (Tok.plain c).instr = (t, none) := by
  unfold metaType at h
  split_ifs at h with h1 h2 h3 h4 h5 h6 <;> simp_all [Tok.instr]

theorem metaType_eq_none (c : Nat) (h : metaType c = none) :
    (Tok.plain c).instr = (CHAR, some c) := by
  unfold metaType at h
  split_ifs at h with h1 h2 h3 h4 h5 h6
  unfold Tok.instr
  split <;> simp_all

theorem escapedType_eq_some (c : Nat) (t : RegexType) (h : escapedType c = some t) :
    (Tok.esc c).instr = (t, none) := by
  unfold escapedType at h
  split_ifs at h with h1 h2 h3 h4 h5 h6 <;> simp_all [Tok.instr]

theorem escapedType_eq_none (c : Nat) (h : escapedType c = none) :
    (Tok.esc c).instr = (CHAR, some c) := by
  unfold escapedType at h
  split_ifs at h with h1 h2 h3 h4 h5 h6
  unfold Tok.instr
  split <;> simp_all

theorem Tok.write_other (t : Tok) (st : State) (ic ib j : Nat) (h : j ≠ ic) :
    (t.write st ic ib).Pattern_Compiled j = st.Pattern_Compiled j := by
  cases t with
  | plain c => cases h1 : metaType c <;> simp [Tok.write, h1, h]
  | esc c => cases h1 : escapedType c <;> simp [Tok.write, h1, h]
  | cls neg body => simp [Tok.write, h]

theorem Tok.write_holds (t : Tok) (st : State) (ic ib : Nat) :
    holdsInstr ((t.write st ic ib).Pattern_Compiled ic) t := by
  cases t with
  | plain c =>
    cases h : metaType c with
    | some t => simp [Tok.write, holdsInstr, h, metaType_eq_some c t h]
    | none => simp [Tok.write, holdsInstr, h, metaType_eq_none c h]
  | esc c =>
    cases h : escapedType c with
    | some t => simp [Tok.write, holdsInstr, h, escapedType_eq_some c t h]
    | none => simp [Tok.write, holdsInstr, h, escapedType_eq_none c h]
  | cls neg body => cases neg <;> simp [Tok.write, holdsInstr, Tok.instr]

theorem writeToks_below (ts : List Tok) (st : State) (ic ib j : Nat) (h : j < ic) :
    (writeToks st ic ib ts).Pattern_Compiled j = st.Pattern_Compiled j := by
  induction ts generalizing st ic ib with
  | nil => rfl
  | cons t ts ih =>
    simp only [writeToks]
    rw [ih _ _ _ (by omega), Tok.write_other _ _ _ _ _ (by omega)]

theorem writeToks_holds (ts : List Tok) (st : State) (ic ib k : Nat) (t : Tok)
    (h : ts[k]? = some t) :
    holdsInstr ((writeToks st ic ib ts).Pattern_Compiled (ic + k)) t := by
  induction ts generalizing st ic ib k with
  | nil => simp at h
  | cons t0 ts ih =>
    simp only [writeToks]
    cases k with
    | zero =>
      simp at h; subst h
      rw [Nat.add_zero, writeToks_below _ _ _ _ _ (by omega)]
      exact Tok.write_holds _ _ _ _
    | succ k =>
      simp at h
      have := ih (t0.write st ic ib) (ic + 1) (ib + t0.bufUse) k h
      rwa [show ic + 1 + k = ic + (k + 1) by omega] at this


theorem compileLoop_cls_overflow (neg : Bool) (body : List Nat) (ht : (Tok.cls neg body).wf)
    (fuel : Nat) (st : State) (tail : List Nat) (ic ib : Nat)
    (hic : ic + 1 < REGEX_MAX_OPERATORS) (hib : ib ≤ REGEX_CHAR_BUFFER_SIZE)
    (hov : REGEX_CHAR_BUFFER_SIZE < ib + (body.length + 1)) :
    ∃ st1, compileLoop (fuel + 1) st ((Tok.cls neg body).render ++ tail) ic ib
      = .ret st1 none := by
  obtain ⟨hb, hneg⟩ := ht
  have key : ∀ st0 : State, ∃ st1,
      (match copyClass st0 (body ++ 93 :: tail) ib with
        | .outside => CompileOutcome.outside
        | .overflow st2 => .ret st2 none
        | .closed st2 cur2 ib2 =>
          if ib2 ≥ REGEX_CHAR_BUFFER_SIZE then .ret st2 none
          else compileLoop fuel ((st2.setBuf ib2 0).setCcl ic ib) (cur2.drop 1) (ic + 1)
            (ib2 + 1)) = .ret st1 none := by
    intro st0
    by_cases h1 : REGEX_CHAR_BUFFER_SIZE < ib + body.length
    · obtain ⟨st1, h⟩ := copyClass_overflow body hb st0 ib tail hib h1
      exact ⟨st1, by rw [h]⟩
    · have h2 : ib + body.length ≥ REGEX_CHAR_BUFFER_SIZE := by omega
      rw [copyClass_body body hb st0 ib tail (by omega)]
      exact ⟨writeBytes st0 ib body, by simp only [if_pos h2]⟩
  cases neg with
  | true =>
    obtain ⟨st1, h⟩ := key (st.setType ic INV_CHAR_CLASS)
    refine ⟨st1, ?_⟩
    simp only [Tok.render, List.cons_append, List.nil_append, compileLoop_succ_cons,
      metaType_91, if_true, List.append_assoc, List.singleton_append]
    rw [if_pos ⟨by decide, hic⟩, if_neg (by decide)]
    exact h
  | false =>
    obtain ⟨st1, h⟩ := key (st.setType ic CHAR_CLASS)
    refine ⟨st1, ?_⟩
    simp only [Tok.render, List.cons_append, List.nil_append, compileLoop_succ_cons,
      metaType_91, List.append_assoc, List.singleton_append]
    rw [if_pos ⟨by decide, hic⟩, if_neg (by decide), if_pos trivial]
    simp only [Bool.false_eq_true, if_false, List.nil_append]
    cases body with
    | nil =>
      simp only [List.nil_append] at h ⊢
      rw [if_neg (by decide), if_neg (by decide)]
      exact h
    | cons b body =>
      have hb94 : b ≠ 94 := by
        intro hh; exact hneg rfl (by simp [hh])
      simp only [List.cons_append] at h ⊢
      rw [if_neg hb94, if_neg hb94]
      exact h

theorem compileLoop_toks_overflow (toks : List Tok) (hwf : ∀ t ∈ toks, t.wf) (fuel : Nat)
    (st : State) (tail : List Nat) (ic ib : Nat)
    (hic : ic + toks.length < REGEX_MAX_OPERATORS) (hib : ib ≤ REGEX_CHAR_BUFFER_SIZE)
    (hov : REGEX_CHAR_BUFFER_SIZE < ib + bufUseToks toks) :
    ∃ st1, compileLoop (fuel + toks.length) st (renderToks toks ++ tail) ic ib
      = .ret st1 none := by
  induction toks generalizing st ic ib with
  | nil => simp [bufUseToks] at hov; omega
  | cons t ts ih =>
    simp only [List.length_cons] at hic
    simp only [bufUseToks] at hov
    have hwt := hwf t (List.mem_cons_self _ _)
    simp only [renderToks, List.append_assoc, List.length_cons]
    rw [show fuel + (ts.length + 1) = fuel + ts.length + 1 by omega]
    by_cases h1 : ib + t.bufUse ≤ REGEX_CHAR_BUFFER_SIZE
    · rw [compileLoop_tok t hwt _ _ _ _ _ (by omega) h1]
      exact ih (fun x hx => hwf x (List.mem_cons_of_mem _ hx)) _ _ _ (by omega) h1 (by omega)
    · cases t with
      | plain c => simp [Tok.bufUse] at h1; omega
      | esc c => simp [Tok.bufUse] at h1; omega
      | cls neg body =>
        simp only [Tok.bufUse] at h1
        exact compileLoop_cls_overflow neg body hwt _ _ _ _ _ (by omega) hib (by omega)

theorem renderToks_length (toks : List Tok) : toks.length ≤ (renderToks toks).length := by
  induction toks with
  | nil => simp [renderToks]
  | cons t ts ih =>
    have : 1 ≤ t.render.length := by cases t <;> simp [Tok.render]
    simp only [renderToks, List.length_cons, List.length_append]; omega

theorem renderToks_append (a b : List Tok) :
    renderToks (a ++ b) = renderToks a ++ renderToks b := by
  induction a with
  | nil => simp [renderToks]
  | cons t ts ih => simp [renderToks, ih]

theorem bufUseToks_append (a b : List Tok) :
    bufUseToks (a ++ b) = bufUseToks a + bufUseToks b := by
  induction a with
  | nil => simp [bufUseToks]
  | cons t ts ih => simp [bufUseToks, ih]; omega

theorem compileLoop_trail (fuel : Nat) (st : State) (ic ib : Nat)
    (hic : ic + 1 < REGEX_MAX_OPERATORS) :
    compileLoop (fuel + 2) st [92, 0] ic ib = .ret (st.setType (ic + 1) UNUSED) (some 0) := by
  rw [compileLoop_succ_cons, if_pos ⟨by decide, hic⟩]
  simp only [metaType_92, if_true]
  rw [if_neg (by decide), compileLoop_succ_cons, if_neg (by simp)]

theorem compileLoop_exit (fuel : Nat) (st : State) (c : Nat) (rest : List Nat) (ic ib : Nat)
    (h : c = 0 ∨ ¬ ic + 1 < REGEX_MAX_OPERATORS) :
    compileLoop (fuel + 1) st (c :: rest) ic ib = .ret (st.setType ic UNUSED) (some 0) := by
  rw [compileLoop_succ_cons, if_neg]
  rintro ⟨h1, h2⟩
  rcases h with h | h
  · exact h1 h
  · exact h h2

/-- Result of `Regex_Compile` on a pattern of well-formed tokens whose first 29 tokens fit
the class buffer: the first 29 instructions, then the sentinel. -/
theorem Regex_Compile_pattern (toks : List Tok) (trail : Bool) (hwf : ∀ t ∈ toks, t.wf)
    (st : State) (hfit : 1 + bufUseToks (toks.take 29) ≤ REGEX_CHAR_BUFFER_SIZE) :
    Regex_Compile st (renderPattern toks trail)
      = .ret ((writeToks st 0 1 (toks.take 29)).setType (min (slotCount toks trail) 29) UNUSED)
          (some 0) := by
  unfold Regex_Compile
  have hsplit : renderPattern toks trail ++ [0]
      = renderToks (toks.take 29) ++
          (renderToks (toks.drop 29) ++ ((if trail then [92] else []) ++ [0])) := by
    rw [renderPattern, ← List.append_assoc, ← List.append_assoc, ← renderToks_append,
      List.take_append_drop, List.append_assoc]
  have hlen := renderToks_length toks
  have htl : (toks.take 29).length = min 29 toks.length := List.length_take _ _
  have hpl : (renderPattern toks trail).length
      = (renderToks toks).length + (if trail then 1 else 0) := by
    cases trail <;> simp [renderPattern]
  obtain ⟨f, hf⟩ : ∃ f, (renderPattern toks trail).length + 1
      = (f + 1 + (if trail then 1 else 0)) + (toks.take 29).length :=
    ⟨(renderToks toks).length - (toks.take 29).length, by rw [hpl]; omega⟩
  rw [hf, hsplit, compileLoop_toks (toks.take 29) (fun t ht => hwf t (List.mem_of_mem_take ht))
    _ st _ 0 1 (by simp [REGEX_MAX_OPERATORS]) hfit]
  cases hd : toks.drop 29 with
  | nil =>
    have hle : toks.length ≤ 29 := by
      have := List.drop_eq_nil_iff.mp hd
      omega
    simp only [renderToks, List.nil_append, Nat.zero_add]
    cases trail with
    | false =>
      simp only [Bool.false_eq_true, if_false, List.nil_append, Nat.add_zero, slotCount]
      rw [compileLoop_exit _ _ _ _ _ _ (Or.inl rfl), htl]
      congr 2; omega
    | true =>
      simp only [if_true, List.singleton_append, slotCount]
      by_cases h29 : toks.length = 29
      · rw [compileLoop_exit _ _ _ _ _ _ (Or.inr (by simp [REGEX_MAX_OPERATORS]; omega)), htl]
        congr 2; omega
      · rw [compileLoop_trail _ _ _ _ (by simp [REGEX_MAX_OPERATORS]; omega), htl]
        congr 2; omega
  | cons t ts =>
    have h29 : 29 < toks.length := by
      by_contra hh
      have : toks.drop 29 = [] := List.drop_eq_nil_of_le (by omega)
      simp [this] at hd
    obtain ⟨c, rest, hc⟩ : ∃ c rest,
        renderToks (t :: ts) ++ ((if trail then [92] else []) ++ [0]) = c :: rest := by
      cases t <;> simp [renderToks, Tok.render]
    rw [hc, show f + 1 + (if trail then 1 else 0) = (f + (if trail then 1 else 0)) + 1 by omega,
      compileLoop_exit _ _ _ _ _ _ (Or.inr (by simp [REGEX_MAX_OPERATORS]; omega)), htl]
    congr 2
    simp only [slotCount]; omega

/-- The call `Regex_Compile` returns null when the classes among the first 29 tokens of a
pattern do not fit the class buffer. -/
theorem Regex_Compile_pattern_overflow (toks : List Tok) (trail : Bool)
    (hwf : ∀ t ∈ toks, t.wf) (st : State)
    (hov : REGEX_CHAR_BUFFER_SIZE < 1 + bufUseToks (toks.take 29)) :
    ∃ st1, Regex_Compile st (renderPattern toks trail) = .ret st1 none := by
  unfold Regex_Compile
  have hsplit : renderPattern toks trail ++ [0]
      = renderToks (toks.take 29) ++
          (renderToks (toks.drop 29) ++ ((if trail then [92] else []) ++ [0])) := by
    rw [renderPattern, ← List.append_assoc, ← List.append_assoc, ← renderToks_append,
      List.take_append_drop, List.append_assoc]
  have hlen2 := renderToks_length toks
  have htl : (toks.take 29).length = min 29 toks.length := List.length_take _ _
  have hpl : (renderPattern toks trail).length
      = (renderToks toks).length + (if trail then 1 else 0) := by
    cases trail <;> simp [renderPattern]
  obtain ⟨f, hf⟩ : ∃ f, (renderPattern toks trail).length + 1 = f + (toks.take 29).length :=
    ⟨(renderPattern toks trail).length + 1 - (toks.take 29).length, by rw [hpl]; omega⟩
  rw [hf, hsplit]
  exact compileLoop_toks_overflow (toks.take 29) (fun t ht => hwf t (List.mem_of_mem_take ht))
    f st _ 0 1 (by simp [REGEX_MAX_OPERATORS]) (by simp [REGEX_CHAR_BUFFER_SIZE]) hov

/-! ## Lemmas on the matcher -/

theorem matchpattern_cons_cons (buf : Nat → Nat) (p0 p1 : regex_t) (pattern : List regex_t)
    (text : List Nat) :
    matchpattern buf (p0 :: p1 :: pattern) text =
    if p0.type = UNUSED ∨ p1.type = QUESTIONMARK then
      matchquestion buf p0 pattern text
    else if p1.type = STAR then matchstar buf p0 pattern text
    else if p1.type = PLUS then matchplus buf p0 pattern text
    else if p0.type = END ∧ p1.type = UNUSED then strAt text 0 == 0
    else
      match text with
      | [] => false
      | c :: rest => c != 0 && matchone buf p0 c && matchpattern buf (p1 :: pattern) rest := by
  cases text <;> rfl

theorem matchpattern_unused (buf : Nat → Nat) (p0 : regex_t) (pattern : List regex_t)
    (text : List Nat) (h : p0.type = UNUSED) : matchpattern buf (p0 :: pattern) text = true := by
  cases pattern with
  | nil => cases text <;> simp [matchpattern, h]
  | cons p1 pattern =>
    rw [matchpattern_cons_cons, if_pos (Or.inl h)]
    simp [matchquestion, questionBody, h]

theorem matchpattern_lit (buf : Nat → Nat) (L : List regex_t) (s : List Nat)
    (hL : litSlots L s) (hs : ∀ c ∈ s, c ≠ 0) (u : regex_t) (hu : u.type = UNUSED)
    (junk : List regex_t) (t : List Nat) :
    matchpattern buf (L ++ u :: junk) t = true ↔ t.take s.length = s := by
  induction hL generalizing t with
  | nil => simp [matchpattern_unused buf u junk t hu]
  | @cons p c L s hp hL ih =>
    have hc := hs c (List.mem_cons_self _ _)
    have hs1 : ∀ x ∈ s, x ≠ 0 := fun x hx => hs x (List.mem_cons_of_mem _ hx)
    obtain ⟨q, rest, hq, hqt⟩ : ∃ q rest, L ++ u :: junk = q :: rest ∧
        (q.type = CHAR ∨ q.type = UNUSED) := by
      cases hL with
      | nil => exact ⟨u, junk, rfl, Or.inr hu⟩
      | cons hp1 _ => exact ⟨_, _, rfl, Or.inl hp1.1⟩
    simp only [List.cons_append, hq, matchpattern_cons_cons]
    have h1 : ¬ (p.type = UNUSED ∨ q.type = QUESTIONMARK) := by
      rcases hqt with h | h <;> simp [hp.1, h]
    have h2 : ¬ (q.type = STAR) := by rcases hqt with h | h <;> simp [h]
    have h3 : ¬ (q.type = PLUS) := by rcases hqt with h | h <;> simp [h]
    have h4 : ¬ (p.type = END ∧ q.type = UNUSED) := by simp [hp.1]
    rw [if_neg h1, if_neg h2, if_neg h3, if_neg h4]
    cases t with
    | nil => simp
    | cons a t =>
      simp only [List.length_cons, List.take_succ_cons, List.cons.injEq, Bool.and_eq_true]
      rw [← hq, ih hs1]
      simp only [matchone, hp.1, hp.2]
      constructor
      · rintro ⟨⟨_, h⟩, h'⟩
        exact ⟨(by simpa using h : c = a).symm, h'⟩
      · rintro ⟨h, h'⟩
        subst h
        exact ⟨⟨by simpa using hc, by simp⟩, h'⟩

theorem matchpattern_lit_end (buf : Nat → Nat) (L : List regex_t) (s : List Nat)
    (hL : litSlots L s) (hs : ∀ c ∈ s, c ≠ 0) (e u : regex_t) (he : e.type = END)
    (hu : u.type = UNUSED) (junk : List regex_t) (t : List Nat) (ht : ∀ c ∈ t, c ≠ 0) :
    matchpattern buf (L ++ e :: u :: junk) t = true ↔ t = s := by
  induction hL generalizing t with
  | nil =>
    simp only [List.nil_append, matchpattern_cons_cons]
    rw [if_neg (by simp [he, hu]), if_neg (by simp [hu]), if_neg (by simp [hu]),
      if_pos ⟨he, hu⟩]
    cases t with
    | nil => simp [strAt]
    | cons a t =>
      have := ht a (List.mem_cons_self _ _)
      simp [strAt, this]
  | @cons p c L s hp hL ih =>
    have hc := hs c (List.mem_cons_self _ _)
    have hs1 : ∀ x ∈ s, x ≠ 0 := fun x hx => hs x (List.mem_cons_of_mem _ hx)
    obtain ⟨q, rest, hq, hqt⟩ : ∃ q rest, L ++ e :: u :: junk = q :: rest ∧
        (q.type = CHAR ∨ q.type = END) := by
      cases hL with
      | nil => exact ⟨e, u :: junk, rfl, Or.inr he⟩
      | cons hp1 _ => exact ⟨_, _, rfl, Or.inl hp1.1⟩
    simp only [List.cons_append, hq, matchpattern_cons_cons]
    have h1 : ¬ (p.type = UNUSED ∨ q.type = QUESTIONMARK) := by
      rcases hqt with h | h <;> simp [hp.1, h]
    have h2 : ¬ (q.type = STAR) := by rcases hqt with h | h <;> simp [h]
    have h3 : ¬ (q.type = PLUS) := by rcases hqt with h | h <;> simp [h]
    have h4 : ¬ (p.type = END ∧ q.type = UNUSED) := by simp [hp.1]
    rw [if_neg h1, if_neg h2, if_neg h3, if_neg h4]
    cases t with
    | nil => simp
    | cons a t =>
      have ht1 : ∀ x ∈ t, x ≠ 0 := fun x hx => ht x (List.mem_cons_of_mem _ hx)
      simp only [List.cons.injEq, Bool.and_eq_true]
      rw [← hq, ih hs1 t ht1]
      simp only [matchone, hp.1, hp.2]
      constructor
      · rintro ⟨⟨_, h⟩, h'⟩
        exact ⟨(by simpa using h : c = a).symm, h'⟩
      · rintro ⟨h, h'⟩
        subst h
        exact ⟨⟨by simpa using hc, by simp⟩, h'⟩

theorem scanText_nil (buf : Nat → Nat) (P : List regex_t) (n : Nat) :
    scanText buf P n [] = -1 := by
  unfold scanText
  simp [strAt]

theorem scanText_cons (buf : Nat → Nat) (P : List regex_t) (n c : Nat) (t : List Nat)
    (hc : c ≠ 0) :
    scanText buf P n (c :: t)
      = if matchpattern buf P (c :: t) then (n : Int) else scanText buf P (n + 1) t := by
  rw [scanText]
  simp [strAt, hc]

theorem scanText_spec (buf : Nat → Nat) (P : List regex_t) (t : List Nat)
    (ht : ∀ c ∈ t, c ≠ 0) (n : Nat) :
    (scanText buf P n t = -1 ∧ ∀ k < t.length, matchpattern buf P (t.drop k) = false) ∨
    (∃ k < t.length, scanText buf P n t = ((n + k : Nat) : Int) ∧
      matchpattern buf P (t.drop k) = true ∧ ∀ j < k, matchpattern buf P (t.drop j) = false) := by
  induction t generalizing n with
  | nil => left; exact ⟨scanText_nil buf P n, by simp⟩
  | cons c t ih =>
    have hc := ht c (List.mem_cons_self _ _)
    have ht1 : ∀ x ∈ t, x ≠ 0 := fun x hx => ht x (List.mem_cons_of_mem _ hx)
    rw [scanText_cons buf P n c t hc]
    by_cases hm : matchpattern buf P (c :: t) = true
    · right
      exact ⟨0, by simp, by simp [hm], by simpa using hm, by simp⟩
    · have hm' : matchpattern buf P (c :: t) = false := by simpa using hm
      rw [if_neg hm]
      rcases ih ht1 (n + 1) with ⟨h1, h2⟩ | ⟨k, hk, h1, h2, h3⟩
      · left
        refine ⟨h1, ?_⟩
        intro k hk
        cases k with
        | zero => simpa using hm'
        | succ k => simpa using h2 k (by simpa using hk)
      · right
        refine ⟨k + 1, by simpa using hk, ?_, by simpa using h2, ?_⟩
        · rw [h1]; push_cast; ring
        · intro j hj
          cases j with
          | zero => simpa using hm'
          | succ j => simpa using h3 j (by omega)

theorem patternFrom_cons (st : State) (i : Nat) (h : i < REGEX_MAX_OPERATORS) :
    patternFrom st i = st.Pattern_Compiled i :: patternFrom st (i + 1) := by
  unfold patternFrom
  obtain ⟨n, hn⟩ : ∃ n, REGEX_MAX_OPERATORS - i = n + 1 := ⟨REGEX_MAX_OPERATORS - i - 1, by omega⟩
  have hn2 : REGEX_MAX_OPERATORS - (i + 1) = n := by omega
  rw [hn, hn2, List.range_succ_eq_map]
  simp only [List.map_cons, List.map_map, Nat.add_zero, List.cons.injEq, true_and]
  apply List.map_congr_left
  intro k _
  simp only [Function.comp]
  congr 1; omega

theorem patternFrom_lit (st : State) (s : List Nat) (i : Nat)
    (hi : i + s.length ≤ REGEX_MAX_OPERATORS)
    (h : ∀ k c, s[k]? = some c →
      (st.Pattern_Compiled (i + k)).type = CHAR ∧ (st.Pattern_Compiled (i + k)).ch = c) :
    ∃ L, patternFrom st i = L ++ patternFrom st (i + s.length) ∧ litSlots L s := by
  induction s generalizing i with
  | nil => exact ⟨[], by simp, List.Forall₂.nil⟩
  | cons c s ih =>
    simp only [List.length_cons] at hi
    obtain ⟨L, hL, hlit⟩ := ih (i + 1) (by omega) (fun k d hk => by
      have := h (k + 1) d (by simpa using hk)
      rwa [show i + (k + 1) = i + 1 + k by omega] at this)
    refine ⟨st.Pattern_Compiled i :: L, ?_, List.Forall₂.cons (by simpa using h 0 c (by simp)) hlit⟩
    rw [patternFrom_cons st i (by omega), hL]
    simp only [List.cons_append, List.length_cons]
    rw [show i + 1 + s.length = i + (s.length + 1) by omega]

/-- The slots `Regex_Compile` leaves for a pattern of well-formed tokens whose first 29
tokens fit the class buffer. -/
theorem Regex_Compile_pattern_slots (toks : List Tok) (trail : Bool) (hwf : ∀ t ∈ toks, t.wf)
    (st : State) (hfit : 1 + bufUseToks (toks.take 29) ≤ REGEX_CHAR_BUFFER_SIZE) :
    ∃ st1, Regex_Compile st (renderPattern toks trail) = .ret st1 (some 0) ∧
      (∀ k t, (toks.take 29)[k]? = some t → holdsInstr (st1.Pattern_Compiled k) t) ∧
      (st1.Pattern_Compiled (min (slotCount toks trail) 29)).type = UNUSED := by
  refine ⟨_, Regex_Compile_pattern toks trail hwf st hfit, ?_, by simp⟩
  intro k t hk
  have hlt : k < (toks.take 29).length := by
    by_contra hh
    rw [List.getElem?_eq_none (by omega)] at hk
    exact Option.noConfusion hk
  have hne : k ≠ min (slotCount toks trail) 29 := by
    simp only [List.length_take, slotCount] at hlt ⊢
    omega
  rw [setType_PC, if_neg hne]
  have := writeToks_holds (toks.take 29) st 0 1 k t hk
  rwa [Nat.zero_add] at this

theorem renderToks_map_plain (s : List Nat) : renderToks (s.map Tok.plain) = s := by
  induction s with
  | nil => rfl
  | cons c s ih => simp [renderToks, Tok.render, ih]

theorem bufUseToks_map_plain (s : List Nat) : bufUseToks (s.map Tok.plain) = 0 := by
  induction s with
  | nil => rfl
  | cons c s ih => simp [bufUseToks, Tok.bufUse, ih]

theorem ordinary_instr (c : Nat) (h : ordinary c) : (Tok.plain c).instr = (CHAR, some c) := by
  apply metaType_eq_none
  obtain ⟨_, _, h1, h2, h3, h4, h5, h6, _, _⟩ := h
  simp [metaType, h1, h2, h3, h4, h5, h6]

theorem ordinary_wf (c : Nat) (h : ordinary c) : (Tok.plain c).wf :=
  ⟨h.2.1, h.2.2.2.2.2.2.2.2.1, h.2.2.2.2.2.2.2.2.2⟩


/-- After `Regex_Compile` of a string of ordinary bytes, slot `k` is the `CHAR` of byte `k`. -/
theorem lit_slots_of_holds (st1 : State) (s : List Nat) (hs : ∀ c ∈ s, ordinary c) (i : Nat)
    (h : ∀ k t, (s.map Tok.plain)[k]? = some t → holdsInstr (st1.Pattern_Compiled (i + k)) t) :
    ∀ k c, s[k]? = some c →
      (st1.Pattern_Compiled (i + k)).type = CHAR ∧ (st1.Pattern_Compiled (i + k)).ch = c := by
  intro k c hk
  have hc : c ∈ s := List.getElem?_mem hk
  have := h k (Tok.plain c) (by simp [List.getElem?_map, hk])
  rw [holdsInstr, ordinary_instr c (hs c hc)] at this
  exact ⟨this.1, this.2 c rfl⟩

theorem tokenize_render (p : List Nat) : renderToks (tokenize p) = p := by
  induction p using tokenize.induct with
  | case1 => rfl
  | case2 c => simp [tokenize, renderToks, Tok.render]
  | case3 d rest ih => simp [tokenize, renderToks, Tok.render, ih]
  | case4 c d rest h ih => simp [tokenize, h, renderToks, Tok.render, ih]

theorem tokenize_mem (p : List Nat) (x : Tok) (hx : x ∈ tokenize p) :
    (∃ c ∈ p, x = Tok.plain c) ∨ (∃ d ∈ p, x = Tok.esc d) := by
  induction p using tokenize.induct with
  | case1 => simp [tokenize] at hx
  | case2 c => simp [tokenize] at hx; left; exact ⟨c, by simp, hx⟩
  | case3 d rest ih =>
    simp only [tokenize, if_true, List.mem_cons] at hx
    rcases hx with rfl | hx
    · right; exact ⟨d, by simp, rfl⟩
    · rcases ih hx with ⟨a, ha, rfl⟩ | ⟨a, ha, rfl⟩
      · left; exact ⟨a, by simp [ha], rfl⟩
      · right; exact ⟨a, by simp [ha], rfl⟩
  | case4 c d rest h ih =>
    simp only [tokenize, h, if_false, List.mem_cons] at hx
    rcases hx with rfl | hx
    · left; exact ⟨c, by simp, rfl⟩
    · rcases ih hx with ⟨a, ha, rfl⟩ | ⟨a, ha, rfl⟩
      · left; exact ⟨a, by simpa using Or.inr ha, rfl⟩
      · right; exact ⟨a, by simpa using Or.inr ha, rfl⟩

theorem tokenize_bufUse (p : List Nat) : bufUseToks (tokenize p) = 0 := by
  induction p using tokenize.induct with
  | case1 => rfl
  | case2 c => simp [tokenize, bufUseToks, Tok.bufUse]
  | case3 d rest ih => simp [tokenize, bufUseToks, Tok.bufUse, ih]
  | case4 c d rest h ih => simp [tokenize, h, bufUseToks, Tok.bufUse, ih]

theorem atom_not_begin (x : Tok) (h : x.atom) : x.instr.1 ≠ BEGIN := by
  cases x with
  | plain c =>
    rcases h with h | h
    · rw [metaType_eq_none c h]; simp
    · subst h; simp [Tok.instr]
  | esc d =>
    cases hd : escapedType d with
    | none => rw [escapedType_eq_none d hd]; simp
    | some t =>
      rw [escapedType_eq_some d t hd]
      unfold escapedType at hd
      split_ifs at hd <;> simp at hd <;> subst hd <;> simp
  | cls neg body => cases neg <;> simp [Tok.instr]

theorem Regex_Matchp_nil (st : State) (h : re_t)
    (hb : ∀ i, h = some i → (st.Pattern_Compiled i).type ≠ BEGIN) :
    Regex_Matchp st [] h = -1 := by
  cases h with
  | none => rfl
  | some i => simp only [Regex_Matchp, if_neg (hb i rfl), scanText_nil]

/-! ## Frame and fixed point of Regex_Compile -/

theorem State.ext_fields (a b : State) (h1 : a.Pattern_Compiled = b.Pattern_Compiled)
    (h2 : a.Char_Buffer = b.Char_Buffer) : a = b := by
  cases a; cases b; simp_all

theorem setType_self (s : State) (i : Nat) (t : RegexType)
    (h : (s.Pattern_Compiled i).type = t) : s.setType i t = s := by
  refine State.ext_fields _ _ ?_ rfl
  funext j
  simp only [setType_PC]
  split_ifs with hj
  · subst hj; subst h; rfl
  · rfl

theorem setCh_self (s : State) (i : Nat) (c : Nat)
    (h : (s.Pattern_Compiled i).ch = c) : s.setCh i c = s := by
  refine State.ext_fields _ _ ?_ rfl
  funext j
  simp only [setCh_PC]
  split_ifs with hj
  · subst hj; subst h; rfl
  · rfl

theorem setCcl_self (s : State) (i : Nat) (b : Nat)
    (h : (s.Pattern_Compiled i).ccl = b) : s.setCcl i b = s := by
  refine State.ext_fields _ _ ?_ rfl
  funext j
  simp only [setCcl_PC]
  split_ifs with hj
  · subst hj; subst h; rfl
  · rfl

theorem setBuf_self (s : State) (i : Nat) (c : Nat)
    (h : s.Char_Buffer i = c) : s.setBuf i c = s := by
  refine State.ext_fields _ _ rfl ?_
  funext j
  simp only [setBuf_CB]
  split_ifs with hj
  · subst hj; exact h.symm
  · rfl

/-- The copy loop of a class writes `Char_Buffer` at indices from `ib` on only. -/
theorem copyClass_frame (st : State) (cur : List Nat) (ib : Nat) :
    (copyClass st cur ib).frame st ib := by
  induction st, cur, ib using copyClass.induct with
  | case1 st ib => simp [copyClass, ClassOutcome.frame]
  | case2 st rest ib h1 h2 =>
    rw [copyClass_cons, if_pos h2, if_pos rfl, if_pos h1]
    exact ⟨rfl, fun _ _ => rfl⟩
  | case3 st ib h1 h2 =>
    rw [copyClass_cons, if_pos h2, if_pos rfl, if_neg h1]
    trivial
  | case4 st ib h1 d rest h2 ih =>
    rw [copyClass_cons, if_pos h2, if_pos rfl, if_neg h1]
    simp only
    revert ih
    cases copyClass ((st.setBuf ib 92).setBuf (ib + 1) d) rest (ib + 2) with
    | outside => exact fun _ => trivial
    | overflow st2 =>
      rintro ⟨e1, e2⟩
      refine ⟨by rw [e1]; rfl, fun j hj => ?_⟩
      rw [e2 j (by omega)]
      simp only [setBuf_CB]
      rw [if_neg (by omega), if_neg (by omega)]
    | closed st2 cur2 ib2 =>
      rintro ⟨e1, e3, e2⟩
      refine ⟨by rw [e1]; rfl, by omega, fun j hj => ?_⟩
      rw [e2 j (by omega)]
      simp only [setBuf_CB]
      rw [if_neg (by omega), if_neg (by omega)]
  | case5 st c rest ib h1 h2 h3 =>
    rw [copyClass_cons, if_pos h1, if_neg h2, if_pos h3]
    exact ⟨rfl, fun _ _ => rfl⟩
  | case6 st c rest ib h1 h2 h3 ih =>
    rw [copyClass_cons, if_pos h1, if_neg h2, if_neg h3]
    revert ih
    cases copyClass (st.setBuf ib c) rest (ib + 1) with
    | outside => exact fun _ => trivial
    | overflow st2 =>
      rintro ⟨e1, e2⟩
      refine ⟨by rw [e1]; rfl, fun j hj => ?_⟩
      rw [e2 j (by omega)]
      simp only [setBuf_CB]
      rw [if_neg (by omega)]
    | closed st2 cur2 ib2 =>
      rintro ⟨e1, e3, e2⟩
      refine ⟨by rw [e1]; rfl, by omega, fun j hj => ?_⟩
      rw [e2 j (by omega)]
      simp only [setBuf_CB]
      rw [if_neg (by omega)]
  | case7 st c rest ib h1 =>
    rw [copyClass_cons, if_neg h1]
    exact ⟨rfl, Nat.le_refl _, fun _ _ => rfl⟩


theorem copyClass_absorbed (st : State) (cur : List Nat) (ib : Nat) :
    (copyClass st cur ib).absorbed cur ib := by
  induction st, cur, ib using copyClass.induct with
  | case1 st ib => simp [copyClass, ClassOutcome.absorbed]
  | case2 st rest ib h1 h2 =>
    rw [copyClass_cons, if_pos h2, if_pos rfl, if_pos h1]
    intro s _
    rw [copyClass_cons, if_pos h2, if_pos rfl, if_pos h1]
  | case3 st ib h1 h2 =>
    rw [copyClass_cons, if_pos h2, if_pos rfl, if_neg h1]
    trivial
  | case4 st ib h1 d rest h2 ih =>
    have hf := copyClass_frame ((st.setBuf ib 92).setBuf (ib + 1) d) rest (ib + 2)
    rw [copyClass_cons, if_pos h2, if_pos rfl, if_neg h1]
    simp only
    revert ih hf
    cases copyClass ((st.setBuf ib 92).setBuf (ib + 1) d) rest (ib + 2) with
    | outside => exact fun _ _ => trivial
    | overflow st2 =>
      rintro ih ⟨_, f2⟩ s hs
      rw [copyClass_cons, if_pos h2, if_pos rfl, if_neg h1]
      simp only
      have e1 : s.setBuf ib 92 = s := setBuf_self _ _ _ (by
        rw [hs ib (Nat.le_refl _), f2 ib (by omega)]; simp)
      have e2 : s.setBuf (ib + 1) d = s := setBuf_self _ _ _ (by
        rw [hs (ib + 1) (by omega), f2 (ib + 1) (by omega)]; simp)
      rw [e1, e2]
      exact ih s (fun j hj => hs j (by omega))
    | closed st2 cur2 ib2 =>
      rintro ih ⟨_, f3, f2⟩ s hs
      rw [copyClass_cons, if_pos h2, if_pos rfl, if_neg h1]
      simp only
      have e1 : s.setBuf ib 92 = s := setBuf_self _ _ _ (by
        rw [hs ib (Nat.le_refl _) (by omega), f2 ib (by omega)]; simp)
      have e2 : s.setBuf (ib + 1) d = s := setBuf_self _ _ _ (by
        rw [hs (ib + 1) (by omega) (by omega), f2 (ib + 1) (by omega)]; simp)
      rw [e1, e2]
      exact ih s (fun j hj hj2 => hs j (by omega) hj2)
  | case5 st c rest ib h1 h2 h3 =>
    rw [copyClass_cons, if_pos h1, if_neg h2, if_pos h3]
    intro s _
    rw [copyClass_cons, if_pos h1, if_neg h2, if_pos h3]
  | case6 st c rest ib h1 h2 h3 ih =>
    have hf := copyClass_frame (st.setBuf ib c) rest (ib + 1)
    rw [copyClass_cons, if_pos h1, if_neg h2, if_neg h3]
    revert ih hf
    cases copyClass (st.setBuf ib c) rest (ib + 1) with
    | outside => exact fun _ _ => trivial
    | overflow st2 =>
      rintro ih ⟨_, f2⟩ s hs
      rw [copyClass_cons, if_pos h1, if_neg h2, if_neg h3]
      have e1 : s.setBuf ib c = s := setBuf_self _ _ _ (by
        rw [hs ib (Nat.le_refl _), f2 ib (by omega)]; simp)
      rw [e1]
      exact ih s (fun j hj => hs j (by omega))
    | closed st2 cur2 ib2 =>
      rintro ih ⟨_, f3, f2⟩ s hs
      rw [copyClass_cons, if_pos h1, if_neg h2, if_neg h3]
      have e1 : s.setBuf ib c = s := setBuf_self _ _ _ (by
        rw [hs ib (Nat.le_refl _) (by omega), f2 ib (by omega)]; simp)
      rw [e1]
      exact ih s (fun j hj hj2 => hs j (by omega) hj2)
  | case7 st c rest ib h1 =>
    rw [copyClass_cons, if_neg h1]
    intro s _
    rw [copyClass_cons, if_neg h1]

theorem CompileOutcome.frame_step (o : CompileOutcome) (st st1 : State) (ic ic1 ib ib1 : Nat)
    (h : o.frame st1 ic1 ib1) (hic : ic ≤ ic1) (hib : ib ≤ ib1)
    (h1 : ∀ j < ic, st1.Pattern_Compiled j = st.Pattern_Compiled j)
    (h2 : ∀ j < ib, st1.Char_Buffer j = st.Char_Buffer j) : o.frame st ic ib := by
  cases o with
  | outside => trivial
  | ret st2 hd =>
    obtain ⟨f1, f2⟩ := h
    exact ⟨fun j hj => by rw [f1 j (by omega), h1 j hj],
      fun j hj => by rw [f2 j (by omega), h2 j hj]⟩


theorem compileLoop_frame (fuel : Nat) (st : State) (cur : List Nat) (ic ib : Nat) :
    (compileLoop fuel st cur ic ib).frame st ic ib := by
  induction fuel, st, cur, ic, ib using compileLoop.induct with
  | case1 fuel st ic ib => simp [compileLoop, CompileOutcome.frame]
  | case2 st c rest ic ib => simp [compileLoop, CompileOutcome.frame]
  | case3 fuel st c rest ic ib hc t ht ih =>
    rw [compileLoop_succ_cons, if_pos hc]
    simp only [ht]
    exact CompileOutcome.frame_step _ _ _ _ _ _ _ ih (by omega) (by omega)
      (fun j hj => by simp [Nat.ne_of_lt hj]) (fun j _ => rfl)
  | case4 fuel st ic ib hc hm =>
    rw [compileLoop_succ_cons, if_pos hc]
    simp only [hm, if_true]
    trivial
  | case5 fuel st ic ib x rest hx t ht hc hm ih =>
    rw [compileLoop_succ_cons, if_pos hc]
    simp only [hm, if_true, if_pos hx, ht]
    exact CompileOutcome.frame_step _ _ _ _ _ _ _ ih (by omega) (by omega)
      (fun j hj => by simp [Nat.ne_of_lt hj]) (fun j _ => rfl)
  | case6 fuel st ic ib x rest hx ht hc hm ih =>
    rw [compileLoop_succ_cons, if_pos hc]
    simp only [hm, if_true, if_pos hx, ht]
    exact CompileOutcome.frame_step _ _ _ _ _ _ _ ih (by omega) (by omega)
      (fun j hj => by simp [Nat.ne_of_lt hj]) (fun j _ => rfl)
  | case7 fuel st ic ib x rest hx hc hm ih =>
    rw [compileLoop_succ_cons, if_pos hc]
    simp only [hm, if_true, if_neg hx]
    exact CompileOutcome.frame_step _ _ _ _ _ _ _ ih (by omega) (by omega) (fun j _ => rfl) (fun j _ => rfl)
  | case8 fuel st ic ib hc hm h92 =>
    rw [compileLoop_succ_cons, if_pos hc]
    simp only [hm, if_neg h92, if_true]
    trivial
  | case9 fuel st ic ib x rest st1 hc hm h92 cur1 hcc =>
    rw [compileLoop_succ_cons, if_pos hc]
    simp only [hm, if_neg h92, if_true]
    rw [hcc]
    trivial
  | case10 fuel st ic ib x rest st1 st2 hc hm h92 cur1 hcc =>
    have hf := copyClass_frame st1 cur1 ib
    rw [hcc] at hf
    rw [compileLoop_succ_cons, if_pos hc]
    simp only [hm, if_neg h92, if_true]
    rw [hcc]
    obtain ⟨f1, f2⟩ := hf
    refine ⟨fun j hj => ?_, fun j hj => ?_⟩
    · rw [f1]; simp only [st1]; split_ifs <;> simp [Nat.ne_of_lt hj]
    · rw [f2 j hj]; simp only [st1]; split_ifs <;> rfl
  | case11 fuel st ic ib x rest st1 st2 cur2 ib2 hge hc hm h92 cur1 hcc =>
    have hf := copyClass_frame st1 cur1 ib
    rw [hcc] at hf
    rw [compileLoop_succ_cons, if_pos hc]
    simp only [hm, if_neg h92, if_true]
    rw [hcc]
    simp only [if_pos hge]
    obtain ⟨f1, _, f2⟩ := hf
    refine ⟨fun j hj => ?_, fun j hj => ?_⟩
    · rw [f1]; simp only [st1]; split_ifs <;> simp [Nat.ne_of_lt hj]
    · rw [f2 j hj]; simp only [st1]; split_ifs <;> rfl
  | case12 fuel st ic ib x rest st1 st2 cur2 ib2 hge hc hm h92 cur1 hcc ih =>
    have hf := copyClass_frame st1 cur1 ib
    rw [hcc] at hf
    rw [compileLoop_succ_cons, if_pos hc]
    simp only [hm, if_neg h92, if_true]
    rw [hcc]
    simp only [if_neg hge]
    obtain ⟨f1, f3, f2⟩ := hf
    refine CompileOutcome.frame_step _ _ _ _ _ _ _ ih (by omega) (by omega) (fun j hj => ?_) (fun j hj => ?_)
    · simp only [setCcl_PC, setBuf_PC, if_neg (Nat.ne_of_lt hj)]
      rw [f1]; simp only [st1]; split_ifs <;> simp [Nat.ne_of_lt hj]
    · simp only [setCcl_CB, setBuf_CB]
      rw [if_neg (by omega), f2 j hj]; simp only [st1]; split_ifs <;> rfl
  | case13 fuel st c rest ic ib hc hm h92 h91 ih =>
    rw [compileLoop_succ_cons, if_pos hc]
    simp only [hm, if_neg h92, if_neg h91]
    exact CompileOutcome.frame_step _ _ _ _ _ _ _ ih (by omega) (by omega)
      (fun j hj => by simp [Nat.ne_of_lt hj]) (fun j _ => rfl)
  | case14 fuel st c rest ic ib hc =>
    rw [compileLoop_succ_cons, if_neg hc]
    exact ⟨fun j hj => by simp [Nat.ne_of_lt hj], fun j _ => rfl⟩


theorem absorbed_step (fuel : Nat) (st0 : State) (c : Nat) (rest cur1 : List Nat)
    (ic ib ib1 : Nat) (hib : ib ≤ ib1) (w : State → State)
    (hrun : ∀ s, compileLoop (fuel + 1) s (c :: rest) ic ib
      = compileLoop fuel (w s) cur1 (ic + 1) ib1)
    (hw : ∀ s st1 : State, (∀ j, ic ≤ j → s.Pattern_Compiled j = st1.Pattern_Compiled j) →
      (∀ j, ib ≤ j → s.Char_Buffer j = st1.Char_Buffer j) →
      (∀ j < ic + 1, st1.Pattern_Compiled j = (w st0).Pattern_Compiled j) →
      (∀ j < ib1, st1.Char_Buffer j = (w st0).Char_Buffer j) → w s = s)
    (ih : (compileLoop fuel (w st0) cur1 (ic + 1) ib1).absorbed fuel cur1 (ic + 1) ib1) :
    (compileLoop (fuel + 1) st0 (c :: rest) ic ib).absorbed (fuel + 1) (c :: rest) ic ib := by
  have hf := compileLoop_frame fuel (w st0) cur1 (ic + 1) ib1
  rw [hrun st0]
  revert ih hf
  cases compileLoop fuel (w st0) cur1 (ic + 1) ib1 with
  | outside => exact fun _ _ => trivial
  | ret st1 h =>
    rintro ih ⟨f1, f2⟩ s hs1 hs2
    rw [hrun s, hw s st1 hs1 hs2 f1 f2]
    exact ih s (fun j hj => hs1 j (by omega)) (fun j hj => hs2 j (by omega))


theorem compileLoop_absorbed (fuel : Nat) (st : State) (cur : List Nat) (ic ib : Nat) :
    (compileLoop fuel st cur ic ib).absorbed fuel cur ic ib := by
  induction fuel, st, cur, ic, ib using compileLoop.induct with
  | case1 fuel st ic ib => simp [compileLoop, CompileOutcome.absorbed]
  | case2 st c rest ic ib => simp [compileLoop, CompileOutcome.absorbed]
  | case3 fuel st c rest ic ib hc t ht ih =>
    refine absorbed_step fuel st c rest rest ic ib ib (Nat.le_refl _) (fun s => s.setType ic t)
      (fun s => ?_) (fun s st1 hs1 _ f1 _ => ?_) ih
    · rw [compileLoop_succ_cons, if_pos hc]; simp only [ht]
    · exact setType_self _ _ _ (by rw [hs1 ic (Nat.le_refl _), f1 ic (by omega)]; simp)
  | case4 fuel st ic ib hc hm =>
    rw [compileLoop_succ_cons, if_pos hc]
    simp only [hm, if_true]
    trivial
  | case5 fuel st ic ib x rest hx t ht hc hm ih =>
    refine absorbed_step fuel st 92 (x :: rest) rest ic ib ib (Nat.le_refl _)
      (fun s => s.setType ic t) (fun s => ?_) (fun s st1 hs1 _ f1 _ => ?_) ih
    · rw [compileLoop_succ_cons, if_pos hc]; simp only [hm, if_true, if_pos hx, ht]
    · exact setType_self _ _ _ (by rw [hs1 ic (Nat.le_refl _), f1 ic (by omega)]; simp)
  | case6 fuel st ic ib x rest hx ht hc hm ih =>
    refine absorbed_step fuel st 92 (x :: rest) rest ic ib ib (Nat.le_refl _)
      (fun s => (s.setType ic CHAR).setCh ic x) (fun s => ?_) (fun s st1 hs1 _ f1 _ => ?_) ih
    · rw [compileLoop_succ_cons, if_pos hc]; simp only [hm, if_true, if_pos hx, ht]
    · have e1 : s.setType ic CHAR = s :=
        setType_self _ _ _ (by rw [hs1 ic (Nat.le_refl _), f1 ic (by omega)]; simp)
      show (s.setType ic CHAR).setCh ic _ = s
      rw [e1]
      exact setCh_self _ _ _ (by rw [hs1 ic (Nat.le_refl _), f1 ic (by omega)]; simp)
  | case7 fuel st ic ib x rest hx hc hm ih =>
    refine absorbed_step fuel st 92 (x :: rest) (x :: rest) ic ib ib (Nat.le_refl _)
      (fun s => s) (fun s => ?_) (fun s st1 _ _ _ _ => rfl) ih
    rw [compileLoop_succ_cons, if_pos hc]; simp only [hm, if_true, if_neg hx]
  | case8 fuel st ic ib hc hm h92 =>
    rw [compileLoop_succ_cons, if_pos hc]
    simp only [hm, if_neg h92, if_true]
    trivial
  | case9 fuel st ic ib x rest st1 hc hm h92 cur1 hcc =>
    rw [compileLoop_succ_cons, if_pos hc]
    simp only [hm, if_neg h92, if_true]
    rw [hcc]
    trivial
  | case10 fuel st ic ib x rest st1 st2 hc hm h92 cur1 hcc =>
    have hf := copyClass_frame st1 cur1 ib
    have ha := copyClass_absorbed st1 cur1 ib
    rw [hcc] at hf ha
    rw [compileLoop_succ_cons, if_pos hc]
    simp only [hm, if_neg h92, if_true]
    rw [hcc]
    intro s hs1 hs2
    have e1 : (if x = 94 then s.setType ic INV_CHAR_CLASS else s.setType ic CHAR_CLASS) = s := by
      have : (s.Pattern_Compiled ic).type = (st1.Pattern_Compiled ic).type := by
        rw [hs1 ic (Nat.le_refl _), hf.1]
      simp only [st1] at this
      split_ifs at this ⊢ with h94 <;> exact setType_self _ _ _ (by rw [this]; simp)
    rw [compileLoop_succ_cons, if_pos hc]
    simp only [hm, if_neg h92, if_true]
    rw [e1, ha s hs2]
  | case11 fuel st ic ib x rest st1 st2 cur2 ib2 hge hc hm h92 cur1 hcc =>
    have hf := copyClass_frame st1 cur1 ib
    have ha := copyClass_absorbed st1 cur1 ib
    rw [hcc] at hf ha
    rw [compileLoop_succ_cons, if_pos hc]
    simp only [hm, if_neg h92, if_true]
    rw [hcc]
    simp only [if_pos hge]
    intro s hs1 hs2
    have e1 : (if x = 94 then s.setType ic INV_CHAR_CLASS else s.setType ic CHAR_CLASS) = s := by
      have : (s.Pattern_Compiled ic).type = (st1.Pattern_Compiled ic).type := by
        rw [hs1 ic (Nat.le_refl _), hf.1]
      simp only [st1] at this
      split_ifs at this ⊢ with h94 <;> exact setType_self _ _ _ (by rw [this]; simp)
    rw [compileLoop_succ_cons, if_pos hc]
    simp only [hm, if_neg h92, if_true]
    rw [e1, ha s (fun j hj _ => hs2 j hj)]
    simp only [if_pos hge]
  | case12 fuel st ic ib x rest st1 st2 cur2 ib2 hge hc hm h92 cur1 hcc ih =>
    have hf := copyClass_frame st1 cur1 ib
    have ha := copyClass_absorbed st1 cur1 ib
    have hf2 := compileLoop_frame fuel ((st2.setBuf ib2 0).setCcl ic ib) (List.drop 1 cur2)
      (ic + 1) (ib2 + 1)
    rw [hcc] at hf ha
    rw [compileLoop_succ_cons, if_pos hc]
    simp only [hm, if_neg h92, if_true]
    rw [hcc]
    simp only [if_neg hge]
    revert ih hf2
    cases compileLoop fuel ((st2.setBuf ib2 0).setCcl ic ib) (List.drop 1 cur2) (ic + 1)
      (ib2 + 1) with
    | outside => exact fun _ _ => trivial
    | ret stF h =>
      rintro ih ⟨g1, g2⟩ s hs1 hs2
      obtain ⟨f1, f3, f2⟩ := hf
      have hpc : s.Pattern_Compiled ic
          = { st1.Pattern_Compiled ic with ccl := ib } := by
        rw [hs1 ic (Nat.le_refl _), g1 ic (by omega)]
        simp [f1]
      have e1 : (if x = 94 then s.setType ic INV_CHAR_CLASS else s.setType ic CHAR_CLASS)
          = s := by
        have : (s.Pattern_Compiled ic).type = (st1.Pattern_Compiled ic).type := by rw [hpc]
        simp only [st1] at this
        split_ifs at this ⊢ with h94 <;> exact setType_self _ _ _ (by rw [this]; simp)
      have e2 : s.setBuf ib2 0 = s := setBuf_self _ _ _ (by
        rw [hs2 ib2 f3, g2 ib2 (by omega)]; simp)
      have e3 : s.setCcl ic ib = s := setCcl_self _ _ _ (by rw [hpc])
      rw [compileLoop_succ_cons, if_pos hc]
      simp only [hm, if_neg h92, if_true]
      rw [e1, ha s (fun j hj hj2 => by
        rw [hs2 j hj, g2 j (by omega)]
        simp only [setCcl_CB, setBuf_CB]
        rw [if_neg (by omega)])]
      simp only [if_neg hge]
      rw [e2, e3]
      exact ih s (fun j hj => hs1 j (by omega)) (fun j hj => hs2 j (by omega))
  | case13 fuel st c rest ic ib hc hm h92 h91 ih =>
    refine absorbed_step fuel st c rest rest ic ib ib (Nat.le_refl _)
      (fun s => (s.setType ic CHAR).setCh ic c) (fun s => ?_) (fun s st1 hs1 _ f1 _ => ?_) ih
    · rw [compileLoop_succ_cons, if_pos hc]; simp only [hm, if_neg h92, if_neg h91]
    · have e1 : s.setType ic CHAR = s :=
        setType_self _ _ _ (by rw [hs1 ic (Nat.le_refl _), f1 ic (by omega)]; simp)
      show (s.setType ic CHAR).setCh ic _ = s
      rw [e1]
      exact setCh_self _ _ _ (by rw [hs1 ic (Nat.le_refl _), f1 ic (by omega)]; simp)
  | case14 fuel st c rest ic ib hc =>
    rw [compileLoop_succ_cons, if_neg hc]
    intro s hs1 _
    rw [compileLoop_succ_cons, if_neg hc,
      setType_self s ic UNUSED (by rw [hs1 ic (Nat.le_refl _)]; simp)]

/-- Compiling the same pattern again changes nothing. -/
theorem Regex_Compile_again (st st1 : State) (p : List Nat) (h : re_t)
    (hc : Regex_Compile st p = .ret st1 h) : Regex_Compile st1 p = .ret st1 h := by
  have := compileLoop_absorbed (p.length + 1) st (p ++ [0]) 0 1
  unfold Regex_Compile at hc ⊢
  rw [hc] at this
  exact this st1 (fun _ _ => rfl) (fun _ _ => rfl)

/-- The pointer `Regex_Compile` returns is null or the address of slot 0. -/
theorem compileLoop_handle (fuel : Nat) (st : State) (cur : List Nat) (ic ib : Nat)
    (st1 : State) (h : re_t) (hc : compileLoop fuel st cur ic ib = .ret st1 h) :
    h = none ∨ h = some 0 := by
  induction fuel, st, cur, ic, ib using compileLoop.induct with
  | case1 fuel st ic ib => simp [compileLoop] at hc
  | case2 st c rest ic ib => simp [compileLoop] at hc
  | case3 fuel st c rest ic ib hc1 t ht ih =>
    rw [compileLoop_succ_cons, if_pos hc1] at hc; simp only [ht] at hc; exact ih hc
  | case4 fuel st ic ib hc1 hm =>
    rw [compileLoop_succ_cons, if_pos hc1] at hc; simp [hm] at hc
  | case5 fuel st ic ib x rest hx t ht hc1 hm ih =>
    rw [compileLoop_succ_cons, if_pos hc1] at hc
    simp only [hm, if_true, if_pos hx, ht] at hc; exact ih hc
  | case6 fuel st ic ib x rest hx ht hc1 hm ih =>
    rw [compileLoop_succ_cons, if_pos hc1] at hc
    simp only [hm, if_true, if_pos hx, ht] at hc; exact ih hc
  | case7 fuel st ic ib x rest hx hc1 hm ih =>
    rw [compileLoop_succ_cons, if_pos hc1] at hc
    simp only [hm, if_true, if_neg hx] at hc; exact ih hc
  | case8 fuel st ic ib hc1 hm h92 =>
    rw [compileLoop_succ_cons, if_pos hc1] at hc; simp [hm] at hc
  | case9 fuel st ic ib x rest st1 hc1 hm h92 cur1 hcc =>
    rw [compileLoop_succ_cons, if_pos hc1] at hc
    simp only [hm, if_neg h92, if_true] at hc
    rw [hcc] at hc; simp at hc
  | case10 fuel st ic ib x rest st1 st2 hc1 hm h92 cur1 hcc =>
    rw [compileLoop_succ_cons, if_pos hc1] at hc
    simp only [hm, if_neg h92, if_true] at hc
    rw [hcc] at hc; simp at hc; exact Or.inl hc.2.symm
  | case11 fuel st ic ib x rest st1 st2 cur2 ib2 hge hc1 hm h92 cur1 hcc =>
    rw [compileLoop_succ_cons, if_pos hc1] at hc
    simp only [hm, if_neg h92, if_true] at hc
    rw [hcc] at hc; simp only [if_pos hge] at hc; simp at hc; exact Or.inl hc.2.symm
  | case12 fuel st ic ib x rest st1 st2 cur2 ib2 hge hc1 hm h92 cur1 hcc ih =>
    rw [compileLoop_succ_cons, if_pos hc1] at hc
    simp only [hm, if_neg h92, if_true] at hc
    rw [hcc] at hc; simp only [if_neg hge] at hc; exact ih hc
  | case13 fuel st c rest ic ib hc1 hm h92 h91 ih =>
    rw [compileLoop_succ_cons, if_pos hc1] at hc
    simp only [hm, if_neg h92, if_neg h91] at hc; exact ih hc
  | case14 fuel st c rest ic ib hc1 =>
    rw [compileLoop_succ_cons, if_neg hc1] at hc
    simp at hc; exact Or.inr hc.2.symm

/-- A class copy loop that is left normally stops inside the bytes it was given. -/
theorem copyClass_closed_length (st : State) (cur : List Nat) (ib : Nat) (st2 : State)
    (cur2 : List Nat) (ib2 : Nat) (h : copyClass st cur ib = .closed st2 cur2 ib2) :
    cur2.length ≤ cur.length := by
  induction st, cur, ib using copyClass.induct with
  | case1 st ib => simp [copyClass] at h
  | case2 st rest ib h1 h2 =>
    rw [copyClass_cons, if_pos h2, if_pos rfl, if_pos h1] at h
    exact ClassOutcome.noConfusion h
  | case3 st ib h1 h2 =>
    rw [copyClass_cons, if_pos h2, if_pos rfl, if_neg h1] at h
    exact ClassOutcome.noConfusion h
  | case4 st ib h1 d rest h2 ih =>
    rw [copyClass_cons, if_pos h2, if_pos rfl, if_neg h1] at h
    have := ih h
    simp only [List.length_cons]; omega
  | case5 st c rest ib h1 h2 h3 =>
    rw [copyClass_cons, if_pos h1, if_neg h2, if_pos h3] at h
    exact ClassOutcome.noConfusion h
  | case6 st c rest ib h1 h2 h3 ih =>
    rw [copyClass_cons, if_pos h1, if_neg h2, if_neg h3] at h
    have := ih h
    simp only [List.length_cons]; omega
  | case7 st c rest ib h1 =>
    rw [copyClass_cons, if_neg h1] at h
    injection h with _ e _
    rw [← e]

/-- The bound `fuel` of `compileLoop` is not reached when it is at least the number of bytes
left in the array: more fuel does not change the result. -/
theorem compileLoop_fuel_succ (fuel : Nat) (st : State) (cur : List Nat) (ic ib : Nat)
    (hf : cur.length ≤ fuel) :
    compileLoop (fuel + 1) st cur ic ib = compileLoop fuel st cur ic ib := by
  induction fuel, st, cur, ic, ib using compileLoop.induct with
  | case1 fuel st ic ib => simp [compileLoop]
  | case2 st c rest ic ib => simp at hf
  | case3 fuel st c rest ic ib hc t ht ih =>
    simp only [List.length_cons] at hf
    rw [compileLoop_succ_cons (fuel + 1) st _ _ ic ib, compileLoop_succ_cons fuel st _ _ ic ib]
    simp only [if_pos hc, ht]
    exact ih (by omega)
  | case4 fuel st ic ib hc hm =>
    rw [compileLoop_succ_cons (fuel + 1) st _ _ ic ib, compileLoop_succ_cons fuel st _ _ ic ib]
    simp only [if_pos hc, hm, if_true]
  | case5 fuel st ic ib x rest hx t ht hc hm ih =>
    simp only [List.length_cons] at hf
    rw [compileLoop_succ_cons (fuel + 1) st _ _ ic ib, compileLoop_succ_cons fuel st _ _ ic ib]
    simp only [if_pos hc, hm, if_true, if_pos hx, ht]
    exact ih (by omega)
  | case6 fuel st ic ib x rest hx ht hc hm ih =>
    simp only [List.length_cons] at hf
    rw [compileLoop_succ_cons (fuel + 1) st _ _ ic ib, compileLoop_succ_cons fuel st _ _ ic ib]
    simp only [if_pos hc, hm, if_true, if_pos hx, ht]
    exact ih (by omega)
  | case7 fuel st ic ib x rest hx hc hm ih =>
    simp only [List.length_cons] at hf
    rw [compileLoop_succ_cons (fuel + 1) st _ _ ic ib, compileLoop_succ_cons fuel st _ _ ic ib]
    simp only [if_pos hc, hm, if_true, if_neg hx]
    exact ih (by simp only [List.length_cons]; omega)
  | case8 fuel st ic ib hc hm h92 =>
    rw [compileLoop_succ_cons (fuel + 1) st _ _ ic ib, compileLoop_succ_cons fuel st _ _ ic ib]
    simp only [if_pos hc, hm, if_neg h92, if_true]
  | case9 fuel st ic ib x rest st1 hc hm h92 cur1 hcc =>
    rw [compileLoop_succ_cons (fuel + 1) st _ _ ic ib, compileLoop_succ_cons fuel st _ _ ic ib]
    simp only [if_pos hc, hm, if_neg h92, if_true]
    rw [hcc]
  | case10 fuel st ic ib x rest st1 st2 hc hm h92 cur1 hcc =>
    rw [compileLoop_succ_cons (fuel + 1) st _ _ ic ib, compileLoop_succ_cons fuel st _ _ ic ib]
    simp only [if_pos hc, hm, if_neg h92, if_true]
    rw [hcc]
  | case11 fuel st ic ib x rest st1 st2 cur2 ib2 hge hc hm h92 cur1 hcc =>
    rw [compileLoop_succ_cons (fuel + 1) st _ _ ic ib, compileLoop_succ_cons fuel st _ _ ic ib]
    simp only [if_pos hc, hm, if_neg h92, if_true]
    rw [hcc]
    simp only [if_pos hge]
  | case12 fuel st ic ib x rest st1 st2 cur2 ib2 hge hc hm h92 cur1 hcc ih =>
    have hl := copyClass_closed_length st1 cur1 ib st2 cur2 ib2 hcc
    have hl1 : cur1.length ≤ rest.length + 1 := by
      simp only [cur1]; split_ifs <;> simp
    simp only [List.length_cons] at hf
    rw [compileLoop_succ_cons (fuel + 1) st _ _ ic ib, compileLoop_succ_cons fuel st _ _ ic ib]
    simp only [if_pos hc, hm, if_neg h92, if_true]
    rw [hcc]
    simp only [if_neg hge]
    exact ih (by simp only [List.length_drop]; omega)
  | case13 fuel st c rest ic ib hc hm h92 h91 ih =>
    simp only [List.length_cons] at hf
    rw [compileLoop_succ_cons (fuel + 1) st _ _ ic ib, compileLoop_succ_cons fuel st _ _ ic ib]
    simp only [if_pos hc, hm, if_neg h92, if_neg h91]
    exact ih (by omega)
  | case14 fuel st c rest ic ib hc =>
    rw [compileLoop_succ_cons (fuel + 1) st _ _ ic ib, compileLoop_succ_cons fuel st _ _ ic ib]
    simp only [if_neg hc]

/-! ## Lemmas on the quantifier loops, the classes and the class buffer -/

theorem starLoop_iff (m : Nat → Bool) (k : List Nat → Bool) (t : List Nat)
    (ht : ∀ c ∈ t, c ≠ 0) :
    starLoop m k t = true ↔
      ∃ j, j ≤ t.length ∧ (∀ c ∈ t.take j, m c = true) ∧ k (t.drop j) = true := by
  induction t with
  | nil =>
    simp only [starLoop, List.length_nil, Nat.le_zero_eq, List.take_nil, List.drop_nil]
    constructor
    · intro h; exact ⟨0, rfl, by simp, h⟩
    · rintro ⟨_, _, _, h⟩; exact h
  | cons c t ih =>
    have hc := ht c (List.mem_cons_self _ _)
    have ht1 : ∀ x ∈ t, x ≠ 0 := fun x hx => ht x (List.mem_cons_of_mem _ hx)
    simp only [starLoop, Bool.or_eq_true, Bool.and_eq_true, ih ht1]
    constructor
    · rintro (h | ⟨⟨_, hm⟩, j, hj, hall, hk⟩)
      · exact ⟨0, by simp, by simp, by simpa using h⟩
      · refine ⟨j + 1, by simpa using hj, ?_, by simpa using hk⟩
        intro x hx
        simp only [List.take_succ_cons, List.mem_cons] at hx
        rcases hx with rfl | hx
        · exact hm
        · exact hall x hx
    · rintro ⟨j, hj, hall, hk⟩
      cases j with
      | zero => left; simpa using hk
      | succ j =>
        right
        simp only [List.take_succ_cons, List.mem_cons, forall_eq_or_imp] at hall
        exact ⟨⟨by simpa using hc, hall.1⟩, j, by simpa using hj, hall.2, by simpa using hk⟩

theorem plusLoop_iff (m : Nat → Bool) (k : List Nat → Bool) (t : List Nat)
    (ht : ∀ c ∈ t, c ≠ 0) :
    plusLoop m k t = true ↔
      ∃ j, 1 ≤ j ∧ j ≤ t.length ∧ (∀ c ∈ t.take j, m c = true) ∧ k (t.drop j) = true := by
  induction t with
  | nil =>
    simp only [plusLoop, List.length_nil]
    constructor
    · intro h; exact Bool.noConfusion h
    · rintro ⟨j, h1, h2, _⟩; omega
  | cons c t ih =>
    have hc := ht c (List.mem_cons_self _ _)
    have ht1 : ∀ x ∈ t, x ≠ 0 := fun x hx => ht x (List.mem_cons_of_mem _ hx)
    simp only [plusLoop, Bool.or_eq_true, Bool.and_eq_true, ih ht1]
    constructor
    · rintro ⟨⟨_, hm⟩, h | ⟨j, hj1, hj, hall, hk⟩⟩
      · exact ⟨1, Nat.le_refl _, by simp, by simpa using hm, by simpa using h⟩
      · refine ⟨j + 1, by omega, by simpa using hj, ?_, by simpa using hk⟩
        intro x hx
        simp only [List.take_succ_cons, List.mem_cons] at hx
        rcases hx with rfl | hx
        · exact hm
        · exact hall x hx
    · rintro ⟨j, hj1, hj, hall, hk⟩
      cases j with
      | zero => omega
      | succ j =>
        simp only [List.take_succ_cons, List.mem_cons, forall_eq_or_imp] at hall
        refine ⟨⟨by simpa using hc, hall.1⟩, ?_⟩
        cases j with
        | zero => left; simpa using hk
        | succ j =>
          right
          exact ⟨j + 1, by omega, by simpa using hj, hall.2, by simpa using hk⟩

theorem questionBody_iff (ty : RegexType) (hty : ty ≠ UNUSED) (m : Nat → Bool)
    (k : List Nat → Bool) (t : List Nat) (ht : ∀ c ∈ t, c ≠ 0) :
    questionBody ty m k t = true ↔
      ∃ j, j ≤ 1 ∧ j ≤ t.length ∧ (∀ c ∈ t.take j, m c = true) ∧ k (t.drop j) = true := by
  unfold questionBody
  rw [if_neg hty]
  by_cases hk : k t = true
  · rw [if_pos hk]
    simp only [true_iff]
    exact ⟨0, by omega, by omega, by simp, by simpa using hk⟩
  · rw [if_neg hk]
    cases t with
    | nil =>
      simp only [List.length_nil, List.take_nil, List.drop_nil]
      constructor
      · intro h; exact Bool.noConfusion h
      · rintro ⟨j, _, _, _, h⟩; exact absurd h hk
    | cons c t =>
      have hc := ht c (List.mem_cons_self _ _)
      simp only
      constructor
      · intro h
        split_ifs at h with hcm
        exact ⟨1, Nat.le_refl _, by simp, by simpa using hcm.2, by simpa using h⟩
      · rintro ⟨j, hj1, _, hall, hkj⟩
        cases j with
        | zero => exact absurd (by simpa using hkj) hk
        | succ j =>
          have : j = 0 := by omega
          subst this
          rw [if_pos ⟨hc, by simpa using hall⟩]
          simpa using hkj


theorem isAtomType_not (t : RegexType) (h : isAtomType t) :
    t ≠ UNUSED ∧ t ≠ END ∧ t ≠ QUESTIONMARK ∧ t ≠ STAR ∧ t ≠ PLUS := by
  unfold isAtomType at h
  rcases h with h | h | h | h | h | h | h | h | h | h <;> subst h <;> decide

theorem wfPattern_head (items : List Item) (hwf : ∀ it ∈ items, it.wf) (hasEnd : Bool)
    (e u : regex_t) (he : e.type = END) (hu : u.type = UNUSED) (junk : List regex_t) :
    ∃ q rest, wfPattern items hasEnd e u junk = q :: rest ∧
      q.type ≠ QUESTIONMARK ∧ q.type ≠ STAR ∧ q.type ≠ PLUS := by
  cases items with
  | nil =>
    cases hasEnd with
    | false => exact ⟨u, junk, rfl, by rw [hu]; decide, by rw [hu]; decide, by rw [hu]; decide⟩
    | true =>
      exact ⟨e, u :: junk, rfl, by rw [he]; decide, by rw [he]; decide, by rw [he]; decide⟩
  | cons it its =>
    have h := isAtomType_not _ (hwf it (List.mem_cons_self _ _)).1
    exact ⟨it.atom, _, rfl, h.2.2.1, h.2.2.2.1, h.2.2.2.2⟩

theorem matchpattern_blocks (buf : Nat → Nat) (items : List Item) (hwf : ∀ it ∈ items, it.wf)
    (hasEnd : Bool) (e u : regex_t) (he : e.type = END) (hu : u.type = UNUSED)
    (junk : List regex_t) (t : List Nat) (ht : ∀ c ∈ t, c ≠ 0) :
    matchpattern buf (wfPattern items hasEnd e u junk) t = true ↔ blocks buf items hasEnd t := by
  induction items generalizing t with
  | nil =>
    cases hasEnd with
    | false =>
      simp only [wfPattern, itemSlots, List.nil_append, Bool.false_eq_true, if_false, blocks]
      simp [matchpattern_unused buf u junk t hu]
    | true =>
      simp only [wfPattern, itemSlots, List.nil_append, if_true, blocks, List.cons_append,
        matchpattern_cons_cons]
      rw [if_neg (by simp [he, hu]), if_neg (by simp [hu]), if_neg (by simp [hu]),
        if_pos ⟨he, hu⟩]
      cases t with
      | nil => simp [strAt]
      | cons a t =>
        have := ht a (List.mem_cons_self _ _)
        simp [strAt, this]
  | cons it its ih =>
    have hwf1 : ∀ x ∈ its, x.wf := fun x hx => hwf x (List.mem_cons_of_mem _ hx)
    obtain ⟨hat, hq⟩ := hwf it (List.mem_cons_self _ _)
    obtain ⟨a1, a2, a3, a4, a5⟩ := isAtomType_not _ hat
    have hdrop : ∀ j, ∀ c ∈ t.drop j, c ≠ 0 := fun j c hc => ht c (List.mem_of_mem_drop hc)
    have hrest : ∀ j, matchpattern buf (wfPattern its hasEnd e u junk) (t.drop j) = true ↔
        blocks buf its hasEnd (t.drop j) := fun j => ih hwf1 (t.drop j) (hdrop j)
    have hsplit : wfPattern (it :: its) hasEnd e u junk
        = it.atom :: (it.quant.toList ++ wfPattern its hasEnd e u junk) := by
      simp [wfPattern, itemSlots, Item.slots]
    rw [hsplit]
    simp only [blocks]
    cases hquant : it.quant with
    | none =>
      obtain ⟨q, rest, hqr, q1, q2, q3⟩ := wfPattern_head its hwf1 hasEnd e u he hu junk
      simp only [Option.toList, List.nil_append, Item.allows, hquant]
      rw [hqr, matchpattern_cons_cons, if_neg (by simp [a1, q1]), if_neg q2, if_neg q3,
        if_neg (by simp [a2]), ← hqr]
      cases t with
      | nil =>
        simp only [List.length_nil]
        constructor
        · intro h; exact Bool.noConfusion h
        · rintro ⟨k, h1, h2, _⟩; omega
      | cons c t =>
        have hc := ht c (List.mem_cons_self _ _)
        have := hrest 1
        simp only [List.drop_succ_cons, List.drop_zero] at this
        simp only [Bool.and_eq_true, this]
        constructor
        · rintro ⟨⟨_, hm⟩, hb⟩
          exact ⟨1, by simp, rfl, by simpa using hm, by simpa using hb⟩
        · rintro ⟨k, _, rfl, hall, hb⟩
          exact ⟨⟨by simpa using hc, by simpa using hall⟩, by simpa using hb⟩
    | some q =>
      have hqt := hq q hquant
      simp only [Option.toList, List.singleton_append, List.cons_append, List.nil_append,
        Item.allows, hquant]
      rw [matchpattern_cons_cons]
      rcases hqt with hqt | hqt | hqt
      · simp only [hqt, or_true, if_true]
        unfold matchquestion
        rw [questionBody_iff _ a1 _ _ t ht]
        constructor
        · rintro ⟨j, h1, h2, h3, h4⟩
          exact ⟨j, h2, h1, h3, (hrest j).mp h4⟩
        · rintro ⟨j, h2, h1, h3, h4⟩
          exact ⟨j, h1, h2, h3, (hrest j).mpr h4⟩
      · simp only [hqt, a1, reduceCtorEq, or_self, if_false, if_true, true_and]
        unfold matchstar
        rw [starLoop_iff _ _ t ht]
        constructor
        · rintro ⟨j, h2, h3, h4⟩
          exact ⟨j, h2, h3, (hrest j).mp h4⟩
        · rintro ⟨j, h2, h3, h4⟩
          exact ⟨j, h2, h3, (hrest j).mpr h4⟩
      · simp only [hqt, a1, reduceCtorEq, or_self, if_false, if_true]
        unfold matchplus
        rw [plusLoop_iff _ _ t ht]
        constructor
        · rintro ⟨j, h1, h2, h3, h4⟩
          exact ⟨j, h2, h1, h3, (hrest j).mp h4⟩
        · rintro ⟨j, h2, h1, h3, h4⟩
          exact ⟨j, h1, h2, h3, (hrest j).mpr h4⟩

theorem matchcharclassLoop_cons (c prev x : Nat) (rest : List Nat) :
    matchcharclassLoop c false prev (x :: rest) =
      if matchrange c (x :: rest) then true
      else if x = 92 then matchcharclassLoop c true x rest
      else if c = x then (if c = 45 then (prev == 0 || strAt rest 0 == 0) else true)
      else if x ≠ 0 then matchcharclassLoop c false x rest else false := by
  rw [matchcharclassLoop]
  simp [strAt]

theorem matchcharclassLoop_end (c prev : Nat) (tail : List Nat) (h : strAt tail 0 = 0)
    (hc : c ≠ 0) : matchcharclassLoop c false prev tail = false := by
  cases tail with
  | nil =>
    rw [matchcharclassLoop]
    simp [matchrange, strAt, hc]
  | cons x rest =>
    have hx : x = 0 := by simpa [strAt] using h
    subst hx
    rw [matchcharclassLoop_cons]
    simp [matchrange, strAt, hc]

theorem renderItems_head (its : List ClassItem) (hwf : ∀ it ∈ its, it.wf) (tail : List Nat)
    (h : strAt tail 0 = 0) : strAt (renderItems its ++ tail) 0 ≠ 45 := by
  cases its with
  | nil => simp [renderItems, h]
  | cons it its =>
    have := hwf it (List.mem_cons_self _ _)
    cases it with
    | lit b => simp [renderItems, ClassItem.render, strAt]; exact this.2.2.1
    | range lo hi => simp [renderItems, ClassItem.render, strAt]; exact this.1.2.2.1

theorem accepts_lit (c b : Nat) : ClassItem.accepts c (.lit b) ↔ c = b := Iff.rfl

theorem accepts_range (c lo hi : Nat) :
    ClassItem.accepts c (.range lo hi) ↔ lo ≤ c ∧ c ≤ hi := Iff.rfl

/-- Membership in a class content made of literals and ranges, for a character that is
neither NUL nor `-`. -/
theorem matchcharclassLoop_items (c : Nat) (hc0 : c ≠ 0) (hc : c ≠ 45) (its : List ClassItem)
    (hwf : ∀ it ∈ its, it.wf) (tail : List Nat) (htail : strAt tail 0 = 0) (prev : Nat) :
    matchcharclassLoop c false prev (renderItems its ++ tail) = true ↔
      ∃ it ∈ its, it.accepts c := by
  induction its generalizing prev with
  | nil =>
    simp [renderItems, matchcharclassLoop_end c prev tail htail hc0]
  | cons it its ih =>
    have hwf1 : ∀ x ∈ its, x.wf := fun x hx => hwf x (List.mem_cons_of_mem _ hx)
    have hhead := renderItems_head its hwf1 tail htail
    have hit := hwf it (List.mem_cons_self _ _)
    cases it with
    | lit b =>
      obtain ⟨_, b0, b45, b92⟩ := hit
      simp only [renderItems, ClassItem.render, List.singleton_append, List.cons_append,
        List.nil_append, List.mem_cons, exists_eq_or_imp, accepts_lit]
      rw [matchcharclassLoop_cons]
      have hr : matchrange c (b :: (renderItems its ++ tail)) = false := by
        have : strAt (b :: (renderItems its ++ tail)) 1 = strAt (renderItems its ++ tail) 0 := by
          simp [strAt]
        simp [matchrange, this, hhead]
      rw [hr]
      simp only [Bool.false_eq_true, if_false, if_neg b92, if_neg hc, if_pos b0]
      by_cases hcb : c = b
      · simp [hcb]
      · rw [if_neg hcb, ih hwf1]
        simp [hcb]
    | range lo hi =>
      obtain ⟨⟨_, l0, l45, l92⟩, ⟨_, h0, h45, h92⟩, hle⟩ := hit
      simp only [renderItems, ClassItem.render, List.cons_append, List.nil_append,
        List.mem_cons, exists_eq_or_imp, accepts_range]
      rw [matchcharclassLoop_cons]
      have hr : matchrange c (lo :: 45 :: hi :: (renderItems its ++ tail))
          = (decide (lo ≤ c) && decide (c ≤ hi)) := by
        simp [matchrange, strAt, hc, l0, l45, h0]
      rw [hr]
      by_cases hin : lo ≤ c ∧ c ≤ hi
      · simp [hin]
      · have hd : (decide (lo ≤ c) && decide (c ≤ hi)) = false := by
          simpa using hin
        have hcl : c ≠ lo := by
          intro he; exact hin ⟨by omega, by omega⟩
        have hch : c ≠ hi := by
          intro he; exact hin ⟨by omega, by omega⟩
        rw [hd]
        simp only [Bool.false_eq_true, if_false, if_neg l92, if_neg hcl, if_pos l0]
        rw [matchcharclassLoop_cons]
        have hr2 : matchrange c (45 :: hi :: (renderItems its ++ tail)) = false := by
          simp [matchrange, strAt]
        rw [hr2]
        simp only [Bool.false_eq_true, if_false]
        rw [if_neg (by decide), if_neg hc, if_pos (by decide), matchcharclassLoop_cons]
        have hr3 : matchrange c (hi :: (renderItems its ++ tail)) = false := by
          have : strAt (hi :: (renderItems its ++ tail)) 1
              = strAt (renderItems its ++ tail) 0 := by simp [strAt]
          simp [matchrange, this, hhead]
        rw [hr3]
        simp only [Bool.false_eq_true, if_false, if_neg h92, if_neg hch, if_pos h0]
        rw [ih hwf1]
        simp [hin]

/-- The class content `0-9` matches exactly the decimal digits, for every character. -/
theorem matchcharclassLoop_digits (c prev : Nat) (hc0 : c ≠ 0) (junk : List Nat) :
    matchcharclassLoop c false prev (48 :: 45 :: 57 :: 0 :: junk)
      = (decide (48 ≤ c) && decide (c ≤ 57)) := by
  by_cases hin : 48 ≤ c ∧ c ≤ 57
  · rw [matchcharclassLoop_cons]
    have : c ≠ 45 := by omega
    simp [matchrange, strAt, hin, this]
  · have hd : (decide (48 ≤ c) && decide (c ≤ 57)) = false := by simpa using hin
    rw [hd, matchcharclassLoop_cons]
    have h48 : c ≠ 48 := by omega
    have h57 : c ≠ 57 := by omega
    have hr : matchrange c (48 :: 45 :: 57 :: 0 :: junk) = false := by
      simp only [matchrange, strAt]
      simp
      intro _ h1
      omega
    rw [hr]
    simp only [Bool.false_eq_true, if_false]
    rw [if_neg (by decide), if_neg h48, if_pos (by decide), matchcharclassLoop_cons]
    have hr2 : matchrange c (45 :: 57 :: 0 :: junk) = false := by simp [matchrange, strAt]
    rw [hr2]
    simp only [Bool.false_eq_true, if_false]
    rw [if_neg (by decide)]
    by_cases h45 : c = 45
    · subst h45
      simp [strAt]
    · rw [if_neg h45, if_pos (by decide), matchcharclassLoop_cons]
      have hr3 : matchrange c (57 :: 0 :: junk) = false := by simp [matchrange, strAt]
      rw [hr3]
      simp only [Bool.false_eq_true, if_false]
      rw [if_neg (by decide), if_neg h57, if_pos (by decide), matchcharclassLoop_cons]
      have hr4 : matchrange c (0 :: junk) = false := by simp [matchrange, strAt]
      rw [hr4]
      simp only [Bool.false_eq_true, if_false]
      rw [if_neg (by decide)]
      rw [if_neg hc0]; simp

theorem bufFrom_cons (buf : Nat → Nat) (i : Nat) (h : i < REGEX_CHAR_BUFFER_SIZE) :
    bufFrom buf i = buf i :: bufFrom buf (i + 1) := by
  unfold bufFrom
  obtain ⟨n, hn⟩ : ∃ n, REGEX_CHAR_BUFFER_SIZE - i = n + 1 :=
    ⟨REGEX_CHAR_BUFFER_SIZE - i - 1, by omega⟩
  have hn2 : REGEX_CHAR_BUFFER_SIZE - (i + 1) = n := by omega
  rw [hn, hn2, List.range_succ_eq_map]
  simp only [List.map_cons, List.map_map, Nat.add_zero, List.cons.injEq, true_and]
  apply List.map_congr_left
  intro k _
  simp only [Function.comp]
  congr 1; omega

theorem bufFrom_split (buf : Nat → Nat) (body : List Nat) (i : Nat)
    (hi : i + body.length ≤ REGEX_CHAR_BUFFER_SIZE)
    (h : ∀ k b, body[k]? = some b → buf (i + k) = b) :
    bufFrom buf i = body ++ bufFrom buf (i + body.length) := by
  induction body generalizing i with
  | nil => simp
  | cons c body ih =>
    simp only [List.length_cons] at hi
    rw [bufFrom_cons buf i (by omega), ih (i + 1) (by omega) (fun k b hk => by
      have := h (k + 1) b (by simpa using hk)
      rwa [show i + (k + 1) = i + 1 + k by omega] at this)]
    have h0 := h 0 c (by simp)
    simp only [Nat.add_zero] at h0
    rw [h0]
    simp only [List.cons_append, List.length_cons]
    rw [show i + 1 + body.length = i + (body.length + 1) by omega]

theorem writeBytes_CB_below (body : List Nat) (st : State) (ib j : Nat) (h : j < ib) :
    (writeBytes st ib body).Char_Buffer j = st.Char_Buffer j := by
  induction body generalizing st ib with
  | nil => rfl
  | cons b body ih =>
    simp only [writeBytes]
    rw [ih _ _ (by omega), setBuf_CB, if_neg (by omega)]

theorem writeBytes_CB_above (body : List Nat) (st : State) (ib j : Nat)
    (h : ib + body.length ≤ j) :
    (writeBytes st ib body).Char_Buffer j = st.Char_Buffer j := by
  induction body generalizing st ib with
  | nil => rfl
  | cons b body ih =>
    simp only [List.length_cons] at h
    simp only [writeBytes]
    rw [ih _ _ (by omega), setBuf_CB, if_neg (by omega)]

theorem writeBytes_CB_at (body : List Nat) (st : State) (ib k b : Nat)
    (h : body[k]? = some b) : (writeBytes st ib body).Char_Buffer (ib + k) = b := by
  induction body generalizing st ib k with
  | nil => simp at h
  | cons b0 body ih =>
    simp only [writeBytes]
    cases k with
    | zero =>
      simp at h; subst h
      rw [Nat.add_zero, writeBytes_CB_below _ _ _ _ (by omega)]
      simp
    | succ k =>
      simp at h
      have := ih (st.setBuf ib b0) (ib + 1) k h
      rwa [show ib + 1 + k = ib + (k + 1) by omega] at this

theorem wellEscaped_ne_zero (body : List Nat) (h : wellEscaped body = true) :
    ∀ b ∈ body, b ≠ 0 := by
  induction body using wellEscaped.induct with
  | case1 => simp
  | case2 c => simp [wellEscaped] at h; simp; exact h.1.1
  | case3 d rest ih =>
    simp [wellEscaped] at h
    intro b hb
    simp only [List.mem_cons] at hb
    rcases hb with rfl | rfl | hb
    · decide
    · exact h.1
    · exact ih h.2 b hb
  | case4 c d rest hc ih =>
    simp [wellEscaped, hc] at h
    intro b hb
    simp only [List.mem_cons] at hb
    rcases hb with rfl | hb
    · exact h.1.1
    · exact ih h.2 b (by simpa using hb)

/-- The copy loop on a class body with escapes, closed by `]` or by the NUL of the pattern,
when the body and its NUL fit the buffer. -/
theorem copyClass_escaped (body : List Nat) (hwe : wellEscaped body = true) (term : Nat)
    (hterm : term = 93 ∨ term = 0) (st : State) (ib : Nat) (tail : List Nat)
    (h : ib + body.length < REGEX_CHAR_BUFFER_SIZE) :
    copyClass st (body ++ term :: tail) ib
      = .closed (writeBytes st ib body) (term :: tail) (ib + body.length) := by
  have hnot : ¬ (term ≠ 93 ∧ term ≠ 0) := by
    rcases hterm with h | h <;> simp [h]
  induction body using wellEscaped.induct generalizing st ib with
  | case1 =>
    simp only [List.nil_append, copyClass_cons, if_neg hnot, writeBytes, List.length_nil,
      Nat.add_zero]
  | case2 c =>
    simp [wellEscaped] at hwe
    obtain ⟨⟨c0, c92⟩, c93⟩ := hwe
    simp only [List.length_singleton] at h
    have h1 : ¬ (ib ≥ REGEX_CHAR_BUFFER_SIZE) := by omega
    simp only [List.singleton_append, writeBytes, List.length_singleton]
    rw [copyClass_cons, if_pos ⟨c93, c0⟩, if_neg c92, if_neg h1, copyClass_cons, if_neg hnot]
  | case3 d rest ih =>
    simp [wellEscaped] at hwe
    simp only [List.length_cons] at h
    have h1 : ¬ (ib ≥ REGEX_CHAR_BUFFER_SIZE - 1) := by
      simp only [REGEX_CHAR_BUFFER_SIZE] at h ⊢; omega
    simp only [List.cons_append, writeBytes, List.length_cons]
    rw [copyClass_cons, if_pos (by decide), if_pos rfl, if_neg h1]
    simp only
    rw [ih hwe.2 _ _ (by omega)]
    congr 1; omega
  | case4 c d rest hc ih =>
    simp [wellEscaped, hc] at hwe
    obtain ⟨⟨c0, c93⟩, hrest⟩ := hwe
    simp only [List.length_cons] at h
    have h1 : ¬ (ib ≥ REGEX_CHAR_BUFFER_SIZE) := by omega
    have := ih (by simpa using hrest) (st.setBuf ib c) (ib + 1) (by simp only [List.length_cons]; omega)
    simp only [List.cons_append, List.length_cons] at this
    simp only [List.cons_append, writeBytes, List.length_cons]
    rw [copyClass_cons, if_pos ⟨c93, c0⟩, if_neg hc, if_neg h1, this]
    simp only [writeBytes]
    congr 1; omega

theorem scanText_range (buf : Nat → Nat) (P : List regex_t) (t : List Nat) (n : Nat) :
    scanText buf P n t = -1 ∨
      ∃ k, k < t.length ∧ scanText buf P n t = ((n + k : Nat) : Int) := by
  induction t generalizing n with
  | nil => left; exact scanText_nil buf P n
  | cons c t ih =>
    rw [scanText]
    by_cases hm : matchpattern buf P (c :: t) = true
    · rw [if_pos hm]
      by_cases hc : strAt (c :: t) 0 = 0
      · left; rw [if_pos hc]
      · right; rw [if_neg hc]; exact ⟨0, by simp, by simp⟩
    · rw [if_neg hm]
      by_cases hc : c ≠ 0
      · rw [if_pos hc]
        rcases ih (n + 1) with h | ⟨k, hk, h⟩
        · left; exact h
        · right
          refine ⟨k + 1, by simpa using hk, ?_⟩
          rw [h]; push_cast; ring
      · left; rw [if_neg hc]

/-- What `matchpattern` returns does not depend on the slots after the first `UNUSED`. -/
theorem matchpattern_sentinel (buf : Nat → Nat) (u : regex_t) (hu : u.type = UNUSED)
    (junk1 junk2 : List regex_t) (n : Nat) :
    ∀ (L : List regex_t), L.length ≤ n → (∀ p ∈ L, p.type ≠ UNUSED) → ∀ t : List Nat,
      matchpattern buf (L ++ u :: junk1) t = matchpattern buf (L ++ u :: junk2) t := by
  induction n with
  | zero =>
    intro L hL _ t
    have : L = [] := List.length_eq_zero.mp (Nat.le_zero.mp hL)
    subst this
    simp [matchpattern_unused _ _ _ _ hu]
  | succ n ih =>
    intro L hL hne t
    cases L with
    | nil => simp [matchpattern_unused _ _ _ _ hu]
    | cons p0 L =>
      have h0 := hne p0 (List.mem_cons_self _ _)
      have hne1 : ∀ p ∈ L, p.type ≠ UNUSED := fun p hp => hne p (List.mem_cons_of_mem _ hp)
      simp only [List.length_cons] at hL
      cases L with
      | nil =>
        simp only [List.nil_append, List.cons_append, matchpattern_cons_cons]
        simp only [matchquestion, matchstar, matchplus, matchpattern_unused _ _ _ _ hu]
        cases t with
        | nil => simp [hu, h0]
        | cons c t => simp [hu, h0, matchpattern_unused _ _ _ _ hu]
      | cons p1 L =>
        have hne2 : ∀ p ∈ L, p.type ≠ UNUSED :=
          fun p hp => hne1 p (List.mem_cons_of_mem _ hp)
        simp only [List.length_cons] at hL
        have hk : matchpattern buf (L ++ u :: junk1) = matchpattern buf (L ++ u :: junk2) :=
          funext (fun t => ih L (by omega) hne2 t)
        have hk1 : ∀ t, matchpattern buf (p1 :: L ++ u :: junk1) t
            = matchpattern buf (p1 :: L ++ u :: junk2) t :=
          fun t => ih (p1 :: L) (by simp only [List.length_cons]; omega) hne1 t
        simp only [List.cons_append, matchpattern_cons_cons, matchquestion, matchstar,
          matchplus, hk]
        cases t with
        | nil => rfl
        | cons c t =>
          have := hk1 t
          simp only [List.cons_append] at this
          simp only [this]

theorem takeWhile_cstring (body junk : List Nat) (h : ∀ b ∈ body, b ≠ 0) :
    (body ++ 0 :: junk).takeWhile (fun b => b != 0) = body := by
  induction body with
  | nil => simp
  | cons b body ih =>
    have hb := h b (List.mem_cons_self _ _)
    simp only [List.cons_append]
    rw [List.takeWhile_cons_of_pos (by simpa using hb),
      ih (fun x hx => h x (List.mem_cons_of_mem _ hx))]

/-- The outer loop on a class with escapes that ends at `term`, which is `]` or the NUL of
the pattern: the pointer is moved past `term`. -/
theorem compileLoop_class_escaped (neg : Bool) (body : List Nat)
    (hwe : wellEscaped body = true) (hneg : neg = false → body.head? ≠ some 94)
    (term : Nat) (hterm : term = 93 ∨ term = 0)
    (fuel : Nat) (st : State) (tail : List Nat) (ic ib : Nat)
    (hic : ic + 1 < REGEX_MAX_OPERATORS)
    (hib : ib + body.length < REGEX_CHAR_BUFFER_SIZE) :
    compileLoop (fuel + 1) st (91 :: ((if neg then [94] else []) ++ body ++ term :: tail)) ic ib
      = compileLoop fuel
          (((writeBytes (st.setType ic (if neg then INV_CHAR_CLASS else CHAR_CLASS)) ib
            body).setBuf (ib + body.length) 0).setCcl ic ib)
          tail (ic + 1) (ib + body.length + 1) := by
  have hlt : ¬ (ib + body.length ≥ REGEX_CHAR_BUFFER_SIZE) := by omega
  have ht94 : term ≠ 94 := by rcases hterm with h | h <;> rw [h] <;> decide
  have hnot : ¬ (term ≠ 93 ∧ term ≠ 0) := by
    rcases hterm with h | h <;> simp [h]
  rw [compileLoop_succ_cons, if_pos ⟨by decide, hic⟩]
  simp only [metaType_91]
  rw [if_neg (by decide), if_pos trivial]
  cases neg with
  | true =>
    simp only [if_true, List.cons_append, List.nil_append]
    rw [copyClass_escaped body hwe term hterm _ _ _ hib]
    simp only [if_neg hlt, List.drop_succ_cons, List.drop_zero]
  | false =>
    simp only [Bool.false_eq_true, if_false, List.nil_append]
    cases body with
    | nil =>
      simp only [List.nil_append, List.length_nil, Nat.add_zero] at hlt ⊢
      rw [if_neg ht94, if_neg ht94, copyClass_cons, if_neg hnot]
      simp only [if_neg hlt, List.drop_succ_cons, List.drop_zero, writeBytes]
    | cons b body =>
      have hb94 : b ≠ 94 := by
        intro hh; exact hneg rfl (by simp [hh])
      simp only [List.cons_append]
      rw [if_neg hb94, if_neg hb94]
      have := copyClass_escaped (b :: body) hwe term hterm
        (st.setType ic CHAR_CLASS) ib tail hib
      simp only [List.cons_append] at this
      rw [this]
      simp only [if_neg hlt, List.drop_succ_cons, List.drop_zero]

/-- An unterminated class: after the copy loop has stopped at the NUL of the pattern, the
pointer is moved past it and the outer loop reads `Pattern` outside the array. -/
theorem Regex_Compile_unterminated (st : State) (pre : List Tok) (hwf : ∀ t ∈ pre, t.wf)
    (neg : Bool) (body : List Nat) (hwe : wellEscaped body = true)
    (hneg : neg = false → body.head? ≠ some 94)
    (hlen : pre.length + 1 < REGEX_MAX_OPERATORS)
    (hfit : 1 + bufUseToks pre + body.length < REGEX_CHAR_BUFFER_SIZE) :
    Regex_Compile st (renderToks pre ++ 91 :: ((if neg then [94] else []) ++ body))
      = .outside := by
  unfold Regex_Compile
  have hlen2 := renderToks_length pre
  obtain ⟨f, hf⟩ : ∃ f,
      (renderToks pre ++ 91 :: ((if neg then [94] else []) ++ body)).length + 1
        = (f + 1) + pre.length :=
    ⟨(renderToks pre ++ 91 :: ((if neg then [94] else []) ++ body)).length - pre.length, by
      simp only [List.length_append, List.length_cons]; omega⟩
  have hcur : (renderToks pre ++ 91 :: ((if neg then [94] else []) ++ body)) ++ [0]
      = renderToks pre ++ (91 :: ((if neg then [94] else []) ++ body ++ 0 :: [])) := by
    simp
  rw [hf, hcur, compileLoop_toks pre hwf (f + 1) st _ 0 1 (by omega) (by omega),
    compileLoop_class_escaped neg body hwe hneg 0 (Or.inr rfl) f _ [] _ _ (by omega) (by omega)]
  cases f <;> rfl

theorem matchdigit_iff (c : Nat) : matchdigit c = true ↔ 48 ≤ c ∧ c ≤ 57 := by
  simp [matchdigit]

theorem matchalphanum_iff (c : Nat) : matchalphanum c = true ↔
    (97 ≤ c ∧ c ≤ 122) ∨ (65 ≤ c ∧ c ≤ 90) ∨ (48 ≤ c ∧ c ≤ 57) ∨ c = 95 := by
  simp only [matchalphanum, matchalpha, matchdigit, Bool.or_eq_true, Bool.and_eq_true,
    decide_eq_true_eq, beq_iff_eq]
  tauto

theorem matchwhitespace_iff (c : Nat) : matchwhitespace c = true ↔
    c = 32 ∨ c = 9 ∨ c = 10 ∨ c = 13 ∨ c = 12 ∨ c = 11 := by
  simp only [matchwhitespace, Bool.or_eq_true, beq_iff_eq]
  tauto

theorem bool_not_eq_true_iff (b : Bool) (P : Prop) (h : b = true ↔ P) :
    (!b) = true ↔ ¬ P := by
  rw [← h]; cases b <;> simp

/-- The text `a^n b` against the pattern `a*b`, for every content of the static storage. -/
theorem Regex_Match_star_example (st : State) (n : Nat) :
    Regex_Match st (List.replicate n 97 ++ [98]) [97, 42, 98] = some 0 := by
  have hwf : ∀ x ∈ [Tok.plain 97, Tok.plain 42, Tok.plain 98], x.wf := by decide
  obtain ⟨st1, hc, hslots, hend⟩ := Regex_Compile_pattern_slots
    [Tok.plain 97, Tok.plain 42, Tok.plain 98] false hwf st (by decide)
  have hren : renderPattern [Tok.plain 97, Tok.plain 42, Tok.plain 98] false = [97, 42, 98] := by
    decide
  rw [hren] at hc
  have h0 := hslots 0 (Tok.plain 97) (by decide)
  have h1 := hslots 1 (Tok.plain 42) (by decide)
  have h2 := hslots 2 (Tok.plain 98) (by decide)
  have h3 : (st1.Pattern_Compiled 3).type = UNUSED := hend
  have t0 : (st1.Pattern_Compiled 0).type = CHAR := h0.1
  have c0 : (st1.Pattern_Compiled 0).ch = 97 := h0.2 97 rfl
  have t1 : (st1.Pattern_Compiled 1).type = STAR := h1.1
  have t2 : (st1.Pattern_Compiled 2).type = CHAR := h2.1
  have c2 : (st1.Pattern_Compiled 2).ch = 98 := h2.2 98 rfl
  have hP : patternFrom st1 0 = st1.Pattern_Compiled 0 :: st1.Pattern_Compiled 1 ::
      st1.Pattern_Compiled 2 :: st1.Pattern_Compiled 3 :: patternFrom st1 4 := by
    rw [patternFrom_cons st1 0 (by decide), patternFrom_cons st1 1 (by decide),
      patternFrom_cons st1 2 (by decide), patternFrom_cons st1 3 (by decide)]
  have ht : ∀ c ∈ List.replicate n 97 ++ [98], c ≠ 0 := by
    intro c hc
    simp only [List.mem_append, List.mem_replicate, List.mem_singleton] at hc
    rcases hc with ⟨_, rfl⟩ | rfl <;> decide
  have hm : matchpattern st1.Char_Buffer (patternFrom st1 0) (List.replicate n 97 ++ [98])
      = true := by
    rw [hP, matchpattern_cons_cons, if_neg (by simp [t0, t1]), if_pos t1]
    unfold matchstar
    rw [starLoop_iff _ _ _ ht]
    refine ⟨n, by simp, ?_, ?_⟩
    · intro c hc
      rw [List.take_left' (by simp)] at hc
      have : c = 97 := (List.mem_replicate.mp hc).2
      subst this
      simp [matchone, t0, c0]
    · rw [List.drop_left' (by simp)]
      have := matchpattern_lit st1.Char_Buffer [st1.Pattern_Compiled 2] [98]
        (List.Forall₂.cons ⟨t2, c2⟩ List.Forall₂.nil) (by decide) (st1.Pattern_Compiled 3) h3
        (patternFrom st1 4) [98]
      exact this.mpr (by decide)
  obtain ⟨c, r, hcr, hc0⟩ : ∃ c r, List.replicate n 97 ++ [98] = c :: r ∧ c ≠ 0 := by
    cases n with
    | zero => exact ⟨98, [], rfl, by decide⟩
    | succ n => exact ⟨97, List.replicate n 97 ++ [98], by simp [List.replicate_succ], by decide⟩
  simp only [Regex_Match, hc, Regex_Matchp, if_neg (show (st1.Pattern_Compiled 0).type ≠ BEGIN
    by rw [t0]; decide)]
  rw [hcr] at hm ⊢
  rw [scanText_cons _ _ _ _ _ hc0, if_pos hm]
  rfl


/-- The pattern `[0-9]+` finds the first decimal digit of the text, for every content of the
static storage. -/
theorem Regex_Match_digits_example (st : State) (t : List Nat) (ht : ∀ c ∈ t, c ≠ 0) :
    (Regex_Match st t [91, 48, 45, 57, 93, 43] = some (-1) ∧
      ∀ c ∈ t, ¬ (48 ≤ c ∧ c ≤ 57)) ∨
    (∃ (i : Nat) (c : Nat), t[i]? = some c ∧ (48 ≤ c ∧ c ≤ 57) ∧
      Regex_Match st t [91, 48, 45, 57, 93, 43] = some (i : Int) ∧
      ∀ (j : Nat) (d : Nat), j < i → t[j]? = some d → ¬ (48 ≤ d ∧ d ≤ 57)) := by
  have hwf : ∀ x ∈ [Tok.cls false [48, 45, 57], Tok.plain 43], x.wf := by decide
  have hc := Regex_Compile_pattern [Tok.cls false [48, 45, 57], Tok.plain 43] false hwf st
    (by decide)
  have hren : renderPattern [Tok.cls false [48, 45, 57], Tok.plain 43] false
      = [91, 48, 45, 57, 93, 43] := by decide
  rw [hren] at hc
  generalize hst1 : (writeToks st 0 1 (List.take 29 [Tok.cls false [48, 45, 57],
    Tok.plain 43])).setType
      (min (slotCount [Tok.cls false [48, 45, 57], Tok.plain 43] false) 29) UNUSED = st1 at hc
  have t0 : (st1.Pattern_Compiled 0).type = CHAR_CLASS := by
    rw [← hst1]; simp [writeToks, Tok.write, writeBytes, metaType, slotCount, Tok.bufUse]
  have l0 : (st1.Pattern_Compiled 0).ccl = 1 := by
    rw [← hst1]; simp [writeToks, Tok.write, writeBytes, metaType, slotCount, Tok.bufUse]
  have t1 : (st1.Pattern_Compiled 1).type = PLUS := by
    rw [← hst1]; simp [writeToks, Tok.write, writeBytes, metaType, slotCount, Tok.bufUse]
  have t2 : (st1.Pattern_Compiled 2).type = UNUSED := by
    rw [← hst1]; simp [writeToks, Tok.write, writeBytes, metaType, slotCount, Tok.bufUse]
  have b1 : st1.Char_Buffer 1 = 48 ∧ st1.Char_Buffer 2 = 45 ∧ st1.Char_Buffer 3 = 57 ∧
      st1.Char_Buffer 4 = 0 := by
    rw [← hst1]; simp [writeToks, Tok.write, writeBytes, metaType, slotCount, Tok.bufUse]
  have hB : bufFrom st1.Char_Buffer 1 = 48 :: 45 :: 57 :: 0 :: bufFrom st1.Char_Buffer 5 := by
    rw [bufFrom_cons _ 1 (by decide), bufFrom_cons _ 2 (by decide),
      bufFrom_cons _ 3 (by decide), bufFrom_cons _ 4 (by decide), b1.1, b1.2.1, b1.2.2.1,
      b1.2.2.2]
  have hP : patternFrom st1 0 = st1.Pattern_Compiled 0 :: st1.Pattern_Compiled 1 ::
      st1.Pattern_Compiled 2 :: patternFrom st1 3 := by
    rw [patternFrom_cons st1 0 (by decide), patternFrom_cons st1 1 (by decide),
      patternFrom_cons st1 2 (by decide)]
  have hone : ∀ c, c ≠ 0 → (matchone st1.Char_Buffer (st1.Pattern_Compiled 0) c = true ↔
      48 ≤ c ∧ c ≤ 57) := by
    intro c hc0
    simp only [matchone, t0, matchcharclass, l0, hB, matchcharclassLoop_digits c _ hc0]
    simp
  have hm : ∀ u : List Nat, (∀ c ∈ u, c ≠ 0) →
      (matchpattern st1.Char_Buffer (patternFrom st1 0) u = true ↔
        ∃ c, u.head? = some c ∧ (48 ≤ c ∧ c ≤ 57)) := by
    intro u hu
    rw [hP, matchpattern_cons_cons, if_neg (by simp [t0, t1]), if_neg (by rw [t1]; decide),
      if_pos t1]
    unfold matchplus
    cases u with
    | nil => simp [plusLoop]
    | cons c r =>
      have hc0 := hu c (List.mem_cons_self _ _)
      simp only [plusLoop, matchpattern_unused _ _ _ _ t2, Bool.true_or, Bool.and_true,
        Bool.and_eq_true, hone c hc0, List.head?_cons, Option.some.injEq, exists_eq_left']
      constructor
      · exact fun h => h.2
      · exact fun h => ⟨by simpa using hc0, h⟩
  have hnb : (st1.Pattern_Compiled 0).type ≠ BEGIN := by rw [t0]; decide
  have hR : Regex_Match st t [91, 48, 45, 57, 93, 43]
      = some (scanText st1.Char_Buffer (patternFrom st1 0) 0 t) := by
    simp only [Regex_Match, hc, Regex_Matchp, if_neg hnb]
  have hdrop : ∀ k, ∀ c ∈ t.drop k, c ≠ 0 := fun k c hc => ht c (List.mem_of_mem_drop hc)
  rw [hR]
  rcases scanText_spec st1.Char_Buffer (patternFrom st1 0) t ht 0 with
    ⟨h1, h2⟩ | ⟨k, hk, h1, h2, h3⟩
  · left
    refine ⟨by rw [h1], ?_⟩
    intro c hc hdig
    obtain ⟨i, hi, rfl⟩ := List.getElem_of_mem hc
    have := h2 i hi
    rw [(hm _ (hdrop i)).mpr ⟨t[i], by simp [List.getElem?_eq_getElem hi], hdig⟩] at this
    exact Bool.noConfusion this
  · right
    obtain ⟨c, hc, hdig⟩ := (hm _ (hdrop k)).mp h2
    refine ⟨k, c, by simpa using hc, hdig, by rw [h1]; simp, ?_⟩
    intro j d hj hd hdd
    have := h3 j hj
    rw [(hm _ (hdrop j)).mpr ⟨d, by simpa using hd, hdd⟩] at this
    exact Bool.noConfusion this

/-! ## Lemmas on the recorded writes -/

theorem copyClassLogged_cons (s : Logged) (c : Nat) (rest : List Nat) (ib : Nat) :
    copyClassLogged s (c :: rest) ib =
      if c ≠ 93 ∧ c ≠ 0 then
        if c = 92 then
          if ib ≥ REGEX_CHAR_BUFFER_SIZE - 1 then .overflow s
          else
            match rest with
            | [] => .outside (s.setBuf ib c)
            | d :: rest2 => copyClassLogged ((s.setBuf ib c).setBuf (ib + 1) d) rest2 (ib + 2)
        else if ib ≥ REGEX_CHAR_BUFFER_SIZE then .overflow s
        else copyClassLogged (s.setBuf ib c) rest (ib + 1)
      else .closed s (c :: rest) ib := by
  cases rest <;> rfl

theorem compileLoopLogged_succ_cons (fuel : Nat) (s : Logged) (c : Nat) (rest : List Nat)
    (ic ib : Nat) :
    compileLoopLogged (fuel + 1) s (c :: rest) ic ib =
    if c ≠ 0 ∧ ic + 1 < REGEX_MAX_OPERATORS then
      match metaType c with
      | some t => compileLoopLogged fuel (s.setType ic t) rest (ic + 1) ib
      | none =>
        if c = 92 then
          match rest with
          | [] => .outside s
          | d :: rest2 =>
            if d ≠ 0 then
              match escapedType d with
              | some t => compileLoopLogged fuel (s.setType ic t) rest2 (ic + 1) ib
              | none =>
                compileLoopLogged fuel ((s.setType ic CHAR).setCh ic d) rest2 (ic + 1) ib
            else compileLoopLogged fuel s rest (ic + 1) ib
        else if c = 91 then
          match rest with
          | [] => .outside s
          | d :: rest2 =>
            let s1 := if d = 94 then s.setType ic INV_CHAR_CLASS else s.setType ic CHAR_CLASS
            let cur1 := if d = 94 then rest2 else rest
            match copyClassLogged s1 cur1 ib with
            | .outside s2 => .outside s2
            | .overflow s2 => .ret s2 none
            | .closed s2 cur2 ib2 =>
              if ib2 ≥ REGEX_CHAR_BUFFER_SIZE then .ret s2 none
              else
                compileLoopLogged fuel (((s2.setBuf ib2 0).setCcl ic ib)) (cur2.drop 1)
                  (ic + 1) (ib2 + 1)
        else compileLoopLogged fuel ((s.setType ic CHAR).setCh ic c) rest (ic + 1) ib
    else .ret (s.setType ic UNUSED) (some 0) := by
  cases rest <;> rfl

/-- Without the record, the recording copy loop is `copyClass`. -/
theorem copyClassLogged_erase (s : Logged) (cur : List Nat) (ib : Nat) :
    (copyClassLogged s cur ib).erase = copyClass s.st cur ib := by
  induction s, cur, ib using copyClassLogged.induct with
  | case1 s ib => rfl
  | case2 s rest ib h1 h2 =>
    rw [copyClassLogged_cons, copyClass_cons, if_pos h2, if_pos rfl, if_pos h1, if_pos h2,
      if_pos rfl, if_pos h1]; rfl
  | case3 s ib h1 h2 =>
    rw [copyClassLogged_cons, copyClass_cons, if_pos h2, if_pos rfl, if_neg h1, if_pos h2,
      if_pos rfl, if_neg h1]; rfl
  | case4 s ib h1 d rest h2 ih =>
    rw [copyClassLogged_cons, copyClass_cons, if_pos h2, if_pos rfl, if_neg h1, if_pos h2,
      if_pos rfl, if_neg h1]
    exact ih
  | case5 s c rest ib h1 h2 h3 =>
    rw [copyClassLogged_cons, copyClass_cons, if_pos h1, if_neg h2, if_pos h3, if_pos h1,
      if_neg h2, if_pos h3]; rfl
  | case6 s c rest ib h1 h2 h3 ih =>
    rw [copyClassLogged_cons, copyClass_cons, if_pos h1, if_neg h2, if_neg h3, if_pos h1,
      if_neg h2, if_neg h3]
    exact ih
  | case7 s c rest ib h1 =>
    rw [copyClassLogged_cons, copyClass_cons, if_neg h1, if_neg h1]; rfl


/-- Without the record, the recording loop is `compileLoop`. -/
theorem compileLoopLogged_erase (fuel : Nat) (s : Logged) (cur : List Nat) (ic ib : Nat) :
    (compileLoopLogged fuel s cur ic ib).erase = compileLoop fuel s.st cur ic ib := by
  induction fuel generalizing s cur ic ib with
  | zero => cases cur <;> rfl
  | succ fuel ih =>
    cases cur with
    | nil => rfl
    | cons c rest =>
      rw [compileLoopLogged_succ_cons, compileLoop_succ_cons]
      by_cases h1 : c ≠ 0 ∧ ic + 1 < REGEX_MAX_OPERATORS
      · rw [if_pos h1, if_pos h1]
        cases hm : metaType c with
        | some t => exact ih _ _ _ _
        | none =>
          simp only
          by_cases h92 : c = 92
          · rw [if_pos h92, if_pos h92]
            cases rest with
            | nil => rfl
            | cons d rest2 =>
              simp only
              by_cases hd : d ≠ 0
              · rw [if_pos hd, if_pos hd]
                cases he : escapedType d with
                | some t => exact ih _ _ _ _
                | none => exact ih _ _ _ _
              · rw [if_neg hd, if_neg hd]; exact ih _ _ _ _
          · rw [if_neg h92, if_neg h92]
            by_cases h91 : c = 91
            · rw [if_pos h91, if_pos h91]
              cases rest with
              | nil => rfl
              | cons d rest2 =>
                simp only
                have hc := copyClassLogged_erase
                  (if d = 94 then s.setType ic INV_CHAR_CLASS else s.setType ic CHAR_CLASS)
                  (if d = 94 then rest2 else d :: rest2) ib
                have hst : (if d = 94 then s.setType ic INV_CHAR_CLASS
                      else s.setType ic CHAR_CLASS).st
                    = (if d = 94 then s.st.setType ic INV_CHAR_CLASS
                      else s.st.setType ic CHAR_CLASS) := by
                  split_ifs <;> rfl
                rw [hst] at hc
                rw [← hc]
                cases copyClassLogged
                    (if d = 94 then s.setType ic INV_CHAR_CLASS else s.setType ic CHAR_CLASS)
                    (if d = 94 then rest2 else d :: rest2) ib with
                | outside s2 => rfl
                | overflow s2 => rfl
                | closed s2 cur2 ib2 =>
                  simp only [ClassTrace.erase]
                  by_cases hib : ib2 ≥ REGEX_CHAR_BUFFER_SIZE
                  · rw [if_pos hib, if_pos hib]; rfl
                  · rw [if_neg hib, if_neg hib]; exact ih _ _ _ _
            · rw [if_neg h91, if_neg h91]; exact ih _ _ _ _
      · rw [if_neg h1, if_neg h1]; rfl

/-- A property of the recorded storage that every write to `Char_Buffer[1..39]` keeps is
kept by the copy loop of a class started at a buffer index of at least 1: the loop makes no
other write. -/
theorem copyClassLogged_inv (I : Logged → Prop)
    (hbuf : ∀ s i c, 1 ≤ i → i < REGEX_CHAR_BUFFER_SIZE → I s → I (s.setBuf i c))
    (s : Logged) (cur : List Nat) (ib : Nat) (hib : 1 ≤ ib) (hs : I s) :
    I (copyClassLogged s cur ib).logged := by
  induction s, cur, ib using copyClassLogged.induct with
  | case1 s ib => exact hs
  | case2 s rest ib h1 h2 =>
    rw [copyClassLogged_cons, if_pos h2, if_pos rfl, if_pos h1]; exact hs
  | case3 s ib h1 h2 =>
    rw [copyClassLogged_cons, if_pos h2, if_pos rfl, if_neg h1]
    simp only [REGEX_CHAR_BUFFER_SIZE] at h1
    exact hbuf _ _ _ hib (by simp only [REGEX_CHAR_BUFFER_SIZE]; omega) hs
  | case4 s ib h1 d rest h2 ih =>
    rw [copyClassLogged_cons, if_pos h2, if_pos rfl, if_neg h1]
    simp only [REGEX_CHAR_BUFFER_SIZE] at h1
    exact ih (by omega) (hbuf _ _ _ (by omega) (by simp only [REGEX_CHAR_BUFFER_SIZE]; omega)
      (hbuf _ _ _ hib (by simp only [REGEX_CHAR_BUFFER_SIZE]; omega) hs))
  | case5 s c rest ib h1 h2 h3 =>
    rw [copyClassLogged_cons, if_pos h1, if_neg h2, if_pos h3]; exact hs
  | case6 s c rest ib h1 h2 h3 ih =>
    rw [copyClassLogged_cons, if_pos h1, if_neg h2, if_neg h3]
    exact ih (by omega) (hbuf _ _ _ hib (by omega) hs)
  | case7 s c rest ib h1 =>
    rw [copyClassLogged_cons, if_neg h1]; exact hs

/-- The copy loop of a class does not move the buffer index down. -/
theorem copyClassLogged_closed_le (s : Logged) (cur : List Nat) (ib : Nat) (s2 : Logged)
    (cur2 : List Nat) (ib2 : Nat) (h : copyClassLogged s cur ib = .closed s2 cur2 ib2) :
    ib ≤ ib2 := by
  have h1 := copyClassLogged_erase s cur ib
  have h2 := copyClass_frame s.st cur ib
  rw [h] at h1
  rw [← h1] at h2
  exact h2.2.1

/-- A property of the recorded storage that every write to `Pattern_Compiled[0..29]` and
every write to `Char_Buffer[1..39]` keeps is kept by the loop of `Regex_Compile` started at
an instruction index below 30 and a buffer index of at least 1, for every pattern pointer
and every number of iterations: the loop makes no other write. -/
theorem compileLoopLogged_inv (I : Logged → Prop)
    (hbuf : ∀ s i c, 1 ≤ i → i < REGEX_CHAR_BUFFER_SIZE → I s → I (s.setBuf i c))
    (htype : ∀ s i t, i < REGEX_MAX_OPERATORS → I s → I (s.setType i t))
    (hch : ∀ s i c, i < REGEX_MAX_OPERATORS → I s → I (s.setCh i c))
    (hccl : ∀ s i b, i < REGEX_MAX_OPERATORS → I s → I (s.setCcl i b))
    (fuel : Nat) (s : Logged) (cur : List Nat) (ic ib : Nat)
    (hic : ic < REGEX_MAX_OPERATORS) (hib : 1 ≤ ib) (hs : I s) :
    I (compileLoopLogged fuel s cur ic ib).logged := by
  induction fuel generalizing s cur ic ib with
  | zero => cases cur <;> exact hs
  | succ fuel ih =>
    cases cur with
    | nil => exact hs
    | cons c rest =>
      rw [compileLoopLogged_succ_cons]
      by_cases h1 : c ≠ 0 ∧ ic + 1 < REGEX_MAX_OPERATORS
      · rw [if_pos h1]
        cases hm : metaType c with
        | some t => exact ih _ _ _ _ h1.2 hib (htype _ _ _ hic hs)
        | none =>
          simp only
          by_cases h92 : c = 92
          · rw [if_pos h92]
            cases rest with
            | nil => exact hs
            | cons d rest2 =>
              simp only
              by_cases hd : d ≠ 0
              · rw [if_pos hd]
                cases he : escapedType d with
                | some t => exact ih _ _ _ _ h1.2 hib (htype _ _ _ hic hs)
                | none => exact ih _ _ _ _ h1.2 hib (hch _ _ _ hic (htype _ _ _ hic hs))
              · rw [if_neg hd]; exact ih _ _ _ _ h1.2 hib hs
          · rw [if_neg h92]
            by_cases h91 : c = 91
            · rw [if_pos h91]
              cases rest with
              | nil => exact hs
              | cons d rest2 =>
                simp only
                have hs1 : I (if d = 94 then s.setType ic INV_CHAR_CLASS
                    else s.setType ic CHAR_CLASS) := by
                  split_ifs
                  · exact htype _ _ _ hic hs
                  · exact htype _ _ _ hic hs
                have hc := copyClassLogged_inv I hbuf _ (if d = 94 then rest2 else d :: rest2)
                  ib hib hs1
                have hle := copyClassLogged_closed_le
                  (if d = 94 then s.setType ic INV_CHAR_CLASS else s.setType ic CHAR_CLASS)
                  (if d = 94 then rest2 else d :: rest2) ib
                revert hc hle
                cases copyClassLogged
                    (if d = 94 then s.setType ic INV_CHAR_CLASS else s.setType ic CHAR_CLASS)
                    (if d = 94 then rest2 else d :: rest2) ib with
                | outside s2 => exact fun hc _ => hc
                | overflow s2 => exact fun hc _ => hc
                | closed s2 cur2 ib2 =>
                  intro hc hle
                  have hle2 := hle s2 cur2 ib2 rfl
                  simp only
                  by_cases hib2 : ib2 ≥ REGEX_CHAR_BUFFER_SIZE
                  · rw [if_pos hib2]; exact hc
                  · rw [if_neg hib2]
                    exact ih _ _ _ _ h1.2 (by omega)
                      (hccl _ _ _ hic (hbuf _ _ _ (by omega) (by omega) hc))
            · rw [if_neg h91]
              exact ih _ _ _ _ h1.2 hib (hch _ _ _ hic (htype _ _ _ hic hs))
      · rw [if_neg h1]; exact htype _ _ _ hic hs

/-- Every write of the loop of `Regex_Compile`, started as the call starts it, is inside its
array, for every pattern pointer and every number of iterations. -/
theorem compileLoopLogged_bounds (fuel : Nat) (st : State) (cur : List Nat) :
    ∀ w ∈ (compileLoopLogged fuel { st := st, log := [] } cur 0 1).logged.log,
      w.inBounds = true := by
  refine compileLoopLogged_inv (fun s => ∀ w ∈ s.log, w.inBounds = true) ?_ ?_ ?_ ?_ fuel _ cur
    0 1 (by decide) (Nat.le_refl _) (fun w hw => by cases hw)
  · intro s i c h1 h2 hs w hw
    simp only [Logged.setBuf, List.mem_append, List.mem_singleton] at hw
    rcases hw with hw | rfl
    · exact hs w hw
    · simp [Write.inBounds, h1, h2]
  · intro s i t h1 hs w hw
    simp only [Logged.setType, List.mem_append, List.mem_singleton] at hw
    rcases hw with hw | rfl
    · exact hs w hw
    · simp [Write.inBounds, h1]
  · intro s i c h1 hs w hw
    simp only [Logged.setCh, List.mem_append, List.mem_singleton] at hw
    rcases hw with hw | rfl
    · exact hs w hw
    · simp [Write.inBounds, h1]
  · intro s i b h1 hs w hw
    simp only [Logged.setCcl, List.mem_append, List.mem_singleton] at hw
    rcases hw with hw | rfl
    · exact hs w hw
    · simp [Write.inBounds, h1]

/-- The loop of `Regex_Compile`, started as the call starts it, leaves every slot from
index 30 on and every buffer byte at index 0 or from index 40 on as it found them. -/
theorem compileLoopLogged_frame (fuel : Nat) (st : State) (cur : List Nat) :
    (∀ j, REGEX_MAX_OPERATORS ≤ j →
      (compileLoopLogged fuel { st := st, log := [] } cur 0 1).logged.st.Pattern_Compiled j
        = st.Pattern_Compiled j) ∧
    (∀ j, j = 0 ∨ REGEX_CHAR_BUFFER_SIZE ≤ j →
      (compileLoopLogged fuel { st := st, log := [] } cur 0 1).logged.st.Char_Buffer j
        = st.Char_Buffer j) := by
  refine compileLoopLogged_inv (fun s =>
      (∀ j, REGEX_MAX_OPERATORS ≤ j → s.st.Pattern_Compiled j = st.Pattern_Compiled j) ∧
      (∀ j, j = 0 ∨ REGEX_CHAR_BUFFER_SIZE ≤ j → s.st.Char_Buffer j = st.Char_Buffer j))
    ?_ ?_ ?_ ?_ fuel _ cur 0 1 (by decide) (Nat.le_refl _) ⟨fun _ _ => rfl, fun _ _ => rfl⟩
  · rintro s i c h1 h2 ⟨hp, hb⟩
    refine ⟨hp, fun j hj => ?_⟩
    show (s.st.setBuf i c).Char_Buffer j = _
    rw [setBuf_CB, if_neg (by omega)]
    exact hb j hj
  · rintro s i t h1 ⟨hp, hb⟩
    refine ⟨fun j hj => ?_, hb⟩
    show (s.st.setType i t).Pattern_Compiled j = _
    rw [setType_PC, if_neg (by omega)]
    exact hp j hj
  · rintro s i c h1 ⟨hp, hb⟩
    refine ⟨fun j hj => ?_, hb⟩
    show (s.st.setCh i c).Pattern_Compiled j = _
    rw [setCh_PC, if_neg (by omega)]
    exact hp j hj
  · rintro s i b h1 ⟨hp, hb⟩
    refine ⟨fun j hj => ?_, hb⟩
    show (s.st.setCcl i b).Pattern_Compiled j = _
    rw [setCcl_PC, if_neg (by omega)]
    exact hp j hj

/-! ## Lemmas on the cut after 29 instructions -/

theorem wellEscaped_of_plain (body : List Nat) (hb : ∀ b ∈ body, b ≠ 0 ∧ b ≠ 92 ∧ b ≠ 93) :
    wellEscaped body = true := by
  induction body using wellEscaped.induct with
  | case1 => rfl
  | case2 c =>
    obtain ⟨h0, h92, h93⟩ := hb c (List.mem_cons_self _ _)
    simp [wellEscaped, h0, h92, h93]
  | case3 d rest ih =>
    exact absurd rfl (hb 92 (List.mem_cons_self _ _)).2.1
  | case4 c d rest hc ih =>
    obtain ⟨h0, _, h93⟩ := hb c (List.mem_cons_self _ _)
    have := ih (fun x hx => hb x (List.mem_cons_of_mem _ hx))
    simp [wellEscaped, hc, h0, h93, this]

/-- Tokens without backslash in their classes are tokens with escapes. -/
theorem Tok.wf_wfEsc (t : Tok) (h : t.wf) : t.wfEsc := by
  cases t with
  | plain c => exact h
  | esc c => exact h
  | cls neg body => exact ⟨wellEscaped_of_plain body h.1, h.2⟩

theorem compileLoop_tok_esc (t : Tok) (ht : t.wfEsc) (fuel : Nat) (st : State)
    (tail : List Nat) (ic ib : Nat) (hic : ic + 1 < REGEX_MAX_OPERATORS)
    (hib : ib + t.bufUse ≤ REGEX_CHAR_BUFFER_SIZE) :
    compileLoop (fuel + 1) st (t.render ++ tail) ic ib
      = compileLoop fuel (t.write st ic ib) tail (ic + 1) (ib + t.bufUse) := by
  cases t with
  | plain c => exact compileLoop_tok (.plain c) ht fuel st tail ic ib hic hib
  | esc d => exact compileLoop_tok (.esc d) ht fuel st tail ic ib hic hib
  | cls neg body =>
    obtain ⟨hwe, hneg⟩ := ht
    simp only [Tok.bufUse] at hib
    have := compileLoop_class_escaped neg body hwe hneg 93 (Or.inl rfl) fuel st tail ic ib hic
      (by omega)
    simp only [Tok.render, Tok.write, Tok.bufUse, List.cons_append, List.append_assoc,
      List.singleton_append, List.nil_append] at this ⊢
    rw [this, Nat.add_assoc]

theorem compileLoop_toks_esc (toks : List Tok) (hwf : ∀ t ∈ toks, t.wfEsc) (fuel : Nat)
    (st : State) (tail : List Nat) (ic ib : Nat)
    (hic : ic + toks.length < REGEX_MAX_OPERATORS)
    (hib : ib + bufUseToks toks ≤ REGEX_CHAR_BUFFER_SIZE) :
    compileLoop (fuel + toks.length) st (renderToks toks ++ tail) ic ib
      = compileLoop fuel (writeToks st ic ib toks) tail (ic + toks.length)
          (ib + bufUseToks toks) := by
  induction toks generalizing st ic ib with
  | nil => simp [renderToks, writeToks, bufUseToks]
  | cons t ts ih =>
    simp only [List.length_cons] at hic
    simp only [bufUseToks] at hib
    have h1 := compileLoop_tok_esc t (hwf t (List.mem_cons_self _ _)) (fuel + ts.length) st
      (renderToks ts ++ tail) ic ib (by omega) (by omega)
    simp only [renderToks, List.append_assoc, List.length_cons, writeToks, bufUseToks]
    rw [show fuel + (ts.length + 1) = fuel + ts.length + 1 by omega, h1,
      ih (fun x hx => hwf x (List.mem_cons_of_mem _ hx)) _ _ _ (by omega) (by omega)]
    congr 1 <;> omega

/-- The copy loop on a class body with escapes that does not fit the buffer with its NUL:
the loop executes `return 0`, or it is left with the buffer index at the end of the
buffer. -/
theorem copyClass_escaped_nofit (body : List Nat) (hwe : wellEscaped body = true)
    (st : State) (ib : Nat) (tail : List Nat)
    (h : REGEX_CHAR_BUFFER_SIZE ≤ ib + body.length) :
    (∃ st1, copyClass st (body ++ 93 :: tail) ib = .overflow st1) ∨
    (∃ st1 cur ib2, copyClass st (body ++ 93 :: tail) ib = .closed st1 cur ib2 ∧
      REGEX_CHAR_BUFFER_SIZE ≤ ib2) := by
  induction body using wellEscaped.induct generalizing st ib with
  | case1 =>
    right
    simp only [List.length_nil, Nat.add_zero] at h
    exact ⟨st, 93 :: tail, ib, by simp [copyClass_cons], h⟩
  | case2 c =>
    simp [wellEscaped] at hwe
    obtain ⟨⟨c0, c92⟩, c93⟩ := hwe
    simp only [List.length_singleton] at h
    simp only [List.singleton_append]
    rw [copyClass_cons, if_pos ⟨c93, c0⟩, if_neg c92]
    by_cases h1 : ib ≥ REGEX_CHAR_BUFFER_SIZE
    · left; rw [if_pos h1]; exact ⟨st, rfl⟩
    · right
      rw [if_neg h1]
      exact ⟨st.setBuf ib c, 93 :: tail, ib + 1, by simp [copyClass_cons], h⟩
  | case3 d rest ih =>
    simp [wellEscaped] at hwe
    simp only [List.length_cons] at h
    simp only [List.cons_append]
    rw [copyClass_cons, if_pos (by decide), if_pos rfl]
    by_cases h1 : ib ≥ REGEX_CHAR_BUFFER_SIZE - 1
    · left; rw [if_pos h1]; exact ⟨st, rfl⟩
    · rw [if_neg h1]
      simp only
      exact ih hwe.2 _ _ (by omega)
  | case4 c d rest hc ih =>
    simp [wellEscaped, hc] at hwe
    obtain ⟨⟨c0, c93⟩, hrest⟩ := hwe
    simp only [List.length_cons] at h
    simp only [List.cons_append]
    rw [copyClass_cons, if_pos ⟨c93, c0⟩, if_neg hc]
    by_cases h1 : ib ≥ REGEX_CHAR_BUFFER_SIZE
    · left; rw [if_pos h1]; exact ⟨st, rfl⟩
    · rw [if_neg h1]
      have := ih (by simpa using hrest) (st.setBuf ib c) (ib + 1)
        (by simp only [List.length_cons]; omega)
      simpa only [List.cons_append] using this

theorem compileLoop_cls_esc_overflow (neg : Bool) (body : List Nat)
    (ht : (Tok.cls neg body).wfEsc) (fuel : Nat) (st : State) (tail : List Nat) (ic ib : Nat)
    (hic : ic + 1 < REGEX_MAX_OPERATORS)
    (hov : REGEX_CHAR_BUFFER_SIZE < ib + (body.length + 1)) :
    ∃ st1, compileLoop (fuel + 1) st ((Tok.cls neg body).render ++ tail) ic ib
      = .ret st1 none := by
  obtain ⟨hwe, hneg⟩ := ht
  have key : ∀ st0 : State, ∃ st1,
      (match copyClass st0 (body ++ 93 :: tail) ib with
        | .outside => CompileOutcome.outside
        | .overflow st2 => .ret st2 none
        | .closed st2 cur2 ib2 =>
          if ib2 ≥ REGEX_CHAR_BUFFER_SIZE then .ret st2 none
          else compileLoop fuel ((st2.setBuf ib2 0).setCcl ic ib) (cur2.drop 1) (ic + 1)
            (ib2 + 1)) = .ret st1 none := by
    intro st0
    rcases copyClass_escaped_nofit body hwe st0 ib tail (by omega) with
      ⟨st1, h⟩ | ⟨st1, cur, ib2, h, h2⟩
    · exact ⟨st1, by rw [h]⟩
    · exact ⟨st1, by rw [h]; simp only [if_pos (show ib2 ≥ REGEX_CHAR_BUFFER_SIZE from h2)]⟩
  cases neg with
  | true =>
    obtain ⟨st1, h⟩ := key (st.setType ic INV_CHAR_CLASS)
    refine ⟨st1, ?_⟩
    simp only [Tok.render, List.cons_append, List.nil_append, compileLoop_succ_cons,
      metaType_91, if_true, List.append_assoc, List.singleton_append]
    rw [if_pos ⟨by decide, hic⟩, if_neg (by decide)]
    exact h
  | false =>
    obtain ⟨st1, h⟩ := key (st.setType ic CHAR_CLASS)
    refine ⟨st1, ?_⟩
    simp only [Tok.render, List.cons_append, List.nil_append, compileLoop_succ_cons,
      metaType_91, List.append_assoc, List.singleton_append]
    rw [if_pos ⟨by decide, hic⟩, if_neg (by decide), if_pos trivial]
    simp only [Bool.false_eq_true, if_false, List.nil_append]
    cases body with
    | nil =>
      simp only [List.nil_append] at h ⊢
      rw [if_neg (by decide), if_neg (by decide)]
      exact h
    | cons b body =>
      have hb94 : b ≠ 94 := by
        intro hh; exact hneg rfl (by simp [hh])
      simp only [List.cons_append] at h ⊢
      rw [if_neg hb94, if_neg hb94]
      exact h

theorem compileLoop_toks_esc_overflow (toks : List Tok) (hwf : ∀ t ∈ toks, t.wfEsc)
    (fuel : Nat) (st : State) (tail : List Nat) (ic ib : Nat)
    (hic : ic + toks.length < REGEX_MAX_OPERATORS) (hib : ib ≤ REGEX_CHAR_BUFFER_SIZE)
    (hov : REGEX_CHAR_BUFFER_SIZE < ib + bufUseToks toks) :
    ∃ st1, compileLoop (fuel + toks.length) st (renderToks toks ++ tail) ic ib
      = .ret st1 none := by
  induction toks generalizing st ic ib with
  | nil => simp [bufUseToks] at hov; omega
  | cons t ts ih =>
    simp only [List.length_cons] at hic
    simp only [bufUseToks] at hov
    have hwt := hwf t (List.mem_cons_self _ _)
    simp only [renderToks, List.append_assoc, List.length_cons]
    rw [show fuel + (ts.length + 1) = fuel + ts.length + 1 by omega]
    by_cases h1 : ib + t.bufUse ≤ REGEX_CHAR_BUFFER_SIZE
    · rw [compileLoop_tok_esc t hwt _ _ _ _ _ (by omega) h1]
      exact ih (fun x hx => hwf x (List.mem_cons_of_mem _ hx)) _ _ _ (by omega) h1 (by omega)
    · cases t with
      | plain c => simp [Tok.bufUse] at h1; omega
      | esc c => simp [Tok.bufUse] at h1; omega
      | cls neg body =>
        simp only [Tok.bufUse] at h1
        exact compileLoop_cls_esc_overflow neg body hwt _ _ _ _ _ (by omega) (by omega)

/-- After 29 well-formed tokens whose classes fit the class buffer the loop guard stops the
scan, whatever bytes follow: the sentinel goes to slot 29 and the array is returned. -/
theorem Regex_Compile_cut (toks : List Tok) (hwf : ∀ t ∈ toks, t.wfEsc)
    (hlen : toks.length = 29) (rest : List Nat) (st : State)
    (hfit : 1 + bufUseToks toks ≤ REGEX_CHAR_BUFFER_SIZE) :
    Regex_Compile st (renderToks toks ++ rest)
      = .ret ((writeToks st 0 1 toks).setType 29 UNUSED) (some 0) := by
  unfold Regex_Compile
  have hl := renderToks_length toks
  obtain ⟨f, hf⟩ : ∃ f, (renderToks toks ++ rest).length + 1 = (f + 1) + toks.length :=
    ⟨(renderToks toks ++ rest).length - toks.length, by
      simp only [List.length_append]; omega⟩
  obtain ⟨c, tl, hc⟩ : ∃ c tl, rest ++ [0] = c :: tl := by
    cases rest with
    | nil => exact ⟨0, [], rfl⟩
    | cons c tl => exact ⟨c, tl ++ [0], by simp⟩
  rw [hf, List.append_assoc, compileLoop_toks_esc toks hwf (f + 1) st _ 0 1
    (by simp [REGEX_MAX_OPERATORS, hlen]) hfit, hc,
    compileLoop_exit _ _ _ _ _ _ (Or.inr (by simp [REGEX_MAX_OPERATORS, hlen])), hlen]

/-- After 29 well-formed tokens whose classes do not fit the class buffer the call returns
null, whatever bytes follow. -/
theorem Regex_Compile_cut_overflow (toks : List Tok) (hwf : ∀ t ∈ toks, t.wfEsc)
    (hlen : toks.length = 29) (rest : List Nat) (st : State)
    (hov : REGEX_CHAR_BUFFER_SIZE < 1 + bufUseToks toks) :
    ∃ st1, Regex_Compile st (renderToks toks ++ rest) = .ret st1 none := by
  unfold Regex_Compile
  have hl := renderToks_length toks
  obtain ⟨f, hf⟩ : ∃ f, (renderToks toks ++ rest).length + 1 = f + toks.length :=
    ⟨(renderToks toks ++ rest).length + 1 - toks.length, by
      simp only [List.length_append]; omega⟩
  rw [hf, List.append_assoc]
  exact compileLoop_toks_esc_overflow toks hwf f st _ 0 1
    (by simp [REGEX_MAX_OPERATORS, hlen]) (by simp [REGEX_CHAR_BUFFER_SIZE]) hov

/-! ## Lemmas on the matcher call by call -/

theorem checked_matchpattern_succ (buf : Nat → Nat) (fuel : Nat) (p0 : regex_t)
    (pattern1 : List regex_t) (text : List Nat) :
    Checked.matchpattern buf (fuel + 1) (p0 :: pattern1) text =
    if p0.type = UNUSED then Checked.matchquestion buf fuel p0 (pattern1.drop 1) text
    else
      match pattern1 with
      | [] => .fault
      | p1 :: pattern2 =>
        if p1.type = QUESTIONMARK then Checked.matchquestion buf fuel p0 pattern2 text
        else if p1.type = STAR then Checked.matchstar buf fuel p0 pattern2 text
        else if p1.type = PLUS then Checked.matchplus buf fuel p0 pattern2 text
        else if p0.type = END ∧ p1.type = UNUSED then
          match text with
          | [] => .fault
          | c :: _ => .done (c == 0)
        else
          match text with
          | [] => .fault
          | c :: text1 =>
            if c ≠ 0 then
              match Checked.matchone buf p0 c with
              | none => .fault
              | some true => Checked.matchpattern buf fuel (p1 :: pattern2) text1
              | some false => .done false
            else .done false := by
  rfl

theorem checked_matchstar_succ (buf : Nat → Nat) (fuel : Nat) (p : regex_t)
    (pattern : List regex_t) (text : List Nat) :
    Checked.matchstar buf (fuel + 1) p pattern text =
    match Checked.matchpattern buf fuel pattern text with
    | .done true => .done true
    | .done false =>
      match text with
      | [] => .fault
      | c :: text1 =>
        if c ≠ 0 then
          match Checked.matchone buf p c with
          | none => .fault
          | some true => Checked.matchstar buf fuel p pattern text1
          | some false => .done false
        else .done false
    | .fault => .fault
    | .nofuel => .nofuel := by
  rfl

theorem checked_matchplus_succ (buf : Nat → Nat) (fuel : Nat) (p : regex_t)
    (pattern : List regex_t) (text : List Nat) :
    Checked.matchplus buf (fuel + 1) p pattern text =
    match text with
    | [] => .fault
    | c :: text1 =>
      if c ≠ 0 then
        match Checked.matchone buf p c with
        | none => .fault
        | some true =>
          match Checked.matchpattern buf fuel pattern text1 with
          | .done true => .done true
          | .done false => Checked.matchplus buf fuel p pattern text1
          | .fault => .fault
          | .nofuel => .nofuel
        | some false => .done false
      else .done false := by
  rfl

theorem checked_matchquestion_succ (buf : Nat → Nat) (fuel : Nat) (p : regex_t)
    (pattern : List regex_t) (text : List Nat) :
    Checked.matchquestion buf (fuel + 1) p pattern text =
    if p.type = UNUSED then .done true
    else
      match Checked.matchpattern buf fuel pattern text with
      | .done true => .done true
      | .done false =>
        match text with
        | [] => .fault
        | c :: text1 =>
          if c ≠ 0 then
            match Checked.matchone buf p c with
            | none => .fault
            | some true => Checked.matchpattern buf fuel pattern text1
            | some false => .done false
          else .done false
      | .fault => .fault
      | .nofuel => .nofuel := by
  rfl

theorem checked_scanText_succ (buf : Nat → Nat) (pattern : List regex_t) (fuel Index : Nat)
    (Text : List Nat) :
    Checked.scanText buf pattern (fuel + 1) Index Text =
    match Checked.matchpattern buf fuel pattern Text with
    | .done true =>
      match Text with
      | [] => .fault
      | c :: _ => if c = 0 then .done (-1) else .done (Index : Int)
    | .done false =>
      match Text with
      | [] => .fault
      | c :: rest => if c ≠ 0 then Checked.scanText buf pattern fuel (Index + 1) rest
        else .done (-1)
    | .fault => .fault
    | .nofuel => .nofuel := by
  rfl

/-- The four functions of the matcher end: on a pattern with `n` slots before an `UNUSED`
slot and a text with `m` bytes before its NUL, `matchpattern` takes at most `n + m + 2`
nested calls and iterations and the three handlers at most `n + m + 3`, whatever the
slots, the class buffer and the bytes after the NUL are. -/
theorem checked_terminates (buf : Nat → Nat) (fuel : Nat) :
    (∀ (pre : List regex_t) (u : regex_t) (junk : List regex_t) (t after : List Nat),
      u.type = UNUSED → (∀ c ∈ t, c ≠ 0) → pre.length + t.length + 2 ≤ fuel →
      Checked.matchpattern buf fuel (pre ++ u :: junk) (t ++ 0 :: after) ≠ .nofuel) ∧
    (∀ (p : regex_t) (pre : List regex_t) (u : regex_t) (junk : List regex_t)
      (t after : List Nat),
      u.type = UNUSED → (∀ c ∈ t, c ≠ 0) → pre.length + t.length + 3 ≤ fuel →
      Checked.matchquestion buf fuel p (pre ++ u :: junk) (t ++ 0 :: after) ≠ .nofuel ∧
      Checked.matchstar buf fuel p (pre ++ u :: junk) (t ++ 0 :: after) ≠ .nofuel ∧
      Checked.matchplus buf fuel p (pre ++ u :: junk) (t ++ 0 :: after) ≠ .nofuel) := by
  induction fuel with
  | zero =>
    exact ⟨fun _ _ _ _ _ _ _ h => by omega, fun _ _ _ _ _ _ _ _ h => by omega⟩
  | succ fuel ih =>
    obtain ⟨ihp, ihh⟩ := ih
    have hq1 : ∀ (f : Nat) (p : regex_t) (P : List regex_t) (T : List Nat), 1 ≤ f →
        p.type = UNUSED → Checked.matchquestion buf f p P T = .done true := by
      intro f p P T hf hp
      obtain ⟨g, rfl⟩ : ∃ g, f = g + 1 := ⟨f - 1, by omega⟩
      rw [checked_matchquestion_succ, if_pos hp]
    refine ⟨?_, ?_⟩
    · intro pre u junk t after hu ht hf
      cases pre with
      | nil =>
        rw [List.nil_append, checked_matchpattern_succ, if_pos hu,
          hq1 fuel _ _ _ (by simp at hf; omega) hu]
        simp
      | cons p0 pre1 =>
        rw [List.cons_append, checked_matchpattern_succ]
        by_cases h0 : p0.type = UNUSED
        · rw [if_pos h0, hq1 fuel _ _ _ (by simp at hf; omega) h0]
          simp
        · rw [if_neg h0]
          simp only [List.length_cons] at hf
          have hloop : ∀ (p1 : regex_t) (P2 : List regex_t),
              Checked.matchpattern buf fuel (p1 :: P2) (t.tail ++ 0 :: after) ≠ .nofuel →
              (match t ++ 0 :: after with
                | [] => Run.fault
                | c :: text1 =>
                  if c ≠ 0 then
                    match Checked.matchone buf p0 c with
                    | none => Run.fault
                    | some true => Checked.matchpattern buf fuel (p1 :: P2) text1
                    | some false => Run.done false
                  else Run.done false) ≠ .nofuel := by
            intro p1 P2 hrec
            cases t with
            | nil => simp
            | cons c t1 =>
              have hc : c ≠ 0 := ht c (List.mem_cons_self _ _)
              simp only [List.cons_append, List.tail_cons] at hrec ⊢
              rw [if_pos hc]
              cases Checked.matchone buf p0 c with
              | none => simp
              | some b => cases b <;> simp [hrec]
          have hend : (match t ++ 0 :: after with
                | [] => Run.fault
                | c :: _ => Run.done (c == 0)) ≠ .nofuel := by
            cases t <;> simp
          cases pre1 with
          | nil =>
            simp only [List.nil_append]
            rw [if_neg (by rw [hu]; decide), if_neg (by rw [hu]; decide),
              if_neg (by rw [hu]; decide)]
            by_cases he : p0.type = END ∧ u.type = UNUSED
            · rw [if_pos he]; exact hend
            · rw [if_neg he]
              apply hloop
              cases t with
              | nil =>
                have := ihp [] u junk [] after hu (by simp) (by simp at hf ⊢; omega)
                simpa using this
              | cons c t1 =>
                have := ihp [] u junk t1 after hu
                  (fun x hx => ht x (List.mem_cons_of_mem _ hx)) (by simp at hf ⊢; omega)
                simpa using this
          | cons p1 pre2 =>
            simp only [List.cons_append, List.length_cons] at hf ⊢
            have hh := ihh p0 pre2 u junk t after hu ht (by omega)
            by_cases hqm : p1.type = QUESTIONMARK
            · rw [if_pos hqm]; exact hh.1
            · rw [if_neg hqm]
              by_cases hst : p1.type = STAR
              · rw [if_pos hst]; exact hh.2.1
              · rw [if_neg hst]
                by_cases hpl : p1.type = PLUS
                · rw [if_pos hpl]; exact hh.2.2
                · rw [if_neg hpl]
                  by_cases he : p0.type = END ∧ p1.type = UNUSED
                  · rw [if_pos he]; exact hend
                  · rw [if_neg he]
                    apply hloop
                    cases t with
                    | nil =>
                      have := ihp (p1 :: pre2) u junk [] after hu (by simp)
                        (by simp at hf ⊢; omega)
                      simpa using this
                    | cons c t1 =>
                      have := ihp (p1 :: pre2) u junk t1 after hu
                        (fun x hx => ht x (List.mem_cons_of_mem _ hx))
                        (by simp at hf ⊢; omega)
                      simpa using this
    · intro p pre u junk t after hu ht hf
      have hp := ihp pre u junk t after hu ht (by omega)
      refine ⟨?_, ?_, ?_⟩
      · rw [checked_matchquestion_succ]
        by_cases h0 : p.type = UNUSED
        · rw [if_pos h0]; simp
        · rw [if_neg h0]
          cases t with
          | nil =>
            simp only [List.nil_append] at hp ⊢
            cases hr : Checked.matchpattern buf fuel (pre ++ u :: junk) (0 :: after) with
            | nofuel => exact absurd hr hp
            | fault => simp
            | done b => cases b <;> simp
          | cons c t1 =>
            have hc : c ≠ 0 := ht c (List.mem_cons_self _ _)
            have hp1 := ihp pre u junk t1 after hu
              (fun x hx => ht x (List.mem_cons_of_mem _ hx)) (by simp at hf ⊢; omega)
            simp only [List.cons_append] at hp ⊢
            cases hr : Checked.matchpattern buf fuel (pre ++ u :: junk)
                (c :: (t1 ++ 0 :: after)) with
            | nofuel => exact absurd hr hp
            | fault => simp
            | done b =>
              cases b with
              | true => simp
              | false =>
                simp only [if_pos hc]
                cases Checked.matchone buf p c with
                | none => simp
                | some b => cases b <;> simp [hp1]
      · rw [checked_matchstar_succ]
        cases t with
        | nil =>
          simp only [List.nil_append] at hp ⊢
          cases hr : Checked.matchpattern buf fuel (pre ++ u :: junk) (0 :: after) with
          | nofuel => exact absurd hr hp
          | fault => simp
          | done b => cases b <;> simp
        | cons c t1 =>
          have hc : c ≠ 0 := ht c (List.mem_cons_self _ _)
          have hs1 := (ihh p pre u junk t1 after hu
            (fun x hx => ht x (List.mem_cons_of_mem _ hx)) (by simp at hf ⊢; omega)).2.1
          simp only [List.cons_append] at hp ⊢
          cases hr : Checked.matchpattern buf fuel (pre ++ u :: junk)
              (c :: (t1 ++ 0 :: after)) with
          | nofuel => exact absurd hr hp
          | fault => simp
          | done b =>
            cases b with
            | true => simp
            | false =>
              simp only [if_pos hc]
              cases Checked.matchone buf p c with
              | none => simp
              | some b => cases b <;> simp [hs1]
      · rw [checked_matchplus_succ]
        cases t with
        | nil => simp
        | cons c t1 =>
          have hc : c ≠ 0 := ht c (List.mem_cons_self _ _)
          have ht1 : ∀ x ∈ t1, x ≠ 0 := fun x hx => ht x (List.mem_cons_of_mem _ hx)
          have hp1 := ihp pre u junk t1 after hu ht1 (by simp at hf ⊢; omega)
          have hs1 := (ihh p pre u junk t1 after hu ht1 (by simp at hf ⊢; omega)).2.2
          simp only [List.cons_append, if_pos hc]
          cases Checked.matchone buf p c with
          | none => simp
          | some b =>
            cases b with
            | false => simp
            | true =>
              simp only
              cases hr : Checked.matchpattern buf fuel (pre ++ u :: junk)
                  (t1 ++ 0 :: after) with
              | nofuel => exact absurd hr hp1
              | fault => simp
              | done b => cases b <;> simp [hs1]

theorem checked_matchrange (c : Nat) (str : List Nat) (h0 : 0 ∈ str) :
    Checked.matchrange c str = some (matchrange c str) := by
  cases str with
  | nil => simp at h0
  | cons x rest =>
    by_cases hc : c = 45
    · simp [Checked.matchrange, matchrange, hc]
    · by_cases hx : x = 0 ∨ x = 45
      · rcases hx with hx | hx <;> simp [Checked.matchrange, matchrange, strAt, hc, hx]
      · have hx0 : x ≠ 0 := fun h => hx (Or.inl h)
        have hx45 : x ≠ 45 := fun h => hx (Or.inr h)
        cases rest with
        | nil => simp [eq_comm, hx0] at h0
        | cons y rest2 =>
          by_cases hy : y = 45
          · subst hy
            cases rest2 with
            | nil => simp [eq_comm, hx0] at h0
            | cons z rest3 =>
              have e1 : (c == 45) = false := by simpa using hc
              have e2 : (x == 0) = false := by simpa using hx0
              have e3 : (x == 45) = false := by simpa using hx45
              by_cases hz : z = 0 <;>
                simp [Checked.matchrange, matchrange, strAt, bne, e1, e2, e3, hc, hx0, hx45, hz]
          · simp [Checked.matchrange, matchrange, strAt, hc, hx0, hx45, hy]

theorem matchcharclassLoop_esc_cons (c prev x : Nat) (rest : List Nat) :
    matchcharclassLoop c true prev (x :: rest) =
      if matchmetachar c (x :: rest) then true
      else if c = x ∧ ismetachar c = false then true
      else if x ≠ 0 then matchcharclassLoop c false x rest else false := by
  rw [matchcharclassLoop]
  simp [strAt]

theorem checked_matchcharclassLoop_cons (c : Nat) (prev : Option Nat) (x : Nat)
    (rest : List Nat) :
    Checked.matchcharclassLoop c false prev (x :: rest) =
      match Checked.matchrange c (x :: rest) with
      | none => none
      | some true => some true
      | some false =>
        if x = 92 then Checked.matchcharclassLoop c true (some x) rest
        else if c = x then
          if c = 45 then
            match prev with
            | none => none
            | some b =>
              if b = 0 then some true
              else
                match rest with
                | [] => none
                | y :: _ => some (y == 0)
          else some true
        else if x ≠ 0 then Checked.matchcharclassLoop c false (some x) rest
        else some false := by
  rfl

theorem checked_matchcharclassLoop_esc_cons (c : Nat) (prev : Option Nat) (x : Nat)
    (rest : List Nat) :
    Checked.matchcharclassLoop c true prev (x :: rest) =
      if MiniRegex.matchmetachar c (x :: rest) then some true
      else if c = x ∧ ismetachar c = false then some true
      else if x ≠ 0 then Checked.matchcharclassLoop c false (some x) rest
      else some false := by
  rfl

theorem checked_matchcharclassLoop (c : Nat) (str : List Nat) (h0 : 0 ∈ str) :
    ∀ (esc : Bool) (prev : Nat),
      Checked.matchcharclassLoop c esc (some prev) str
        = some (matchcharclassLoop c esc prev str) := by
  induction str with
  | nil => simp at h0
  | cons x rest ih =>
    have hrest : x ≠ 0 → 0 ∈ rest := by
      intro hx
      rcases List.mem_cons.mp h0 with h | h
      · exact absurd h.symm hx
      · exact h
    intro esc prev
    cases esc with
    | false =>
      rw [checked_matchcharclassLoop_cons, checked_matchrange c (x :: rest) h0,
        matchcharclassLoop_cons]
      cases hr : matchrange c (x :: rest) with
      | true => simp
      | false =>
        simp only [Bool.false_eq_true, if_false]
        by_cases h92 : x = 92
        · rw [if_pos h92, if_pos h92]
          exact ih (hrest (by omega)) true x
        · rw [if_neg h92, if_neg h92]
          by_cases hcx : c = x
          · rw [if_pos hcx, if_pos hcx]
            by_cases h45 : c = 45
            · rw [if_pos h45, if_pos h45]
              by_cases hp : prev = 0
              · simp [hp]
              · have := hrest (by omega)
                cases rest with
                | nil => simp at this
                | cons y rest2 => simp [hp, strAt]
            · rw [if_neg h45, if_neg h45]
          · rw [if_neg hcx, if_neg hcx]
            by_cases hx : x ≠ 0
            · rw [if_pos hx, if_pos hx]
              exact ih (hrest hx) false x
            · rw [if_neg hx, if_neg hx]
    | true =>
      rw [checked_matchcharclassLoop_esc_cons, matchcharclassLoop_esc_cons]
      by_cases hm : matchmetachar c (x :: rest) = true
      · rw [if_pos hm, if_pos hm]
      · rw [if_neg hm, if_neg hm]
        by_cases hcx : c = x ∧ ismetachar c = false
        · rw [if_pos hcx, if_pos hcx]
        · rw [if_neg hcx, if_neg hcx]
          by_cases hx : x ≠ 0
          · rw [if_pos hx, if_pos hx]
            exact ih (hrest hx) false x
          · rw [if_neg hx, if_neg hx]

theorem zero_mem_bufFrom (buf : Nat → Nat) (i z : Nat) (h1 : i ≤ z)
    (h2 : z < REGEX_CHAR_BUFFER_SIZE) (h3 : buf z = 0) : 0 ∈ bufFrom buf i := by
  unfold bufFrom
  rw [List.mem_map]
  exact ⟨z - i, List.mem_range.mpr (by omega), by
    rw [show i + (z - i) = z by omega]; exact h3⟩

/-- With a class pointer it can follow, `matchcharclass` reads inside the buffer only. -/
theorem checked_matchcharclass (buf : Nat → Nat) (c i : Nat) (h : classPointerOk buf i) :
    Checked.matchcharclass buf c i = some (matchcharclass buf c i) := by
  obtain ⟨h1, z, hz2, hz1, hz3⟩ := h
  unfold Checked.matchcharclass matchcharclass
  rw [if_pos ⟨h1, by omega⟩]
  exact checked_matchcharclassLoop c _ (zero_mem_bufFrom buf i z hz1 hz2 hz3) false _

/-- With a class pointer it can follow, `matchone` reads inside the buffer only. -/
theorem checked_matchone (buf : Nat → Nat) (p : regex_t) (c : Nat) (h : classOk buf p) :
    Checked.matchone buf p c = some (matchone buf p c) := by
  unfold Checked.matchone matchone
  cases hp : p.type <;> simp only
  · rw [checked_matchcharclass buf c p.ccl (h (Or.inl hp))]
  · rw [checked_matchcharclass buf c p.ccl (h (Or.inr hp))]; rfl


/-- The four functions of the matcher return, without a read outside an array, what the
loops of `matchpattern`, `matchquestion`, `matchstar` and `matchplus` give, on a pattern
with an `UNUSED` slot whose class slots before it have class pointers that `matchcharclass`
can follow, and a text with a NUL. -/
theorem checked_value (buf : Nat → Nat) (fuel : Nat) :
    (∀ (pre : List regex_t) (u : regex_t) (junk : List regex_t) (t after : List Nat),
      u.type = UNUSED → (∀ q ∈ pre, classOk buf q) → (∀ c ∈ t, c ≠ 0) →
      pre.length + t.length + 2 ≤ fuel →
      Checked.matchpattern buf fuel (pre ++ u :: junk) (t ++ 0 :: after)
        = .done (matchpattern buf (pre ++ u :: junk) t)) ∧
    (∀ (p : regex_t) (pre : List regex_t) (u : regex_t) (junk : List regex_t)
      (t after : List Nat),
      u.type = UNUSED → classOk buf p → (∀ q ∈ pre, classOk buf q) → (∀ c ∈ t, c ≠ 0) →
      pre.length + t.length + 3 ≤ fuel →
      Checked.matchquestion buf fuel p (pre ++ u :: junk) (t ++ 0 :: after)
        = .done (matchquestion buf p (pre ++ u :: junk) t) ∧
      Checked.matchstar buf fuel p (pre ++ u :: junk) (t ++ 0 :: after)
        = .done (matchstar buf p (pre ++ u :: junk) t) ∧
      Checked.matchplus buf fuel p (pre ++ u :: junk) (t ++ 0 :: after)
        = .done (matchplus buf p (pre ++ u :: junk) t)) := by
  induction fuel with
  | zero =>
    exact ⟨fun _ _ _ _ _ _ _ _ h => by omega, fun _ _ _ _ _ _ _ _ _ _ h => by omega⟩
  | succ fuel ih =>
    obtain ⟨ihp, ihh⟩ := ih
    have hq1 : ∀ (f : Nat) (p : regex_t) (P : List regex_t) (T : List Nat), 1 ≤ f →
        p.type = UNUSED → Checked.matchquestion buf f p P T = .done true := by
      intro f p P T hf hp
      obtain ⟨g, rfl⟩ : ∃ g, f = g + 1 := ⟨f - 1, by omega⟩
      rw [checked_matchquestion_succ, if_pos hp]
    refine ⟨?_, ?_⟩
    · intro pre u junk t after hu hcl ht hf
      cases pre with
      | nil =>
        rw [List.nil_append, checked_matchpattern_succ, if_pos hu,
          hq1 fuel _ _ _ (by simp at hf; omega) hu, matchpattern_unused buf u junk t hu]
      | cons p0 pre1 =>
        have hcl0 : classOk buf p0 := hcl p0 (List.mem_cons_self _ _)
        have hcl1 : ∀ q ∈ pre1, classOk buf q := fun q hq => hcl q (List.mem_cons_of_mem _ hq)
        rw [List.cons_append, checked_matchpattern_succ]
        by_cases h0 : p0.type = UNUSED
        · rw [if_pos h0, hq1 fuel _ _ _ (by simp at hf; omega) h0,
            matchpattern_unused buf p0 _ t h0]
        · rw [if_neg h0]
          simp only [List.length_cons] at hf
          have hloop : ∀ (s : List Nat), (∀ c ∈ s, c ≠ 0) →
              ∀ (p1 : regex_t) (P2 : List regex_t),
              Checked.matchpattern buf fuel (p1 :: P2) (s.tail ++ 0 :: after)
                = .done (matchpattern buf (p1 :: P2) s.tail) →
              (match s ++ 0 :: after with
                | [] => Run.fault
                | c :: text1 =>
                  if c ≠ 0 then
                    match Checked.matchone buf p0 c with
                    | none => Run.fault
                    | some true => Checked.matchpattern buf fuel (p1 :: P2) text1
                    | some false => Run.done false
                  else Run.done false)
              = .done (match s with
                | [] => false
                | c :: rest => c != 0 && matchone buf p0 c && matchpattern buf (p1 :: P2) rest)
              := by
            intro s hs p1 P2 hrec
            cases s with
            | nil => simp
            | cons c t1 =>
              have hc : c ≠ 0 := hs c (List.mem_cons_self _ _)
              simp only [List.cons_append, List.tail_cons] at hrec ⊢
              rw [if_pos hc, checked_matchone buf p0 c hcl0]
              cases matchone buf p0 c with
              | false => simp
              | true => simp [hrec, hc]
          have hend : (match t ++ 0 :: after with
                | [] => Run.fault
                | c :: _ => Run.done (c == 0)) = .done (strAt t 0 == 0) := by
            cases t with
            | nil => simp [strAt]
            | cons c t1 => simp [strAt]
          cases pre1 with
          | nil =>
            have hnq : ¬ u.type = QUESTIONMARK := by rw [hu]; decide
            have hns : ¬ u.type = STAR := by rw [hu]; decide
            have hnp : ¬ u.type = PLUS := by rw [hu]; decide
            have hnq2 : ¬ (p0.type = UNUSED ∨ u.type = QUESTIONMARK) := by simp [h0, hnq]
            simp only [List.nil_append]
            rw [matchpattern_cons_cons, if_neg hnq, if_neg hnq2, if_neg hns, if_neg hns,
              if_neg hnp, if_neg hnp]
            by_cases he : p0.type = END ∧ u.type = UNUSED
            · rw [if_pos he, if_pos he]; exact hend
            · rw [if_neg he, if_neg he]
              apply hloop t ht
              cases t with
              | nil =>
                have := ihp [] u junk [] after hu (by simp) (by simp) (by simp at hf ⊢; omega)
                simpa using this
              | cons c t1 =>
                have := ihp [] u junk t1 after hu (by simp)
                  (fun x hx => ht x (List.mem_cons_of_mem _ hx)) (by simp at hf ⊢; omega)
                simpa using this
          | cons p1 pre2 =>
            have hcl2 : ∀ q ∈ pre2, classOk buf q :=
              fun q hq => hcl1 q (List.mem_cons_of_mem _ hq)
            simp only [List.cons_append, List.length_cons] at hf ⊢
            have hh := ihh p0 pre2 u junk t after hu hcl0 hcl2 ht (by omega)
            rw [matchpattern_cons_cons]
            by_cases hqm : p1.type = QUESTIONMARK
            · rw [if_pos hqm, if_pos (Or.inr hqm)]; exact hh.1
            · have hq2 : ¬ (p0.type = UNUSED ∨ p1.type = QUESTIONMARK) := by simp [h0, hqm]
              rw [if_neg hqm, if_neg hq2]
              by_cases hst : p1.type = STAR
              · rw [if_pos hst, if_pos hst]; exact hh.2.1
              · rw [if_neg hst, if_neg hst]
                by_cases hpl : p1.type = PLUS
                · rw [if_pos hpl, if_pos hpl]; exact hh.2.2
                · rw [if_neg hpl, if_neg hpl]
                  by_cases he : p0.type = END ∧ p1.type = UNUSED
                  · rw [if_pos he, if_pos he]; exact hend
                  · rw [if_neg he, if_neg he]
                    apply hloop t ht
                    cases t with
                    | nil =>
                      have := ihp (p1 :: pre2) u junk [] after hu hcl1 (by simp)
                        (by simp at hf ⊢; omega)
                      simpa using this
                    | cons c t1 =>
                      have := ihp (p1 :: pre2) u junk t1 after hu hcl1
                        (fun x hx => ht x (List.mem_cons_of_mem _ hx))
                        (by simp at hf ⊢; omega)
                      simpa using this
    · intro p pre u junk t after hu hclp hcl ht hf
      have hp := ihp pre u junk t after hu hcl ht (by omega)
      refine ⟨?_, ?_, ?_⟩
      · rw [checked_matchquestion_succ]
        unfold matchquestion questionBody
        by_cases h0 : p.type = UNUSED
        · rw [if_pos h0, if_pos h0]
        · rw [if_neg h0, if_neg h0, hp]
          cases hk : matchpattern buf (pre ++ u :: junk) t with
          | true => simp
          | false =>
            cases t with
            | nil => simp
            | cons c t1 =>
              have hc : c ≠ 0 := ht c (List.mem_cons_self _ _)
              have hp1 := ihp pre u junk t1 after hu hcl
                (fun x hx => ht x (List.mem_cons_of_mem _ hx)) (by simp at hf ⊢; omega)
              simp only [List.cons_append, if_pos hc, Bool.false_eq_true, if_false]
              rw [checked_matchone buf p c hclp]
              cases hm : matchone buf p c with
              | false => simp
              | true => simp [hp1, hc]
      · rw [checked_matchstar_succ, hp]
        unfold matchstar
        cases t with
        | nil =>
          simp only [starLoop]
          cases hk : matchpattern buf (pre ++ u :: junk) [] <;> simp
        | cons c t1 =>
          have hc : c ≠ 0 := ht c (List.mem_cons_self _ _)
          have hs1 := (ihh p pre u junk t1 after hu hclp hcl
            (fun x hx => ht x (List.mem_cons_of_mem _ hx)) (by simp at hf ⊢; omega)).2.1
          simp only [starLoop]
          cases hk : matchpattern buf (pre ++ u :: junk) (c :: t1) with
          | true => simp
          | false =>
            simp only [List.cons_append, if_pos hc]
            rw [checked_matchone buf p c hclp]
            cases hm : matchone buf p c with
            | false => simp
            | true => simp [hs1, hc, matchstar]
      · rw [checked_matchplus_succ]
        unfold matchplus
        cases t with
        | nil => simp [plusLoop]
        | cons c t1 =>
          have hc : c ≠ 0 := ht c (List.mem_cons_self _ _)
          have ht1 : ∀ x ∈ t1, x ≠ 0 := fun x hx => ht x (List.mem_cons_of_mem _ hx)
          have hp1 := ihp pre u junk t1 after hu hcl ht1 (by simp at hf ⊢; omega)
          have hs1 := (ihh p pre u junk t1 after hu hclp hcl ht1 (by simp at hf ⊢; omega)).2.2
          simp only [List.cons_append, if_pos hc, plusLoop]
          rw [checked_matchone buf p c hclp]
          cases hm : matchone buf p c with
          | false => simp
          | true =>
            simp only [hp1]
            cases hk : matchpattern buf (pre ++ u :: junk) t1 with
            | true => simp [hc]
            | false => simp [hs1, hc, matchplus]


/-- The scan loop of `Regex_Matchp` ends within `n + m + 3` nested calls and iterations. -/
theorem checked_scanText_terminates (buf : Nat → Nat) (pre : List regex_t) (u : regex_t)
    (junk : List regex_t) (hu : u.type = UNUSED) (after : List Nat) :
    ∀ (t : List Nat) (fuel Index : Nat), (∀ c ∈ t, c ≠ 0) →
      pre.length + t.length + 3 ≤ fuel →
      Checked.scanText buf (pre ++ u :: junk) fuel Index (t ++ 0 :: after) ≠ .nofuel := by
  intro t
  induction t with
  | nil =>
    intro fuel Index _ hf
    obtain ⟨f, rfl⟩ : ∃ f, fuel = f + 1 := ⟨fuel - 1, by omega⟩
    have hp := (checked_terminates buf f).1 pre u junk [] after hu (by simp)
      (by simp at hf ⊢; omega)
    rw [checked_scanText_succ]
    simp only [List.nil_append] at hp ⊢
    cases hr : Checked.matchpattern buf f (pre ++ u :: junk) (0 :: after) with
    | nofuel => exact absurd hr hp
    | fault => simp
    | done b => cases b <;> simp
  | cons c t1 ih =>
    intro fuel Index ht hf
    obtain ⟨f, rfl⟩ : ∃ f, fuel = f + 1 := ⟨fuel - 1, by omega⟩
    have hc : c ≠ 0 := ht c (List.mem_cons_self _ _)
    have ht1 : ∀ x ∈ t1, x ≠ 0 := fun x hx => ht x (List.mem_cons_of_mem _ hx)
    have hp := (checked_terminates buf f).1 pre u junk (c :: t1) after hu ht
      (by simp at hf ⊢; omega)
    have hs := ih f (Index + 1) ht1 (by simp at hf ⊢; omega)
    rw [checked_scanText_succ]
    simp only [List.cons_append] at hp ⊢
    cases hr : Checked.matchpattern buf f (pre ++ u :: junk) (c :: (t1 ++ 0 :: after)) with
    | nofuel => exact absurd hr hp
    | fault => simp
    | done b => cases b <;> simp [hc, hs]

/-- The scan loop of `Regex_Matchp` returns what `scanText` gives. -/
theorem checked_scanText_value (buf : Nat → Nat) (pre : List regex_t) (u : regex_t)
    (junk : List regex_t) (hu : u.type = UNUSED) (hcl : ∀ q ∈ pre, classOk buf q)
    (after : List Nat) :
    ∀ (t : List Nat) (fuel Index : Nat), (∀ c ∈ t, c ≠ 0) →
      pre.length + t.length + 3 ≤ fuel →
      Checked.scanText buf (pre ++ u :: junk) fuel Index (t ++ 0 :: after)
        = .done (scanText buf (pre ++ u :: junk) Index t) := by
  intro t
  induction t with
  | nil =>
    intro fuel Index _ hf
    obtain ⟨f, rfl⟩ : ∃ f, fuel = f + 1 := ⟨fuel - 1, by omega⟩
    have hp := (checked_value buf f).1 pre u junk [] after hu hcl (by simp)
      (by simp at hf ⊢; omega)
    rw [checked_scanText_succ, scanText_nil]
    simp only [List.nil_append] at hp ⊢
    rw [hp]
    cases matchpattern buf (pre ++ u :: junk) [] <;> simp
  | cons c t1 ih =>
    intro fuel Index ht hf
    obtain ⟨f, rfl⟩ : ∃ f, fuel = f + 1 := ⟨fuel - 1, by omega⟩
    have hc : c ≠ 0 := ht c (List.mem_cons_self _ _)
    have ht1 : ∀ x ∈ t1, x ≠ 0 := fun x hx => ht x (List.mem_cons_of_mem _ hx)
    have hp := (checked_value buf f).1 pre u junk (c :: t1) after hu hcl ht
      (by simp at hf ⊢; omega)
    have hs := ih f (Index + 1) ht1 (by simp at hf ⊢; omega)
    rw [checked_scanText_succ, scanText_cons _ _ _ _ _ hc]
    simp only [List.cons_append] at hp ⊢
    rw [hp]
    cases matchpattern buf (pre ++ u :: junk) (c :: t1) <;> simp [hc, hs]

theorem patternFrom_eq_cons (st : State) (i : Nat) (p0 : regex_t) (rest : List regex_t)
    (h : patternFrom st i = p0 :: rest) :
    st.Pattern_Compiled i = p0 ∧ patternFrom st (i + 1) = rest := by
  have hi : i < REGEX_MAX_OPERATORS := by
    by_contra hh
    have : patternFrom st i = [] := by
      unfold patternFrom
      rw [show REGEX_MAX_OPERATORS - i = 0 by omega]
      rfl
    rw [this] at h
    exact List.noConfusion h
  rw [patternFrom_cons st i hi] at h
  exact ⟨(List.cons.inj h).1, (List.cons.inj h).2⟩

/-- The call `Regex_Matchp` ends within `n + m + 3` nested calls and iterations. -/
theorem checked_Regex_Matchp_terminates (st : State) (i : Nat) (pre : List regex_t)
    (u : regex_t) (junk : List regex_t) (hP : patternFrom st i = pre ++ u :: junk)
    (hu : u.type = UNUSED) (t after : List Nat) (ht : ∀ c ∈ t, c ≠ 0) (fuel : Nat)
    (hf : pre.length + t.length + 3 ≤ fuel) :
    Checked.Regex_Matchp fuel st (t ++ 0 :: after) (some i) ≠ .nofuel := by
  unfold Checked.Regex_Matchp
  simp only [hP]
  cases pre with
  | nil =>
    simp only [List.nil_append]
    rw [if_neg (by rw [hu]; decide)]
    exact checked_scanText_terminates st.Char_Buffer [] u junk hu after t fuel 0 ht hf
  | cons p0 pre1 =>
    simp only [List.cons_append]
    by_cases hb : p0.type = BEGIN
    · rw [if_pos hb]
      have hp := (checked_terminates st.Char_Buffer fuel).1 pre1 u junk t after hu ht
        (by simp at hf ⊢; omega)
      cases hr : Checked.matchpattern st.Char_Buffer fuel (pre1 ++ u :: junk)
          (t ++ 0 :: after) with
      | nofuel => exact absurd hr hp
      | fault => simp
      | done b => cases b <;> simp
    · rw [if_neg hb]
      exact checked_scanText_terminates st.Char_Buffer (p0 :: pre1) u junk hu after t fuel 0
        ht hf

/-- The call `Regex_Matchp` returns what the loops of `Regex_Matchp` give. -/
theorem checked_Regex_Matchp_value (st : State) (i : Nat) (pre : List regex_t)
    (u : regex_t) (junk : List regex_t) (hP : patternFrom st i = pre ++ u :: junk)
    (hu : u.type = UNUSED) (hcl : ∀ q ∈ pre, classOk st.Char_Buffer q)
    (t after : List Nat) (ht : ∀ c ∈ t, c ≠ 0) (fuel : Nat)
    (hf : pre.length + t.length + 3 ≤ fuel) :
    Checked.Regex_Matchp fuel st (t ++ 0 :: after) (some i)
      = .done (Regex_Matchp st t (some i)) := by
  unfold Checked.Regex_Matchp Regex_Matchp
  simp only [hP]
  cases pre with
  | nil =>
    obtain ⟨h1, _⟩ := patternFrom_eq_cons st i u junk hP
    simp only [List.nil_append]
    rw [if_neg (by rw [hu]; decide), if_neg (by rw [h1, hu]; decide)]
    exact checked_scanText_value st.Char_Buffer [] u junk hu hcl after t fuel 0 ht hf
  | cons p0 pre1 =>
    obtain ⟨h1, h2⟩ := patternFrom_eq_cons st i p0 (pre1 ++ u :: junk) hP
    simp only [List.cons_append]
    rw [h1, h2]
    by_cases hb : p0.type = BEGIN
    · rw [if_pos hb, if_pos hb]
      rw [(checked_value st.Char_Buffer fuel).1 pre1 u junk t after hu
        (fun q hq => hcl q (List.mem_cons_of_mem _ hq)) ht (by simp at hf ⊢; omega)]
      cases matchpattern st.Char_Buffer (pre1 ++ u :: junk) t <;> simp
    · rw [if_neg hb, if_neg hb]
      exact checked_scanText_value st.Char_Buffer (p0 :: pre1) u junk hu hcl after t fuel 0
        ht hf

theorem Regex_Matchp_range (st : State) (t : List Nat) (h : re_t) :
    Regex_Matchp st t h = -1 ∨ ∃ k : Nat, k ≤ t.length ∧ Regex_Matchp st t h = (k : Int) := by
  cases h with
  | none => left; rfl
  | some i =>
    simp only [Regex_Matchp]
    split_ifs with hb hm
    · right; exact ⟨0, Nat.zero_le _, rfl⟩
    · left; rfl
    · rcases scanText_range st.Char_Buffer (patternFrom st i) t 0 with h | ⟨k, hk, h⟩
      · left; exact h
      · right; exact ⟨k, by omega, by rw [h]; simp⟩

/-- With the class bytes at the start of the buffer the dash rule of `matchcharclass` reads
`str[-1]`, for every bound on the number of calls from 2 on. -/
theorem checked_fault_at_start (fuel : Nat) :
    Checked.Regex_Matchp (fuel + 2) stateClassAtStart [45, 0] (some 0) = .fault := by
  rfl

/-! ## The claims -/

/-- C3: anchored exact match.  For every content of the static storage, every string `s` of
at most 27 ordinary bytes and every NUL-terminated text `t`, `Regex_Match(t, "^" ++ s ++ "$")`
is 0 if `t = s` and -1 otherwise. -/
theorem C3_anchored_exact (st : State) (s t : List Nat) (hlen : s.length ≤ 27)
    (hs : ∀ c ∈ s, ordinary c) (ht : ∀ c ∈ t, c ≠ 0) :
    Regex_Match st t (94 :: s ++ [36]) = some (if t = s then 0 else -1) := by
  have hwf : ∀ x ∈ Tok.plain 94 :: (s.map Tok.plain ++ [Tok.plain 36]), x.wf := by
    intro x hx
    simp only [List.mem_cons, List.mem_append, List.mem_map, List.mem_singleton,
      List.not_mem_nil, or_false] at hx
    rcases hx with rfl | ⟨c, hc, rfl⟩ | rfl
    · exact ⟨by decide, by decide, by decide⟩
    · exact ordinary_wf c (hs c hc)
    · exact ⟨by decide, by decide, by decide⟩
  have hl : (Tok.plain 94 :: (s.map Tok.plain ++ [Tok.plain 36])).length = s.length + 2 := by
    simp
  have htake : (Tok.plain 94 :: (s.map Tok.plain ++ [Tok.plain 36])).take 29
      = Tok.plain 94 :: (s.map Tok.plain ++ [Tok.plain 36]) :=
    List.take_of_length_le (by rw [hl]; omega)
  have hbuf : bufUseToks (Tok.plain 94 :: (s.map Tok.plain ++ [Tok.plain 36])) = 0 := by
    simp [bufUseToks, bufUseToks_append, bufUseToks_map_plain, Tok.bufUse]
  obtain ⟨st1, hc, hslots, hend⟩ := Regex_Compile_pattern_slots
    (Tok.plain 94 :: (s.map Tok.plain ++ [Tok.plain 36])) false hwf st
    (by rw [htake, hbuf]; decide)
  rw [htake] at hslots
  have hren : renderPattern (Tok.plain 94 :: (s.map Tok.plain ++ [Tok.plain 36])) false
      = 94 :: s ++ [36] := by
    simp [renderPattern, renderToks, renderToks_append, renderToks_map_plain, Tok.render]
  rw [hren] at hc
  have hcnt : min (slotCount (Tok.plain 94 :: (s.map Tok.plain ++ [Tok.plain 36])) false) 29
      = s.length + 2 := by
    simp only [slotCount, hl]; simp; omega
  rw [hcnt] at hend
  have hb : (st1.Pattern_Compiled 0).type = BEGIN := (hslots 0 (Tok.plain 94) (by simp)).1
  have hlit := lit_slots_of_holds st1 s hs 1 (by
    intro k x hk
    have := hslots (k + 1) x (by
      rw [List.getElem?_cons_succ, List.getElem?_append_left]
      · exact hk
      · by_contra hh
        rw [List.getElem?_eq_none (by omega)] at hk
        exact Option.noConfusion hk)
    rwa [show k + 1 = 1 + k by omega] at this)
  have he : (st1.Pattern_Compiled (1 + s.length)).type = END := by
    have := hslots (s.length + 1) (Tok.plain 36) (by
      rw [List.getElem?_cons_succ, List.getElem?_append_right (by simp)]
      simp)
    rw [show 1 + s.length = s.length + 1 by omega]
    exact this.1
  obtain ⟨L, hL, hLs⟩ := patternFrom_lit st1 s 1 (by simp [REGEX_MAX_OPERATORS]; omega) hlit
  rw [patternFrom_cons st1 (1 + s.length) (by simp [REGEX_MAX_OPERATORS]; omega),
    patternFrom_cons st1 (1 + s.length + 1) (by simp [REGEX_MAX_OPERATORS]; omega)] at hL
  have hs0 : ∀ c ∈ s, c ≠ 0 := fun c hc => (hs c hc).2.1
  have hend2 : (st1.Pattern_Compiled (1 + s.length + 1)).type = UNUSED := by
    rw [show 1 + s.length + 1 = s.length + 2 by omega]; exact hend
  have hm := matchpattern_lit_end st1.Char_Buffer L s hLs hs0 _ _ he hend2
    (patternFrom st1 (1 + s.length + 1 + 1)) t ht
  rw [← hL] at hm
  simp only [Regex_Match, hc, Regex_Matchp, if_pos hb, Nat.zero_add]
  by_cases hts : t = s
  · rw [if_pos hts, if_pos (hm.mpr hts)]
  · rw [if_neg hts, if_neg (fun h => hts (hm.mp h))]

/-- Witness of C3: "abc" against "^abc$" gives 0 (and "xabc" gives -1). -/
theorem C3_anchored_exact_witness :
    [97, 98, 99].length ≤ 27 ∧ (∀ c ∈ [97, 98, 99], ordinary c) ∧
    (∀ c ∈ [97, 98, 99], c ≠ 0) ∧
    Regex_Match State.zero [97, 98, 99] (94 :: [97, 98, 99] ++ [36])
      = some (if [97, 98, 99] = [97, 98, 99] then 0 else -1) ∧
    Regex_Match State.zero [120, 97, 98, 99] (94 :: [97, 98, 99] ++ [36]) = some (-1) :=
  ⟨by decide, by decide, by decide,
    C3_anchored_exact State.zero [97, 98, 99] [97, 98, 99] (by decide) (by decide) (by decide),
    by decide⟩

/-- C4, the claim as stated fails: `Regex_Match("", "a?")` at program start is -1, not 0. -/
theorem C4_counterexample : Regex_Match State.zero [] [97, 63] = some (-1) ∧
    Regex_Match State.zero [] [97, 63] ≠ some 0 := by decide

/-- C4 as amended: for every content of the static storage and every atom `x` (an ordinary
byte, the dot, an escaped byte or a closed class without backslash),
`Regex_Match("", x ++ "?")` returns -1: the test `Text[0] == 0` after a successful
`matchpattern` applies at offset 0 too. -/
theorem C4_empty_text_optional (st : State) (x : Tok) (hwf : x.wf) (hat : x.atom) :
    Regex_Match st [] (x.render ++ [63]) = some (-1) := by
  have hwfs : ∀ t ∈ [x, Tok.plain 63], t.wf := by
    intro t ht
    simp only [List.mem_cons, List.mem_singleton, List.not_mem_nil, or_false] at ht
    rcases ht with rfl | rfl
    · exact hwf
    · exact ⟨by decide, by decide, by decide⟩
  have hren : renderPattern [x, Tok.plain 63] false = x.render ++ [63] := by
    simp [renderPattern, renderToks, Tok.render]
  by_cases hfit : 1 + bufUseToks [x, Tok.plain 63] ≤ REGEX_CHAR_BUFFER_SIZE
  · obtain ⟨st1, hc, hslots, _⟩ :=
      Regex_Compile_pattern_slots [x, Tok.plain 63] false hwfs st (by simpa using hfit)
    rw [hren] at hc
    have h0 := (hslots 0 x (by simp)).1
    simp only [Regex_Match, hc]
    rw [Regex_Matchp_nil st1 (some 0)]
    intro i hi
    cases hi
    rw [h0]
    exact atom_not_begin x hat
  · obtain ⟨st1, hc⟩ := Regex_Compile_pattern_overflow [x, Tok.plain 63] false hwfs st
      (by simpa using hfit)
    rw [hren] at hc
    simp only [Regex_Match, hc]
    rfl

/-- Witness of C4 as amended: the atom `a`. -/
theorem C4_empty_text_optional_witness :
    (Tok.plain 97).wf ∧ (Tok.plain 97).atom ∧
    Regex_Match State.zero [] ((Tok.plain 97).render ++ [63]) = some (-1) :=
  ⟨by decide, Or.inl (by decide),
    C4_empty_text_optional State.zero (Tok.plain 97) (by decide) (Or.inl (by decide))⟩

/-- C5, the claim as stated fails: for the pattern of 30 bytes `a`, which would take 31
instructions with the sentinel, `Regex_Compile` returns the array, not null, with the
sentinel in slot 29. -/
theorem C5_counterexample :
    (Regex_Compile State.zero (List.replicate 30 97)).handle = some (some 0) ∧
    (((Regex_Compile State.zero (List.replicate 30 97)).state State.zero).Pattern_Compiled
      29).type = UNUSED := by
  decide

/-- C5 as amended: for every pattern that starts with 29 well-formed tokens (a byte other
than NUL, backslash and `[`; a backslash with a byte other than NUL; a class closed by `]`,
with or without escapes in it), whatever bytes `rest` follow them, and for every content of
the static storage, `Regex_Compile` does not fail on account of the instruction capacity: it
returns null only when the classes among the 29 tokens do not fit the class buffer, and
otherwise it returns the array with the instructions of the 29 tokens and the sentinel
`UNUSED` in slot 29, which is the array it returns for the pattern cut after the 29th token:
the bytes after it, which would take the instructions from the 30th on, are dropped without
notice. -/
theorem C5_truncated_not_null (st : State) (toks : List Tok) (rest : List Nat)
    (hwf : ∀ t ∈ toks, t.wfEsc) (hlen : toks.length = 29) :
    ∃ st1, Regex_Compile st (renderToks toks ++ rest)
        = .ret st1 (if bufUseToks toks ≤ REGEX_CHAR_BUFFER_SIZE - 1 then some 0 else none) ∧
      (bufUseToks toks ≤ REGEX_CHAR_BUFFER_SIZE - 1 →
        (∀ k t, toks[k]? = some t → holdsInstr (st1.Pattern_Compiled k) t) ∧
        (st1.Pattern_Compiled 29).type = UNUSED ∧
        Regex_Compile st (renderToks toks) = .ret st1 (some 0)) := by
  by_cases hfit : bufUseToks toks ≤ REGEX_CHAR_BUFFER_SIZE - 1
  · have hfit2 : 1 + bufUseToks toks ≤ REGEX_CHAR_BUFFER_SIZE := by
      simp only [REGEX_CHAR_BUFFER_SIZE] at hfit ⊢; omega
    refine ⟨_, by rw [if_pos hfit]; exact Regex_Compile_cut toks hwf hlen rest st hfit2,
      fun _ => ⟨fun k t hk => ?_, by simp, ?_⟩⟩
    · have hlt : k < toks.length := by
        by_contra hh
        rw [List.getElem?_eq_none (by omega)] at hk
        exact Option.noConfusion hk
      rw [setType_PC, if_neg (by omega)]
      have := writeToks_holds toks st 0 1 k t hk
      rwa [Nat.zero_add] at this
    · have := Regex_Compile_cut toks hwf hlen [] st hfit2
      rwa [List.append_nil] at this
  · obtain ⟨st1, hc⟩ := Regex_Compile_cut_overflow toks hwf hlen rest st
      (by simp only [REGEX_CHAR_BUFFER_SIZE] at hfit ⊢; omega)
    exact ⟨st1, by rw [if_neg hfit]; exact hc, fun h => absurd h hfit⟩

/-- Witness of C5 as amended: the class `[\]]`, 28 bytes `a`, and then `[b`, a class that
is not closed; the call returns the array.  So it does for 29 bytes `a` followed by `[\]]`
and for 30 bytes `a` followed by `[b`. -/
theorem C5_truncated_not_null_witness :
    (∀ t ∈ Tok.cls false [92, 93] :: List.replicate 28 (Tok.plain 97), t.wfEsc) ∧
    (Tok.cls false [92, 93] :: List.replicate 28 (Tok.plain 97)).length = 29 ∧
    renderToks (Tok.cls false [92, 93] :: List.replicate 28 (Tok.plain 97)) ++ [91, 98]
      = [91, 92, 93, 93] ++ List.replicate 28 97 ++ [91, 98] ∧
    (Regex_Compile State.zero (List.replicate 29 97 ++ [91, 92, 93, 93])).handle
      = some (some 0) ∧
    (Regex_Compile State.zero (List.replicate 30 97 ++ [91, 98])).handle = some (some 0) ∧
    ∃ st1, Regex_Compile State.zero
          (renderToks (Tok.cls false [92, 93] :: List.replicate 28 (Tok.plain 97)) ++ [91, 98])
        = .ret st1 (if bufUseToks (Tok.cls false [92, 93] :: List.replicate 28 (Tok.plain 97))
            ≤ REGEX_CHAR_BUFFER_SIZE - 1 then some 0 else none) ∧
      (bufUseToks (Tok.cls false [92, 93] :: List.replicate 28 (Tok.plain 97))
          ≤ REGEX_CHAR_BUFFER_SIZE - 1 →
        (∀ k t, (Tok.cls false [92, 93] :: List.replicate 28 (Tok.plain 97))[k]? = some t →
          holdsInstr (st1.Pattern_Compiled k) t) ∧
        (st1.Pattern_Compiled 29).type = UNUSED ∧
        Regex_Compile State.zero
            (renderToks (Tok.cls false [92, 93] :: List.replicate 28 (Tok.plain 97)))
          = .ret st1 (some 0)) :=
  ⟨by decide, by decide, by decide, by decide, by decide,
    C5_truncated_not_null State.zero
      (Tok.cls false [92, 93] :: List.replicate 28 (Tok.plain 97)) [91, 98]
      (by decide) (by decide)⟩

/-- C6, the claim as stated fails: a single class of 39 content bytes, which is at most
`REGEX_CHAR_BUFFER_SIZE`, makes `Regex_Compile` return null. -/
theorem C6_counterexample :
    (Regex_Compile State.zero (91 :: (List.replicate 39 97 ++ [93]))).handle = some none := by
  decide

/-- C6 as amended: for every pattern of well-formed tokens (classes closed and without
backslash) within the instruction capacity, `Regex_Compile` returns null if and only if the
content bytes of its classes plus one terminating NUL per class are more than
`REGEX_CHAR_BUFFER_SIZE - 1 = 39` bytes (index 0 of the buffer is never used); otherwise it
returns the array. -/
theorem C6_class_buffer (st : State) (toks : List Tok) (trail : Bool)
    (hwf : ∀ t ∈ toks, t.wf) (hcap : slotCount toks trail < REGEX_MAX_OPERATORS) :
    ∃ st1, Regex_Compile st (renderPattern toks trail)
      = .ret st1 (if bufUseToks toks ≤ REGEX_CHAR_BUFFER_SIZE - 1 then some 0 else none) := by
  have hlen : toks.length ≤ 29 := by
    simp only [slotCount, REGEX_MAX_OPERATORS] at hcap
    omega
  have htake : toks.take 29 = toks := List.take_of_length_le hlen
  by_cases hfit : bufUseToks toks ≤ REGEX_CHAR_BUFFER_SIZE - 1
  · rw [if_pos hfit]
    exact ⟨_, Regex_Compile_pattern toks trail hwf st (by
      rw [htake]; simp only [REGEX_CHAR_BUFFER_SIZE] at hfit ⊢; omega)⟩
  · rw [if_neg hfit]
    exact Regex_Compile_pattern_overflow toks trail hwf st
      (by rw [htake]; simp only [REGEX_CHAR_BUFFER_SIZE] at hfit ⊢; omega)

/-- Witness of C6 as amended: a single class of 38 content bytes compiles. -/
theorem C6_class_buffer_witness :
    (∀ t ∈ [Tok.cls false (List.replicate 38 97)], t.wf) ∧
    slotCount [Tok.cls false (List.replicate 38 97)] false < REGEX_MAX_OPERATORS ∧
    ∃ st1, Regex_Compile State.zero (renderPattern [Tok.cls false (List.replicate 38 97)] false)
      = .ret st1 (if bufUseToks [Tok.cls false (List.replicate 38 97)]
          ≤ REGEX_CHAR_BUFFER_SIZE - 1 then some 0 else none) :=
  ⟨by decide, by decide,
    C6_class_buffer State.zero [Tok.cls false (List.replicate 38 97)] false
      (by decide) (by decide)⟩

/-- C7, the code at the failing input: `Regex_Match("x", "*")` returns -1 at program start
and 0 after an earlier `Regex_Compile("x")`; the slot of `*` keeps the `ch` of the earlier
call and `matchone` compares the text with it. -/
theorem C7_hidden_state_changes_result :
    Regex_Match State.zero [120] [42] = some (-1) ∧
    Regex_Match ((Regex_Compile State.zero [120]).state State.zero) [120] [42] = some 0 := by
  decide

/-- C8, the claim as stated fails: with `h` the pointer returned for "a",
`Regex_Matchp("a", h)` is 0 before `Regex_Compile("b")` and -1 after it. -/
theorem C8_counterexample :
    (Regex_Compile State.zero [97]).handle = some (some 0) ∧
    Regex_Matchp stateA [97] (some 0) = 0 ∧
    Regex_Matchp ((Regex_Compile stateA [98]).state stateA) [97] (some 0) = -1 := by
  decide

/-- C8 as amended: all non-null pointers returned by `Regex_Compile` are the address of the
one static array, which every call overwrites.  With `h` returned for `p` and a subsequent
`Regex_Compile(q)` that also succeeds, `Regex_Matchp(t, h)` evaluated afterwards is the value
`Regex_Match(t, q)` returns; it is the value from before the call when `q = p`. -/
theorem C8_handles_alias (st st1 st2 : State) (p q t : List Nat) (h h2 : re_t)
    (hp : Regex_Compile st p = .ret st1 h) (hq : Regex_Compile st1 q = .ret st2 h2) :
    (h ≠ none → h2 ≠ none →
      h = h2 ∧ Regex_Match st1 t q = some (Regex_Matchp st2 t h)) ∧
    (q = p → st2 = st1 ∧ h2 = h ∧ Regex_Matchp st2 t h = Regex_Matchp st1 t h) := by
  constructor
  · intro hn hn2
    have e1 : h = some 0 := by
      rcases compileLoop_handle _ _ _ _ _ _ _ hp with e | e
      · exact absurd e hn
      · exact e
    have e2 : h2 = some 0 := by
      rcases compileLoop_handle _ _ _ _ _ _ _ hq with e | e
      · exact absurd e hn2
      · exact e
    refine ⟨by rw [e1, e2], ?_⟩
    simp only [Regex_Match, hq, e1, e2]
  · intro hqp
    subst hqp
    have := Regex_Compile_again st st1 q h hp
    rw [this] at hq
    injection hq with e1 e2
    subst e1; subst e2
    exact ⟨rfl, rfl, rfl⟩

/-- Witness of C8 as amended: "a" then "b" at program start. -/
theorem C8_handles_alias_witness :
    Regex_Compile State.zero [97] = .ret stateA (some 0) ∧
    Regex_Compile stateA [98] = .ret ((Regex_Compile stateA [98]).state stateA) (some 0) ∧
    ((some 0 : re_t) ≠ none → (some 0 : re_t) ≠ none →
      (some 0 : re_t) = some 0 ∧
      Regex_Match stateA [97] [98]
        = some (Regex_Matchp ((Regex_Compile stateA [98]).state stateA) [97] (some 0))) ∧
    (([98] : List Nat) = [97] → (Regex_Compile stateA [98]).state stateA = stateA ∧
      (some 0 : re_t) = some 0 ∧
      Regex_Matchp ((Regex_Compile stateA [98]).state stateA) [97] (some 0)
        = Regex_Matchp stateA [97] (some 0)) :=
  ⟨rfl, rfl,
    C8_handles_alias State.zero stateA ((Regex_Compile stateA [98]).state stateA) [97] [98] [97]
      (some 0) (some 0) rfl rfl⟩

/-- C9, the code at the failing input: for the pattern of one backslash, `Regex_Compile` at
program start returns the array with `UNUSED` left in slot 0, while the sentinel of the call
is written in slot 1 (after an earlier "ab", slot 1 goes from `CHAR` to `UNUSED` and slot 0
keeps the `CHAR` of the earlier call). -/
theorem C9_unpaired_backslash_leaves_slot :
    (Regex_Compile State.zero [92]).handle = some (some 0) ∧
    (((Regex_Compile State.zero [92]).state State.zero).Pattern_Compiled 0).type = UNUSED ∧
    (((Regex_Compile State.zero [97, 98]).state State.zero).Pattern_Compiled 1).type = CHAR ∧
    (((Regex_Compile ((Regex_Compile State.zero [97, 98]).state State.zero) [92]).state
      State.zero).Pattern_Compiled 1).type = UNUSED := by
  decide

/-- C10: per-character dispatch.  For every content of the static storage and every pattern
`p` without NUL and `[` that does not end in an unpaired backslash, split into tokens by
`tokenize`: if there are at most 29 tokens, `Regex_Compile` returns the array, slot `i` holds
the instruction of token `i` as listed in `Tok.instr` (type, and `ch` for a `CHAR`), and the
slot after the last token holds `UNUSED`. -/
theorem C10_dispatch (st : State) (p : List Nat) (h0 : 0 ∉ p) (h91 : 91 ∉ p)
    (hbs : Tok.plain 92 ∉ tokenize p) (hn : (tokenize p).length ≤ 29) :
    ∃ st1, Regex_Compile st p = .ret st1 (some 0) ∧
      (∀ i t, (tokenize p)[i]? = some t → holdsInstr (st1.Pattern_Compiled i) t) ∧
      (st1.Pattern_Compiled (tokenize p).length).type = UNUSED := by
  have hwf : ∀ t ∈ tokenize p, t.wf := by
    intro t ht
    rcases tokenize_mem p t ht with ⟨c, hc, rfl⟩ | ⟨d, hd, rfl⟩
    · refine ⟨fun h => h0 (h ▸ hc), fun h => hbs (h ▸ ht), fun h => h91 (h ▸ hc)⟩
    · exact fun h => h0 (h ▸ hd)
  have htake : (tokenize p).take 29 = tokenize p := List.take_of_length_le hn
  obtain ⟨st1, hc, hslots, hend⟩ := Regex_Compile_pattern_slots (tokenize p) false hwf st
    (by rw [htake, tokenize_bufUse]; decide)
  rw [htake] at hslots
  simp only [renderPattern, tokenize_render, Bool.false_eq_true, if_false,
    List.append_nil] at hc
  have hcnt : min (slotCount (tokenize p) false) 29 = (tokenize p).length := by
    simp [slotCount]; omega
  rw [hcnt] at hend
  exact ⟨st1, hc, hslots, hend⟩

/-- Witness of C10: the pattern `^\da`. -/
theorem C10_dispatch_witness :
    0 ∉ [94, 92, 100, 97] ∧ 91 ∉ [94, 92, 100, 97] ∧
    Tok.plain 92 ∉ tokenize [94, 92, 100, 97] ∧ (tokenize [94, 92, 100, 97]).length ≤ 29 ∧
    ∃ st1, Regex_Compile State.zero [94, 92, 100, 97] = .ret st1 (some 0) ∧
      (∀ i t, (tokenize [94, 92, 100, 97])[i]? = some t →
        holdsInstr (st1.Pattern_Compiled i) t) ∧
      (st1.Pattern_Compiled (tokenize [94, 92, 100, 97]).length).type = UNUSED :=
  ⟨by decide, by decide, by decide, by decide,
    C10_dispatch State.zero [94, 92, 100, 97] (by decide) (by decide) (by decide) (by decide)⟩

/-- C11: character classes are copied verbatim.  For every content of the static storage
and every class body with escapes (`wellEscaped`: no NUL, every backslash takes the byte
after it, no `]` other than one taken by a backslash) that fits the class buffer with its
terminating NUL, `Regex_Compile("[" ++ body ++ "]")` (for a body that does not start with
`^`) and `Regex_Compile("[^" ++ body ++ "]")` return the array with one `CHAR_CLASS`, resp.
`INV_CHAR_CLASS`, instruction followed by `UNUSED`, and the NUL-terminated string the
instruction points to is exactly `body`. -/
theorem C11_class_verbatim (st : State) (neg : Bool) (body : List Nat)
    (hwe : wellEscaped body = true) (hfit : 1 + body.length < REGEX_CHAR_BUFFER_SIZE)
    (hneg : neg = false → body.head? ≠ some 94) :
    ∃ st1, Regex_Compile st (91 :: ((if neg then [94] else []) ++ body ++ [93]))
        = .ret st1 (some 0) ∧
      (st1.Pattern_Compiled 0).type = (if neg then INV_CHAR_CLASS else CHAR_CLASS) ∧
      (st1.Pattern_Compiled 1).type = UNUSED ∧
      cstringAt st1.Char_Buffer (st1.Pattern_Compiled 0).ccl = body := by
  have hrun : Regex_Compile st (91 :: ((if neg then [94] else []) ++ body ++ [93]))
      = .ret ((((writeBytes (st.setType 0 (if neg then INV_CHAR_CLASS else CHAR_CLASS)) 1
            body).setBuf (1 + body.length) 0).setCcl 0 1).setType 1 UNUSED) (some 0) := by
    unfold Regex_Compile
    obtain ⟨f, hf⟩ : ∃ f, (91 :: ((if neg then [94] else []) ++ body ++ [93])).length + 1
        = f + 1 + 1 := ⟨((if neg then [94] else []) ++ body ++ [93]).length - 1 + 1, by
          simp only [List.length_cons, List.length_append]; omega⟩
    rw [hf]
    have : (91 :: ((if neg then [94] else []) ++ body ++ [93])) ++ [0]
        = 91 :: ((if neg then [94] else []) ++ body ++ 93 :: [0]) := by simp
    rw [this, compileLoop_class_escaped neg body hwe hneg 93 (Or.inl rfl) (f + 1) st [0] 0 1
      (by decide) hfit, compileLoop_exit _ _ _ _ _ _ (Or.inl rfl)]
  refine ⟨_, hrun, ?_, ?_, ?_⟩
  · simp
  · simp
  · have hccl : (((((writeBytes (st.setType 0 (if neg then INV_CHAR_CLASS else CHAR_CLASS)) 1
        body).setBuf (1 + body.length) 0).setCcl 0 1).setType 1 UNUSED).Pattern_Compiled
        0).ccl = 1 := by simp
    rw [hccl]
    simp only [setType_CB, setCcl_CB]
    unfold cstringAt
    rw [bufFrom_split _ body 1 (by omega) (fun k b hk => by
      simp only [setBuf_CB]
      rw [if_neg, writeBytes_CB_at body _ 1 k b hk]
      have : k < body.length := by
        by_contra hh
        rw [List.getElem?_eq_none (by omega)] at hk
        exact Option.noConfusion hk
      omega),
      bufFrom_cons _ _ (by omega)]
    simp only [setBuf_CB, if_true]
    exact takeWhile_cstring body _ (wellEscaped_ne_zero body hwe)

/-- Witness of C11: the class `[a-z\]]`, whose body holds a range and an escaped `]`. -/
theorem C11_class_verbatim_witness :
    wellEscaped [97, 45, 122, 92, 93] = true ∧
    1 + [97, 45, 122, 92, 93].length < REGEX_CHAR_BUFFER_SIZE ∧
    (false = false → [97, 45, 122, 92, 93].head? ≠ some 94) ∧
    ∃ st1, Regex_Compile State.zero
        (91 :: ((if false then [94] else []) ++ [97, 45, 122, 92, 93] ++ [93]))
        = .ret st1 (some 0) ∧
      (st1.Pattern_Compiled 0).type = (if false then INV_CHAR_CLASS else CHAR_CLASS) ∧
      (st1.Pattern_Compiled 1).type = UNUSED ∧
      cstringAt st1.Char_Buffer (st1.Pattern_Compiled 0).ccl = [97, 45, 122, 92, 93] :=
  ⟨by decide, by decide, by decide,
    C11_class_verbatim State.zero false [97, 45, 122, 92, 93] (by decide) (by decide)
      (by decide)⟩

/-- C12: the single-character predicates of `matchone`, for a non-NUL 7-bit character `c`:
`DOT` matches; `CHAR` matches iff `c` is its payload; `DIGIT` iff `c` is in `0..9`; `ALPHA`
iff `c` is a letter, a digit or `_`; `WHITESPACE` iff `c` is a space, `\t`, `\n`, `\r`,
`\f` or `\v`; the three negated types match exactly what their counterpart rejects;
`CHAR_CLASS` is `matchcharclass`, and `INV_CHAR_CLASS` matches iff `CHAR_CLASS` with the same
class pointer does not. -/
theorem C12_matchone_predicates (buf : Nat → Nat) (p : regex_t) (c : Nat) (_hc0 : c ≠ 0)
    (_hc7 : c < 128) :
    (p.type = DOT → matchone buf p c = true) ∧
    (p.type = CHAR → (matchone buf p c = true ↔ c = p.ch)) ∧
    (p.type = DIGIT → (matchone buf p c = true ↔ 48 ≤ c ∧ c ≤ 57)) ∧
    (p.type = ALPHA → (matchone buf p c = true ↔
      (97 ≤ c ∧ c ≤ 122) ∨ (65 ≤ c ∧ c ≤ 90) ∨ (48 ≤ c ∧ c ≤ 57) ∨ c = 95)) ∧
    (p.type = WHITESPACE → (matchone buf p c = true ↔
      c = 32 ∨ c = 9 ∨ c = 10 ∨ c = 13 ∨ c = 12 ∨ c = 11)) ∧
    (p.type = NOT_DIGIT → (matchone buf p c = true ↔ ¬ (48 ≤ c ∧ c ≤ 57))) ∧
    (p.type = NOT_ALPHA → (matchone buf p c = true ↔
      ¬ ((97 ≤ c ∧ c ≤ 122) ∨ (65 ≤ c ∧ c ≤ 90) ∨ (48 ≤ c ∧ c ≤ 57) ∨ c = 95))) ∧
    (p.type = NOT_WHITESPACE → (matchone buf p c = true ↔
      ¬ (c = 32 ∨ c = 9 ∨ c = 10 ∨ c = 13 ∨ c = 12 ∨ c = 11))) ∧
    (p.type = CHAR_CLASS → (matchone buf p c = true ↔ matchcharclass buf c p.ccl = true)) ∧
    (p.type = INV_CHAR_CLASS → (matchone buf p c = true ↔
      matchone buf { p with type := CHAR_CLASS } c = false)) := by
  refine ⟨?_, ?_, ?_, ?_, ?_, ?_, ?_, ?_, ?_, ?_⟩ <;> intro h
  · simp only [matchone, h]
  · simp only [matchone, h, beq_iff_eq]
    exact eq_comm
  · simp only [matchone, h]; exact matchdigit_iff c
  · simp only [matchone, h]; exact matchalphanum_iff c
  · simp only [matchone, h]; exact matchwhitespace_iff c
  · simp only [matchone, h]; exact bool_not_eq_true_iff _ _ (matchdigit_iff c)
  · simp only [matchone, h]; exact bool_not_eq_true_iff _ _ (matchalphanum_iff c)
  · simp only [matchone, h]; exact bool_not_eq_true_iff _ _ (matchwhitespace_iff c)
  · simp only [matchone, h]
  · simp only [matchone, h]
    cases matchcharclass buf c p.ccl <;> simp

/-- Witness of C12: the character `5` and a `DIGIT` slot. -/
theorem C12_matchone_predicates_witness :
    (53 : Nat) ≠ 0 ∧ (53 : Nat) < 128 ∧
    matchone stateA.Char_Buffer { type := DIGIT, ch := 0, ccl := 0 } 53 = true :=
  ⟨by decide, by decide,
    ((C12_matchone_predicates stateA.Char_Buffer { type := DIGIT, ch := 0, ccl := 0 } 53
      (by decide) (by decide)).2.2.1 rfl).mpr (by decide)⟩

/-- C13: character-class membership.  When the bytes at `&Char_Buffer[i]` are a class
content made of literal bytes and ranges `lo-hi` with `lo <= hi` (all of them 7-bit, not
NUL, not `-`, not a backslash) followed by NUL, then for every non-NUL 7-bit character `c`
other than `-`, `matchcharclass(c, &Char_Buffer[i])` is true iff `c` is one of the literals
or lies in one of the ranges; `matchone` for a `CHAR_CLASS` slot with this pointer matches
exactly these characters and for an `INV_CHAR_CLASS` slot exactly the others. -/
theorem C13_class_membership (buf : Nat → Nat) (i : Nat) (items : List ClassItem)
    (hwf : ∀ it ∈ items, it.wf) (junk : List Nat)
    (hbuf : bufFrom buf i = renderItems items ++ 0 :: junk)
    (c : Nat) (hc0 : c ≠ 0) (_hc7 : c < 128) (hc : c ≠ 45) :
    (matchcharclass buf c i = true ↔ ∃ it ∈ items, it.accepts c) ∧
    (∀ p : regex_t, p.ccl = i →
      (p.type = CHAR_CLASS → (matchone buf p c = true ↔ ∃ it ∈ items, it.accepts c)) ∧
      (p.type = INV_CHAR_CLASS → (matchone buf p c = true ↔ ¬ ∃ it ∈ items, it.accepts c))) := by
  have key : matchcharclass buf c i = true ↔ ∃ it ∈ items, it.accepts c := by
    unfold matchcharclass
    rw [hbuf]
    exact matchcharclassLoop_items c hc0 hc items hwf (0 :: junk) (by simp [strAt]) _
  refine ⟨key, fun p hp => ⟨fun h => ?_, fun h => ?_⟩⟩
  · simp only [matchone, h, hp]; exact key
  · simp only [matchone, h, hp]; exact bool_not_eq_true_iff _ _ key

/-- Witness of C13: the class `[a-zA-Z]` as `Regex_Compile` stores it, and the character
`q`. -/
theorem C13_class_membership_witness :
    (∀ it ∈ [ClassItem.range 97 122, ClassItem.range 65 90], it.wf) ∧
    bufFrom stateLetters.Char_Buffer 1
      = renderItems [ClassItem.range 97 122, ClassItem.range 65 90]
          ++ 0 :: List.replicate 32 0 ∧
    (113 : Nat) ≠ 0 ∧ (113 : Nat) < 128 ∧ (113 : Nat) ≠ 45 ∧
    (matchcharclass stateLetters.Char_Buffer 113 1 = true ↔
      ∃ it ∈ [ClassItem.range 97 122, ClassItem.range 65 90], it.accepts 113) :=
  ⟨by decide, by decide, by decide, by decide, by decide,
    (C13_class_membership stateLetters.Char_Buffer 1
      [ClassItem.range 97 122, ClassItem.range 65 90] (by decide) (List.replicate 32 0)
      (by decide) 113 (by decide) (by decide) (by decide)).1⟩

/-- C14: the zero-or-more handler.  For every instruction `p`, rest `R` of the pattern and
NUL-terminated text `t`, `matchstar(p, R, t)` is true iff for some `k <= len t` each of the
first `k` characters of `t` satisfies `matchone(p, .)` and `matchpattern(R, t[k..])`
succeeds; and `Regex_Match(a^n ++ "b", "a*b") = 0` for every `n` and every content of the
static storage. -/
theorem C14_matchstar (buf : Nat → Nat) (p : regex_t) (R : List regex_t) (t : List Nat)
    (ht : ∀ c ∈ t, c ≠ 0) (st : State) (n : Nat) :
    (matchstar buf p R t = true ↔
      ∃ k, k ≤ t.length ∧ (∀ c ∈ t.take k, matchone buf p c = true) ∧
        matchpattern buf R (t.drop k) = true) ∧
    Regex_Match st (List.replicate n 97 ++ [98]) [97, 42, 98] = some 0 :=
  ⟨starLoop_iff _ _ t ht, Regex_Match_star_example st n⟩

/-- Witness of C14: the text "aaab". -/
theorem C14_matchstar_witness :
    (∀ c ∈ [97, 97, 97, 98], c ≠ 0) ∧
    (matchstar stateA.Char_Buffer (stateA.Pattern_Compiled 0) [] [97, 97, 97, 98] = true ↔
      ∃ k, k ≤ [97, 97, 97, 98].length ∧
        (∀ c ∈ [97, 97, 97, 98].take k,
          matchone stateA.Char_Buffer (stateA.Pattern_Compiled 0) c = true) ∧
        matchpattern stateA.Char_Buffer [] ([97, 97, 97, 98].drop k) = true) ∧
    Regex_Match State.zero (List.replicate 3 97 ++ [98]) [97, 42, 98] = some 0 :=
  ⟨by decide,
    C14_matchstar stateA.Char_Buffer (stateA.Pattern_Compiled 0) [] [97, 97, 97, 98]
      (by decide) State.zero 3⟩

/-- C16, the code at the failing input: the class `[a-z-]` is stored as `a-z-` with a NUL
before and after it, its last byte is `-`, and yet `matchcharclass('-', ..)` is false and
`Regex_Match("-", "[a-z-]")` is -1: the loop returns at the first `-` of the content, which
is neither first nor last.  When the only `-` is the last or the first byte (`[az-]`,
`[-a]`) the character `-` is matched. -/
theorem C16_first_dash_decides :
    (Regex_Compile State.zero [91, 97, 45, 122, 45, 93]).handle = some (some 0) ∧
    cstringAt stateDash.Char_Buffer (stateDash.Pattern_Compiled 0).ccl = [97, 45, 122, 45] ∧
    stateDash.Char_Buffer 0 = 0 ∧
    matchcharclass stateDash.Char_Buffer 45 (stateDash.Pattern_Compiled 0).ccl = false ∧
    Regex_Match State.zero [45] [91, 97, 45, 122, 45, 93] = some (-1) ∧
    Regex_Match State.zero [45] [91, 97, 122, 45, 93] = some 0 ∧
    Regex_Match State.zero [45] [91, 45, 97, 93] = some 0 := by
  decide

/-- C17, the code at the failing input: for the pattern `x[ab`, whose class is not closed,
`Regex_Compile` does not return: after the copy loop has stopped at the terminating NUL the
pointer is moved past it, and the condition of the outer loop reads `Pattern` outside the
array. -/
theorem C17_unterminated_class_reads_outside :
    (Regex_Compile State.zero [120, 91, 97, 98]).isOutside = true ∧
    (Regex_Compile State.zero [120, 91, 97, 98]).handle = none := by
  decide

/-- C19: the backtracking matcher is complete for well-formed patterns.  For a pattern made
of items (an atom, optionally followed by one of `?`, `*`, `+`), then `END` when `hasEnd`,
then `UNUSED`, and for every NUL-terminated text `t`: `matchpattern` succeeds iff a prefix
of `t` splits into consecutive blocks, one per item, every character of a block satisfying
`matchone` for the atom of the item, with block length 1 for an unquantified item, 0 or 1
for `?`, any for `*`, at least 1 for `+`, and the prefix being all of `t` when `hasEnd`. -/
theorem C19_matcher_complete (buf : Nat → Nat) (items : List Item)
    (hwf : ∀ it ∈ items, it.wf) (hasEnd : Bool) (e u : regex_t) (he : e.type = END)
    (hu : u.type = UNUSED) (junk : List regex_t) (t : List Nat) (ht : ∀ c ∈ t, c ≠ 0) :
    matchpattern buf (wfPattern items hasEnd e u junk) t = true ↔ blocks buf items hasEnd t :=
  matchpattern_blocks buf items hwf hasEnd e u he hu junk t ht

/-- Witness of C19: the items `a*` and `b` (the pattern `a*b`) and the text "aab". -/
theorem C19_matcher_complete_witness :
    (∀ it ∈ [({ atom := ⟨CHAR, 97, 0⟩, quant := some ⟨STAR, 0, 0⟩ } : Item),
        { atom := ⟨CHAR, 98, 0⟩, quant := none }], it.wf) ∧
    (⟨END, 0, 0⟩ : regex_t).type = END ∧ (⟨UNUSED, 0, 0⟩ : regex_t).type = UNUSED ∧
    (∀ c ∈ [97, 97, 98], c ≠ 0) ∧
    (matchpattern stateA.Char_Buffer
        (wfPattern [{ atom := ⟨CHAR, 97, 0⟩, quant := some ⟨STAR, 0, 0⟩ },
          { atom := ⟨CHAR, 98, 0⟩, quant := none }] false ⟨END, 0, 0⟩ ⟨UNUSED, 0, 0⟩ [])
        [97, 97, 98] = true ↔
      blocks stateA.Char_Buffer [{ atom := ⟨CHAR, 97, 0⟩, quant := some ⟨STAR, 0, 0⟩ },
        { atom := ⟨CHAR, 98, 0⟩, quant := none }] false [97, 97, 98]) :=
  have hwf : ∀ it ∈ [({ atom := ⟨CHAR, 97, 0⟩, quant := some ⟨STAR, 0, 0⟩ } : Item),
      { atom := ⟨CHAR, 98, 0⟩, quant := none }], it.wf := by
    intro it hit
    simp only [List.mem_cons, List.mem_singleton, List.not_mem_nil, or_false] at hit
    rcases hit with rfl | rfl
    · exact ⟨Or.inl rfl, fun q hq => by cases hq; exact Or.inr (Or.inl rfl)⟩
    · exact ⟨Or.inl rfl, fun q hq => by cases hq⟩
  ⟨hwf, rfl, rfl, by decide,
    C19_matcher_complete stateA.Char_Buffer _ hwf false ⟨END, 0, 0⟩ ⟨UNUSED, 0, 0⟩ rfl rfl []
      [97, 97, 98] (by decide)⟩

/-- C20, the code at the failing input: `Regex_Compile` reads `Pattern` at an index larger
than the index of the terminating NUL for the patterns `[\` (a backslash last in a class:
the NUL is copied as the escaped byte and the loop goes on after it), `[a` and `[` (a class
that is not closed: the pointer is moved past the NUL after the copy loop). -/
theorem C20_reads_past_the_terminator :
    (Regex_Compile State.zero [91, 92]).isOutside = true ∧
    (Regex_Compile State.zero [91, 97]).isOutside = true ∧
    (Regex_Compile State.zero [91]).isOutside = true := by
  decide

/-- C21: `Regex_Compile` never writes outside its fixed buffers.  For every content of the
static storage and every pattern: the call that records its writes is the call
(`Regex_Compile`) when the record is dropped; every write it records, on every path (return
of the array, return of the failure value, or a read of `Pattern` outside the array), is to
`Pattern_Compiled` at an index in `0..29` or to `Char_Buffer` at an index in `1..39`; the
storage it leaves is the one it found at every instruction index from 30 on and at buffer
index 0 and from 40 on; and the bound on the writes holds as well for every number of
iterations of the loop whatever bytes `after` follow the terminating NUL of the pattern in
memory. -/
theorem C21_writes_in_bounds (st : State) (Pattern : List Nat) :
    (Regex_CompileLogged st Pattern).erase = Regex_Compile st Pattern ∧
    (∀ w ∈ (Regex_CompileLogged st Pattern).logged.log, w.inBounds = true) ∧
    (∀ j, REGEX_MAX_OPERATORS ≤ j →
      (Regex_CompileLogged st Pattern).logged.st.Pattern_Compiled j
        = st.Pattern_Compiled j) ∧
    (∀ j, j = 0 ∨ REGEX_CHAR_BUFFER_SIZE ≤ j →
      (Regex_CompileLogged st Pattern).logged.st.Char_Buffer j = st.Char_Buffer j) ∧
    (∀ (fuel : Nat) (after : List Nat),
      ∀ w ∈ (compileLoopLogged fuel { st := st, log := [] } (Pattern ++ 0 :: after) 0
          1).logged.log,
        w.inBounds = true) :=
  ⟨compileLoopLogged_erase _ _ _ _ _,
    compileLoopLogged_bounds _ st _,
    (compileLoopLogged_frame _ st _).1,
    (compileLoopLogged_frame _ st _).2,
    fun fuel _ => compileLoopLogged_bounds fuel st _⟩

/-- Witness of C21: a class of 39 bytes, `x` and 19 escaped `a`.  The last backslash is
stored at index 38 after its capacity check and its `a` at index 39 without one; the call
returns the failure value, and its writes are slot 0 and the buffer bytes 1 to 39. -/
theorem C21_writes_in_bounds_witness :
    (Regex_CompileLogged State.zero
      [91, 120, 92, 97, 92, 97, 92, 97, 92, 97, 92, 97, 92, 97, 92, 97, 92, 97, 92, 97, 92, 97,
        92, 97, 92, 97, 92, 97, 92, 97, 92, 97, 92, 97, 92, 97, 92, 97, 92, 97, 93]).logged.log
      = Write.instr 0 :: (List.range 39).map (fun k => Write.buf (k + 1)) ∧
    (Regex_Compile State.zero
      [91, 120, 92, 97, 92, 97, 92, 97, 92, 97, 92, 97, 92, 97, 92, 97, 92, 97, 92, 97, 92, 97,
        92, 97, 92, 97, 92, 97, 92, 97, 92, 97, 92, 97, 92, 97, 92, 97, 92, 97, 93]).handle
      = some none ∧
    ∀ w ∈ (Regex_CompileLogged State.zero
      [91, 120, 92, 97, 92, 97, 92, 97, 92, 97, 92, 97, 92, 97, 92, 97, 92, 97, 92, 97, 92, 97,
        92, 97, 92, 97, 92, 97, 92, 97, 92, 97, 92, 97, 92, 97, 92, 97, 92, 97, 93]).logged.log,
      w.inBounds = true :=
  ⟨by decide, by decide,
    (C21_writes_in_bounds State.zero
      [91, 120, 92, 97, 92, 97, 92, 97, 92, 97, 92, 97, 92, 97, 92, 97, 92, 97, 92, 97, 92, 97,
        92, 97, 92, 97, 92, 97, 92, 97, 92, 97, 92, 97, 92, 97, 92, 97, 92, 97, 93]).2.1⟩

end MiniRegex
